import Mathlib

/-!
# gm_bit: transposition table, search stack, search driver and front-end

A shallow embedding of `src/tt.cpp`, `src/searchstack.cpp`, the search functions
of `src/core/searchworker.cpp`, the commands of `src/cli.cpp` and the piece
placement of `src/board/board.cpp`, followed by the properties proved about
them.

Conventions.
* C++ `int` values are `Int`; unsigned words are `Nat`, reduced modulo the width
  of the destination wherever the source narrows them.
* `TTEntry` is the pair of 64-bit words `key`, `data`; the named members of the
  entry are bit ranges of `data`, as in the source's union.
* `MATE_BOUND`, `MAX_PLIES` and `Bucket::N` are declared in headers that are not
  among the sources. `MATE_BOUND` is an explicit argument, `Bucket::N` is the
  length of a bucket and the capacity of the stack is the length of `entries_`.
-/

namespace GmBit

/-! ## TTEntry (src/tt.cpp, lines 8-34) -/

/-- Bound of a stored score: upper bound (fail-low), lower bound (fail-high) or exact. -/
inductive Bound where
  | BOUND_ALPHA : Bound
  | BOUND_BETA : Bound
  | BOUND_EXACT : Bound
  deriving DecidableEq, Repr

/-- Modelled from the spec: the numeric values of the `Bound` enumerators (the
header declaring them is missing). They are pairwise distinct and below
`BOUND_NUM = 4`, which is what `assert(int(b) < BOUND_NUM)` and the two-bit
member `bound2` need. -/
def Bound.toNat : Bound → Nat
  | .BOUND_ALPHA => 1
  | .BOUND_BETA => 2
  | .BOUND_EXACT => 3

/-- A move is an opaque 16-bit code. -/
abbrev Move := Nat

/-- The entry as it lies in memory: the `key` word and the `data` word. -/
structure TTEntry where
  key : Nat
  data : Nat
  deriving DecidableEq, Repr

/-- The `w` bits of `d` starting at bit `lo`. -/
def bitsAt (d lo w : Nat) : Nat := d / 2 ^ lo % 2 ^ w

/-- Value of a 16-bit pattern read as `int16_t`. -/
def asInt16 (n : Nat) : Int := if n % 65536 < 32768 then (n % 65536 : Nat) else (n % 65536 : Nat) - 65536

/-- Bit pattern of `int16_t(s)`. -/
def int16Bits (s : Int) : Nat := (s % 65536).toNat

/-- Modelled from the spec: the layout of the `data` word (the header declaring
`TTEntry` is missing). The members are `move16`, a 6-bit depth, `bound2`, `age`,
`score16`, `eval16` and a 1-bit `avoid_null`; in 64 bits that leaves 7 bits for
`age`. They are laid out in that order from bit 0. -/
def packData (move16 depth5 bound2 age score16 eval16 avoid_null : Nat) : Nat :=
  move16 % 65536 + depth5 % 64 * 65536 + bound2 % 4 * 4194304 + age % 128 * 16777216
    + score16 % 65536 * 2147483648 + eval16 % 65536 * 140737488355328
    + avoid_null % 2 * 9223372036854775808

/-- Member `move16`. -/
def TTEntry.move16 (e : TTEntry) : Nat := bitsAt e.data 0 16
/-- Member `depth5` (six bits wide). -/
def TTEntry.depth5 (e : TTEntry) : Nat := bitsAt e.data 16 6
/-- Member `bound2`. -/
def TTEntry.bound2 (e : TTEntry) : Nat := bitsAt e.data 22 2
/-- Member `age`. -/
def TTEntry.age (e : TTEntry) : Nat := bitsAt e.data 24 7
/-- Bit pattern of member `score16`. -/
def TTEntry.score16Bits (e : TTEntry) : Nat := bitsAt e.data 31 16
/-- Bit pattern of member `eval16`. -/
def TTEntry.eval16Bits (e : TTEntry) : Nat := bitsAt e.data 47 16
/-- Member `score16`, an `int16_t`. -/
def TTEntry.score16 (e : TTEntry) : Int := asInt16 e.score16Bits
/-- Member `eval16`, an `int16_t`. -/
def TTEntry.eval16 (e : TTEntry) : Int := asInt16 e.eval16Bits
/-- Member `avoid_null`. -/
def TTEntry.avoid_null (e : TTEntry) : Bool := decide (bitsAt e.data 63 1 = 1)

/-- Assignment `e.age = a`: the age bits of `data` are replaced by the low seven
bits of `a`, every other bit is kept. -/
def TTEntry.setAge (e : TTEntry) (a : Nat) : TTEntry :=
  { key := e.key
    data := e.data - e.age * 16777216 + a % 128 * 16777216 }

/-- `TTEntry::score(ply)`. -/
def TTEntry.score (MATE_BOUND : Int) (e : TTEntry) (ply : Int) : Int :=
  let s := e.score16
  if s > MATE_BOUND then s - ply
  else if s < -MATE_BOUND then s + ply
  else s

/-- `TTEntry::TTEntry(key, s, e, b, depth, m, ply, null)`. The constructor does
not assign `age`; `age0` stands for the bits that member holds afterwards. -/
def TTEntry.new (MATE_BOUND : Int) (age0 : Nat) (key : Nat) (s e : Int) (b : Bound)
    (depth : Int) (m : Move) (ply : Int) (null : Bool) : TTEntry :=
  let s1 := if s > MATE_BOUND then s + ply else if s < -MATE_BOUND then s - ply else s
  { key := key % 18446744073709551616
    data := packData (m % 65536) ((min depth 63 % 256).toNat) b.toNat age0 (int16Bits s1)
      (int16Bits e) (if null then 1 else 0) }

/-! ## TranspositionTable (src/tt.cpp, lines 49-104) -/

/-- A bucket is its array of `Bucket::N` entries. -/
abbrev Bucket := List TTEntry

/-- The table: the bucket array (`size_` is its length) and the age counter.
Modelled from the spec: the declaration of `age_` is in a header that is
missing; the spec calls it a wrapping counter, and it is taken to have the
width of the entry's `age` member, seven bits, so that it holds a value below
128 in every state (`age_lt`). -/
structure TranspositionTable where
  buckets_ : List Bucket
  age_ : Nat
  age_lt : age_ < 128 := by decide
  deriving DecidableEq, Repr

/-- Member `size_`: the number of buckets. -/
def TranspositionTable.size_ (t : TranspositionTable) : Nat := t.buckets_.length

/-- `TranspositionTable::new_search`: `++age_` on the wrapping counter. -/
def TranspositionTable.new_search (t : TranspositionTable) : TranspositionTable :=
  { t with age_ := (t.age_ + 1) % 128, age_lt := Nat.mod_lt _ (by decide) }

/-- The loop of `probe` over the slots still to visit. The second argument is
the caller's entry `e`, overwritten by every slot visited. -/
def probeLoop (age_ key : Nat) : List TTEntry → TTEntry → Bool × TTEntry
  | [], e => (false, e)
  | x :: xs, _ =>
    if x.key ^^^ x.data = key then (true, x.setAge age_) else probeLoop age_ key xs x

/-- `TranspositionTable::probe(key, e)`: the returned flag and the final value
of the out-parameter `e`. There is no result on a table without buckets. -/
def TranspositionTable.probe (t : TranspositionTable) (key : Nat) (e : TTEntry) :
    Option (Bool × TTEntry) :=
  match t.buckets_[key % t.size_]? with
  | none => none
  | some b => some (probeLoop t.age_ key b e)

/-- First loop of `store`: the index of the first slot from index `i` on whose
`key ^ data` is the new key. -/
def storeFindKey (key : Nat) : List TTEntry → Nat → Option Nat
  | [], _ => none
  | x :: xs, i => if x.key ^^^ x.data = key then some i else storeFindKey key xs (i + 1)

/-- Second loop of `store`, on the pair `(replace, replace_depth)`. -/
def storeFindAged (age_ : Nat) : List TTEntry → Nat → Option Nat × Int → Option Nat × Int
  | [], _, st => st
  | x :: xs, i, st =>
    if x.age ≠ age_ ∧ (x.depth5 : Int) < st.2 then storeFindAged age_ xs (i + 1) (some i, x.depth5)
    else storeFindAged age_ xs (i + 1) st

/-- Third loop of `store`, on the pair `(replace, replace_depth)`. -/
def storeFindShallow : List TTEntry → Nat → Option Nat × Int → Option Nat × Int
  | [], _, st => st
  | x :: xs, i, st =>
    if (x.depth5 : Int) < st.2 then storeFindShallow xs (i + 1) (some i, x.depth5)
    else storeFindShallow xs (i + 1) st

/-- The slot `replace` that `store` ends up with (`none` for `nullptr`). -/
def storeSlot (age_ : Nat) (b : Bucket) (key : Nat) : Option Nat :=
  match storeFindKey key b 0 with
  | some i => some i
  | none =>
    match storeFindAged age_ b 0 (none, 9999) with
    | (some i, _) => some i
    | (none, replace_depth) => (storeFindShallow b 0 (none, replace_depth)).1

/-- What `store` writes into the chosen slot. -/
def storedSlot (age_ : Nat) (new_entry : TTEntry) : TTEntry :=
  { key := (new_entry.setAge age_).key ^^^ (new_entry.setAge age_).data
    data := (new_entry.setAge age_).data }

/-- `TranspositionTable::store(new_entry)`. There is no result on a table
without buckets or when `replace` stays `nullptr`. -/
def TranspositionTable.store (t : TranspositionTable) (new_entry : TTEntry) :
    Option TranspositionTable :=
  match t.buckets_[new_entry.key % t.size_]? with
  | none => none
  | some b =>
    match storeSlot t.age_ b new_entry.key with
    | none => none
    | some j =>
      some { t with buckets_ :=
        t.buckets_.set (new_entry.key % t.size_) (b.set j (storedSlot t.age_ new_entry)) }

/-- Both selection loops of `store` are this loop, for a test `p` on the slot. -/
def minDepthLoop (p : TTEntry → Bool) : List TTEntry → Nat → Option Nat × Int → Option Nat × Int
  | [], _, st => st
  | x :: xs, i, st =>
    if p x = true ∧ (x.depth5 : Int) < st.2 then minDepthLoop p xs (i + 1) (some i, x.depth5)
    else minDepthLoop p xs (i + 1) st

/-- Slot `j` of `xs` passes `p` and has the smallest depth among the slots that
pass `p`, strictly smaller than every such slot of lower index. -/
def LowestMinDepth (p : TTEntry → Bool) (xs : List TTEntry) (j : Nat) : Prop :=
  ∃ x, xs[j]? = some x ∧ p x = true
    ∧ (∀ (i : Nat) (y : TTEntry), xs[i]? = some y → p y = true → x.depth5 ≤ y.depth5)
    ∧ (∀ (i : Nat) (y : TTEntry), i < j → xs[i]? = some y → p y = true → x.depth5 < y.depth5)

/-- The slot `j` of bucket `b` that the replacement policy designates for `key`
at table age `age_`: (a) the lowest-index slot whose `key ^ data` is `key`; or,
when there is none, (b) the lowest-index slot of smallest depth among those
whose age differs from `age_`; or, when there is none either, (c) the
lowest-index slot of smallest depth. -/
def StoreChoice (age_ : Nat) (b : Bucket) (key j : Nat) : Prop :=
  (∃ x, b[j]? = some x ∧ x.key ^^^ x.data = key
      ∧ ∀ (i : Nat) (y : TTEntry), i < j → b[i]? = some y → y.key ^^^ y.data ≠ key)
  ∨ ((∀ (i : Nat) (y : TTEntry), b[i]? = some y → y.key ^^^ y.data ≠ key)
      ∧ LowestMinDepth (fun x => decide (x.age ≠ age_)) b j)
  ∨ ((∀ (i : Nat) (y : TTEntry), b[i]? = some y → y.key ^^^ y.data ≠ key)
      ∧ (∀ (i : Nat) (y : TTEntry), b[i]? = some y → y.age = age_)
      ∧ LowestMinDepth (fun _ => true) b j)

/-! ## can_return_ttscore (src/core/searchworker.cpp, lines 13-32) -/

/-- `can_return_ttscore(tte, alpha, beta, depth, ply)`: the returned flag and the
final value of the reference parameter `alpha`. The members this file calls
`depth8` and `bound8` are the entry's depth and bound. -/
def can_return_ttscore (MATE_BOUND : Int) (tte : TTEntry) (alpha beta depth ply : Int) :
    Bool × Int :=
  if (tte.depth5 : Int) < depth then (false, alpha)
  else
    let tt_score := tte.score MATE_BOUND ply
    if tte.bound2 = Bound.BOUND_EXACT.toNat then (true, tt_score)
    else if tte.bound2 = Bound.BOUND_ALPHA.toNat ∧ tt_score ≤ alpha then (true, alpha)
    else if tte.bound2 = Bound.BOUND_BETA.toNat ∧ tt_score ≥ beta then (true, beta)
    else (false, alpha)

/-- The cut-off test as the specification words it: it succeeds iff the entry is
deep enough and its bound is exact, or an upper bound with `s ≤ alpha`, or a
lower bound with `s ≥ beta`, where `s = entry.score(ply)`; on success `alpha`
becomes `s` for an exact bound and `beta` for a lower bound and stays for an
upper bound; on failure `alpha` stays. -/
def ttscore_cutoff_reference (MATE_BOUND : Int) (tte : TTEntry) (alpha beta depth ply : Int) :
    Bool × Int :=
  let s := tte.score MATE_BOUND ply
  let ok : Bool := decide ((tte.depth5 : Int) ≥ depth ∧
    (tte.bound2 = Bound.BOUND_EXACT.toNat ∨ (tte.bound2 = Bound.BOUND_ALPHA.toNat ∧ s ≤ alpha)
      ∨ (tte.bound2 = Bound.BOUND_BETA.toNat ∧ s ≥ beta)))
  (ok,
    if ok then
      (if tte.bound2 = Bound.BOUND_EXACT.toNat then s
       else if tte.bound2 = Bound.BOUND_BETA.toNat then beta
       else alpha)
    else alpha)

/-! ## Stack (src/searchstack.cpp) -/

/-- Modelled from the spec: `MOVE_NONE`, the reserved sentinel move (its value
is declared in a header that is missing). -/
def MOVE_NONE : Move := 0

/-- `Stack::Entry`: key, move played, the two killers, static evaluation. -/
structure StackEntry where
  key : Nat
  move : Move
  killers : Move × Move
  eval : Int
  deriving DecidableEq, Repr

/-- The stack: the fixed array `entries_` and the indices `start_`, `height_`. -/
structure Stack where
  entries_ : List StackEntry
  start_ : Int
  height_ : Int
  deriving DecidableEq, Repr

/-- Element `entries_[i]` for a C++ `int` index; `none` outside the array. -/
def Stack.entryAt (s : Stack) (i : Int) : Option StackEntry :=
  if 0 ≤ i then s.entries_[i.toNat]? else none

/-- `Stack::set_start`. -/
def Stack.set_start (s : Stack) (start : Int) : Stack := { s with start_ := start }

/-- `Stack::push`: writes slot `height_` and increments `height_`. There is no
result when the slot lies outside the array. -/
def Stack.push (s : Stack) (key : Nat) (m : Move) (eval : Int) : Option Stack :=
  if 0 ≤ s.height_ ∧ s.height_ < s.entries_.length then
    some { s with
      entries_ := s.entries_.set s.height_.toNat ⟨key, m, (MOVE_NONE, MOVE_NONE), eval⟩
      height_ := s.height_ + 1 }
  else none

/-- `Stack::pop`: there is no result when `assert(height_ > start_)` fails. -/
def Stack.pop (s : Stack) : Option Stack :=
  if s.height_ > s.start_ then some { s with height_ := s.height_ - 1 } else none

/-- `Stack::at(ply)`. -/
def Stack.at (s : Stack) (ply : Int) : Option StackEntry := s.entryAt (s.start_ + ply)

/-- `Stack::height`. -/
def Stack.height (s : Stack) : Int := s.height_ - s.start_

/-- `Stack::capped`, for a given `MAX_PLIES`. -/
def Stack.capped (MAX_PLIES : Int) (s : Stack) : Bool := decide (s.height_ ≥ MAX_PLIES)

/-- `Stack::total_height`. -/
def Stack.total_height (s : Stack) : Int := s.height_

/-- What `is_repetition` reads from the board. -/
structure Board where
  key : Nat
  half_moves : Int
  plies_from_null : Int
  deriving DecidableEq, Repr

/-- The loop of `is_repetition`, `for (i = ...; i >= k && fold; i -= 2)`, from
the current `i` and `fold`; the result is the final `fold`. There is no result
when an index lies outside the array or the fuel runs out. -/
def repetitionLoop (s : Stack) (key : Nat) (k : Int) : Nat → Int → Int → Option Int
  | 0, _, _ => none
  | fuel + 1, i, fold =>
    if i ≥ k ∧ fold ≠ 0 then
      match s.entryAt i with
      | none => none
      | some en => repetitionLoop s key k fuel (i - 2) (if en.key = key then fold - 1 else fold)
    else some fold

/-- `Stack::is_repetition(b, fold)`. The loop runs at most `height_ / 2` times,
so `height_ + 1` units of fuel are enough. -/
def Stack.is_repetition (s : Stack) (b : Board) (fold : Int) : Option Bool :=
  if s.height_ = 0 then some false
  else
    let halfmoves := min b.half_moves b.plies_from_null
    let k := max 0 (s.height_ - halfmoves)
    match repetitionLoop s b.key k (s.height_.toNat + 1) (s.height_ - 2) fold with
    | none => none
    | some fold1 => some (decide (fold1 = 0))

/-- One operation of a push/pop sequence. -/
inductive StackOp where
  | push (key : Nat) (m : Move) (eval : Int) : StackOp
  | pop : StackOp
  deriving DecidableEq, Repr

/-- Runs a sequence of pushes and pops; no result as soon as one of them has none. -/
def Stack.run : List StackOp → Stack → Option Stack
  | [], s => some s
  | StackOp.push key m eval :: ops, s =>
    match s.push key m eval with
    | none => none
    | some s1 => Stack.run ops s1
  | StackOp.pop :: ops, s =>
    match s.pop with
    | none => none
    | some s1 => Stack.run ops s1

/-- Number of pushes in a sequence. -/
def countPush : List StackOp → Int
  | [] => 0
  | StackOp.push _ _ _ :: ops => countPush ops + 1
  | StackOp.pop :: ops => countPush ops

/-- Number of pops in a sequence. -/
def countPop : List StackOp → Int
  | [] => 0
  | StackOp.push _ _ _ :: ops => countPop ops
  | StackOp.pop :: ops => countPop ops + 1

/-! ## Concrete states used to instantiate the theorems -/

/-- A table of two buckets of three slots at age 1; slot 1 of bucket 1 validates
for key 7 and was written at age 1. -/
def exampleTable : TranspositionTable :=
  { buckets_ := [[⟨0, 0⟩, ⟨0, 0⟩, ⟨0, 0⟩],
      [⟨0, 0⟩, storedSlot 1 (TTEntry.new 31000 0 7 50 0 Bound.BOUND_EXACT 4 99 0 false), ⟨0, 0⟩]]
    age_ := 1 }

/-- An entry for key 12345 (bucket 1 of `exampleTable`) holding a mate score. -/
def exampleEntry : TTEntry :=
  TTEntry.new 31000 5 12345 31500 (-20) Bound.BOUND_BETA 12 777 3 true

/-- A stack of capacity 6 in the state left by `reset`. -/
def exampleStack : Stack :=
  { entries_ := List.replicate 6 ⟨0, 0, (0, 0), 0⟩
    start_ := 0
    height_ := 0 }

/-- Number of entries that `is_repetition` has to count for board `b`: the
indices `i` below `height_` at even distance from `height_`, not below
`max(0, height_ - min(half_moves, plies_from_null))`, whose key is `b.key`. -/
def repetitionCount (s : Stack) (b : Board) : Nat :=
  (List.range s.height_.toNat).countP (fun (i : Nat) =>
    decide ((s.height_ - (i : Int)) % 2 = 0
      ∧ max 0 (s.height_ - min b.half_moves b.plies_from_null) ≤ (i : Int)
      ∧ (s.entryAt (i : Int)).map StackEntry.key = some b.key))

/-- Count restricted to the indices `i, i - 2, ...` not below `k`. -/
def repetitionCountFrom (s : Stack) (key : Nat) (k i : Int) : Nat :=
  (List.range (i + 1).toNat).countP (fun (j : Nat) =>
    decide ((i - (j : Int)) % 2 = 0 ∧ k ≤ (j : Int)
      ∧ (s.entryAt (j : Int)).map StackEntry.key = some key))

/-- Game history `7, 1, 7, 2` (keys of plies 0 to 3) on a stack of capacity 6. -/
def repeatingStack : Stack :=
  { entries_ := [⟨7, 0, (0, 0), 0⟩, ⟨1, 0, (0, 0), 0⟩, ⟨7, 0, (0, 0), 0⟩, ⟨2, 0, (0, 0), 0⟩,
      ⟨0, 0, (0, 0), 0⟩, ⟨0, 0, (0, 0), 0⟩]
    start_ := 4
    height_ := 4 }

/-! ## RootMovePicker (src/core/searchworker.cpp, lines 60-87) -/

/-- `RootMove`: a root move with its score, its score of the previous iteration
and the nodes attributed to it. -/
structure RootMove where
  move : Move
  score : Int
  prev_score : Int
  nodes : Nat
  deriving DecidableEq, Repr

/-- The root move picker. `moves_` is the used part of the array, so that
`num_moves_` is its length; `cur_` is the cursor. -/
structure RootMovePicker where
  moves_ : List RootMove
  cur_ : Nat
  deriving DecidableEq, Repr

/-- `RootMovePicker::num_moves`. -/
def RootMovePicker.num_moves (p : RootMovePicker) : Nat := p.moves_.length

/-- `RootMovePicker::next`: the returned move and the picker afterwards. -/
def RootMovePicker.next (p : RootMovePicker) : Move × RootMovePicker :=
  match p.moves_[p.cur_]? with
  | none => (MOVE_NONE, p)
  | some rm => (rm.move, { p with cur_ := p.cur_ + 1 })

/-- `RootMovePicker::update_last`: there is no result when the assertion
`cur_ > 0 && cur_ <= num_moves_` fails. -/
def RootMovePicker.update_last (p : RootMovePicker) (score : Int) (nodes : Nat) :
    Option RootMovePicker :=
  if 0 < p.cur_ ∧ p.cur_ ≤ p.moves_.length then
    match p.moves_[p.cur_ - 1]? with
    | none => none
    | some last =>
      some { p with moves_ := p.moves_.set (p.cur_ - 1) ⟨last.move, score, last.score, nodes⟩ }
  else none

/-- The comparison passed to `std::sort` by `complete_iter`. -/
def rootMoveBefore (x y : RootMove) : Bool :=
  if x.score ≠ y.score then decide (x.score > y.score) else decide (x.prev_score > y.prev_score)

/-- What `std::sort` guarantees for the comparison `before`: the result is a
rearrangement of the input in which no element is `before` an earlier one. -/
def StdSortContract {α : Type} (before : α → α → Bool) (sort : List α → List α) : Prop :=
  ∀ l : List α, (sort l).Perm l ∧ (sort l).Pairwise (fun x y => before y x = false)

/-- `RootMovePicker::complete_iter`, for the library's `std::sort` given as `sort`. -/
def RootMovePicker.complete_iter (sort : List RootMove → List RootMove) (p : RootMovePicker) :
    RootMovePicker :=
  { moves_ := sort p.moves_, cur_ := 0 }

/-- The moves returned by `n` successive calls of `next`, and the picker afterwards. -/
def RootMovePicker.nextMany : Nat → RootMovePicker → List Move × RootMovePicker
  | 0, p => ([], p)
  | n + 1, p => (p.next.1 :: (RootMovePicker.nextMany n p.next.2).1,
      (RootMovePicker.nextMany n p.next.2).2)

/-- A sort meeting `StdSortContract rootMoveBefore`: insertion sort on "not before". -/
def exampleSort (l : List RootMove) : List RootMove :=
  List.insertionSort (fun x y => rootMoveBefore y x = false) l

/-- A picker holding three searched root moves, cursor at the end. -/
def examplePicker : RootMovePicker :=
  { moves_ := [⟨11, 5, 0, 10⟩, ⟨12, 9, 1, 10⟩, ⟨13, 5, 3, 10⟩]
    cur_ := 3 }

/-! ## extract_pv and hashfull (src/tt.cpp, lines 111-140) -/

/-- The position reached from `b` by playing the moves `ms` in order. -/
def playMoves {B : Type} (do_move : B → Move → B) (b : B) (ms : List Move) : B :=
  ms.foldl do_move b

/-- The loop of `extract_pv(b, pv, len)`, from the current board `b`, entry
`tte` and count `n`; `pv` lists the moves written so far. The result is the
final `n` and the moves written. `key`, `is_valid_move` and `do_move` are the
board's operations. -/
def extract_pv_loop {B : Type} (key : B → Nat) (is_valid_move : B → Move → Bool)
    (do_move : B → Move → B) (t : TranspositionTable) (len : Int) :
    Nat → B → TTEntry → Int → List Move → Option (Int × List Move)
  | 0, _, _, _, _ => none
  | fuel + 1, b, tte, n, pv =>
    match t.probe (key b) tte with
    | none => none
    | some r =>
      if r.1 = true ∧ n < len then
        if is_valid_move b r.2.move16 = false then some (n, pv)
        else extract_pv_loop key is_valid_move do_move t len fuel (do_move b r.2.move16) r.2
          (n + 1) (pv ++ [r.2.move16])
      else some (n, pv)

/-- `TranspositionTable::extract_pv(b, pv, len)`: the returned count and the
moves written to `pv`. The loop body runs at most `len` times, so `len + 1`
units of fuel are enough; `tte0` is the initial content of the local `tte`. -/
def TranspositionTable.extract_pv {B : Type} (key : B → Nat) (is_valid_move : B → Move → Bool)
    (do_move : B → Move → B) (t : TranspositionTable) (tte0 : TTEntry) (b : B) (len : Int) :
    Option (Int × List Move) :=
  extract_pv_loop key is_valid_move do_move t len (len.toNat + 1) b tte0 0 []

/-- The test summed by `hashfull`: `e.depth5 && e.age == age_`. -/
def hashfullOccupied (age_ : Nat) (e : TTEntry) : Bool :=
  decide (e.depth5 ≠ 0) && decide (e.age = age_)

/-- The outer loop of `hashfull` over the buckets `i, i + 1, ...`, `rem` of them;
the inner loop adds the test over the entries of the bucket. There is no
result when a bucket index lies outside the table. -/
def hashfullLoop (t : TranspositionTable) : Nat → Nat → Nat → Option Nat
  | _, 0, cnt => some cnt
  | i, rem + 1, cnt =>
    match t.buckets_[i]? with
    | none => none
    | some b =>
      hashfullLoop t (i + 1) rem
        (b.foldl (fun c e => c + if hashfullOccupied t.age_ e = true then 1 else 0) cnt)

/-- `TranspositionTable::hashfull`, for `Bucket::N = N`. -/
def TranspositionTable.hashfull (N : Nat) (t : TranspositionTable) : Option Nat :=
  match hashfullLoop t 0 1000 0 with
  | none => none
  | some cnt => some (cnt / N)

/-- Number of slots of the first 1000 buckets with non-zero depth and the
table's current age. -/
def occupiedCount (t : TranspositionTable) : Nat :=
  ((t.buckets_.take 1000).map (fun b => b.countP (hashfullOccupied t.age_))).sum

/-- A toy board for `extract_pv`: the position is a number, every move `m < 3`
is valid and leads from `b` to `b + m`, and the key is the position. -/
def toyKey (b : Nat) : Nat := b

/-- Validity of a move on the toy board. -/
def toyValid (_ : Nat) (m : Move) : Bool := decide (m < 3)

/-- Playing a move on the toy board. -/
def toyDoMove (b : Nat) (m : Move) : Nat := b + m

/-- A one-bucket table holding entries for the toy positions 5 (move 2) and 7
(move 9, which is not valid). -/
def toyTable : TranspositionTable :=
  { buckets_ := [[storedSlot 0 (TTEntry.new 31000 0 5 0 0 Bound.BOUND_EXACT 1 2 0 false),
      storedSlot 0 (TTEntry.new 31000 0 7 0 0 Bound.BOUND_EXACT 1 9 0 false)]]
    age_ := 0 }

/-! ## UCI front-end (src/cli.cpp, lines 122-151 and 200-265) -/

/-- Extraction `is >> t` of a token from a stream given as its list of
whitespace-separated tokens: at the end of the stream `t` keeps its value. -/
def readToken (is : List String) (t : String) : String × List String :=
  match is with
  | [] => (t, [])
  | x :: xs => (x, xs)

/-- Extraction `is >> value` of an `int`: it fails at the end of the stream and
when `readInt`, the library's conversion, finds no integer in the next token. -/
def readIntToken (readInt : String → Option Int) (is : List String) : Option Int :=
  match is with
  | [] => none
  | x :: _ => readInt x

/-- The members of `cfg_` that `parse_setopt` assigns. -/
structure SearchConfig where
  multipv : Int
  asp_init_delta : Int
  asp_min_depth : Int
  deriving DecidableEq, Repr

/-- The bounds of the spin options, `defopts::*_MIN` and `defopts::*_MAX`; they
are declared in a header that is missing and are taken as given. -/
structure OptionBounds where
  TT_SIZE_MIN : Int
  TT_SIZE_MAX : Int
  MULTIPV_MIN : Int
  MULTIPV_MAX : Int
  ASP_INIT_MIN : Int
  ASP_INIT_MAX : Int
  ASP_MIN_DEPTH_MIN : Int
  ASP_MIN_DEPTH_MAX : Int
  deriving DecidableEq, Repr

/-- The lambda `inrange` of `parse_setopt`. -/
def inrange (x a b : Int) : Bool := decide (x ≥ a) && decide (x ≤ b)

/-- `TranspositionTable::resize(mbs)`, for `sizeof(Bucket) = sizeofBucket` and
`Bucket::N = N`: `size_` buckets, all zero. The argument is converted to
`size_t` and the product is taken in `size_t`. -/
def TranspositionTable.resize (sizeofBucket N : Nat) (t : TranspositionTable) (mbs : Int) :
    TranspositionTable :=
  { buckets_ := List.replicate
      ((mbs % 18446744073709551616).toNat * 1024 * 1024 % 18446744073709551616 / sizeofBucket)
      (List.replicate N ⟨0, 0⟩)
    age_ := t.age_
    age_lt := t.age_lt }

/-- `TranspositionTable::clear`: every bucket is zeroed in place. -/
def TranspositionTable.clear (t : TranspositionTable) : TranspositionTable :=
  { t with buckets_ := t.buckets_.map (fun b => b.map (fun _ => ⟨0, 0⟩)) }

/-- What `parse_setopt` acts on: the configuration `cfg_` and the table `g_tt`. -/
structure UciState where
  cfg_ : SearchConfig
  tt : TranspositionTable
  deriving DecidableEq, Repr

/-- `UCIContext::parse_setopt(is)`. `lower` is the library's `std::tolower`
applied to every character of the name and `readInt` the extraction of an
`int`. The options `evalfile` and `lmrcoeff` act on the evaluator and on the
reduction tables only, which are not part of `UciState`; stopping the search
before a resize is not represented. -/
def parse_setopt (lim : OptionBounds) (lower : String → String)
    (readInt : String → Option Int) (sizeofBucket N : Nat) (is : List String) (u : UciState) :
    UciState :=
  let r1 := readToken is ""
  let r2 := readToken r1.2 ""
  if r1.1 ≠ "name" then u
  else
    let name := lower r2.1
    let r3 := readToken r2.2 r1.1
    if name = "hash" then
      if r3.1 ≠ "value" then u
      else
        match readIntToken readInt r3.2 with
        | none => u
        | some value =>
          if inrange value lim.TT_SIZE_MIN lim.TT_SIZE_MAX = true then
            { u with tt := u.tt.resize sizeofBucket N value }
          else u
    else if name = "clear" then
      if r3.1 ≠ "hash" then u else { u with tt := u.tt.clear }
    else if name = "multipv" then
      if r3.1 ≠ "value" then u
      else
        match readIntToken readInt r3.2 with
        | none => u
        | some value =>
          if inrange value lim.MULTIPV_MIN lim.MULTIPV_MAX = true then
            { u with cfg_ := { u.cfg_ with multipv := value } }
          else u
    else if name = "evalfile" then u
    else if name = "aspdelta" then
      if r3.1 ≠ "value" then u
      else
        match readIntToken readInt r3.2 with
        | none => u
        | some value =>
          if inrange value lim.ASP_INIT_MIN lim.ASP_INIT_MAX = true then
            { u with cfg_ := { u.cfg_ with asp_init_delta := value } }
          else u
    else if name = "aspmindepth" then
      if r3.1 ≠ "value" then u
      else
        match readIntToken readInt r3.2 with
        | none => u
        | some value =>
          if inrange value lim.ASP_MIN_DEPTH_MIN lim.ASP_MIN_DEPTH_MAX = true then
            { u with cfg_ := { u.cfg_ with asp_min_depth := value } }
          else u
    else u

/-- Bounds used to instantiate the option theorems. -/
def exampleBounds : OptionBounds :=
  { TT_SIZE_MIN := 1, TT_SIZE_MAX := 1024, MULTIPV_MIN := 1, MULTIPV_MAX := 256,
    ASP_INIT_MIN := 1, ASP_INIT_MAX := 100, ASP_MIN_DEPTH_MIN := 1, ASP_MIN_DEPTH_MAX := 20 }

/-- A lower-casing that knows the spelling `MultiPV`. -/
def exampleLower (s : String) : String := if s = "MultiPV" then "multipv" else s

/-- An integer extraction that knows the tokens `0` and `4`. -/
def exampleReadInt (s : String) : Option Int :=
  if s = "0" then some 0 else if s = "4" then some 4 else none

/-- A front-end state with `multipv = 1`. -/
def exampleUci : UciState :=
  { cfg_ := { multipv := 1, asp_init_delta := 16, asp_min_depth := 5 }
    tt := exampleTable }

/-- `Stack::reset`: both indices are zeroed and the array is filled with zero
bytes. -/
def Stack.reset (s : Stack) : Stack :=
  { entries_ := s.entries_.map (fun _ => ⟨0, 0, (0, 0), 0⟩), start_ := 0, height_ := 0 }

/-- The loop `while (is >> s && s != "moves") fen += s + ' '` of
`parse_position`: the final `s`, the string `fen` and the rest of the stream. -/
def readFen : List String → String → String → String × String × List String
  | [], s, fen => (s, fen, [])
  | x :: xs, _, fen => if x = "moves" then (x, fen, xs) else readFen xs x (fen ++ x ++ " ")

/-- The loop over the move tokens of `parse_position`: each token is converted
on the current board; the first one that gives `MOVE_NONE` ends the loop,
otherwise the move is pushed with the key of the current board and played.
There is no result when a push has none. The default third argument of `push`
is taken to be 0. -/
def parseMovesLoop {B : Type} (key : B → Nat) (move_from_str : B → String → Move)
    (do_move : B → Move → B) : List String → B → Stack → Option (B × Stack)
  | [], b, st => some (b, st)
  | s :: rest, b, st =>
    if move_from_str b s = MOVE_NONE then some (b, st)
    else
      match st.push (key b) (move_from_str b s) 0 with
      | none => none
      | some st1 =>
        parseMovesLoop key move_from_str do_move rest (do_move b (move_from_str b s)) st1

/-- `UCIContext::parse_position(is)` on the board `board_` and the stack `st_`:
the board and the stack afterwards. `start_pos` and `load_fen` are the board's
operations; there is no result when `assert(result)` fails after `load_fen`. -/
def parse_position {B : Type} (key : B → Nat) (move_from_str : B → String → Move)
    (do_move : B → Move → B) (start_pos : B) (load_fen : B → String → Option B)
    (is : List String) (board_ : B) (st_ : Stack) : Option (B × Stack) :=
  let r1 := readToken is ""
  if r1.1 = "fen" then
    let r2 := readFen r1.2 r1.1 ""
    match load_fen board_ r2.2.1 with
    | none => none
    | some b =>
      if r2.1 ≠ "moves" then some (b, st_.reset)
      else
        match parseMovesLoop key move_from_str do_move r2.2.2 b st_.reset with
        | none => none
        | some r => some (r.1, r.2.set_start r.2.total_height)
  else if r1.1 = "startpos" then
    let r2 := readToken r1.2 r1.1
    if r2.1 ≠ "moves" then some (start_pos, st_.reset)
    else
      match parseMovesLoop key move_from_str do_move r2.2 start_pos st_.reset with
      | none => none
      | some r => some (r.1, r.2.set_start r.2.total_height)
  else some (board_, st_.reset)

/-- The board reached from `b` by converting and playing the tokens in order. -/
def playTokens {B : Type} (move_from_str : B → String → Move) (do_move : B → Move → B)
    (b : B) (toks : List String) : B :=
  toks.foldl (fun c tok => do_move c (move_from_str c tok)) b

/-- Move conversion on the toy board: `a` is move 1, `b` is move 2, anything
else is `MOVE_NONE`. -/
def toyMoveFromStr (_ : Nat) (s : String) : Move :=
  if s = "a" then 1 else if s = "b" then 2 else MOVE_NONE

/-- FEN loading on the toy board: only the string `"x "` loads, to position 100. -/
def toyLoadFen (_ : Nat) (fen : String) : Option Nat := if fen = "x " then some 100 else none

/-! ## Search driver (src/core/searchworker.cpp, lines 34-38 and 127-477)

The board, the static evaluation, the move pickers, the history table and the
clock are collaborators whose code is not among the sources; they are the
fields of `SearchEnv`. The debug tree recorder `g_tree` has no effect on the
search and is left out. -/

/-- `determine_bound(alpha, beta, old_alpha)`. -/
def determine_bound (alpha beta old_alpha : Int) : Bound :=
  if alpha ≥ beta then Bound.BOUND_BETA
  else if alpha > old_alpha then Bound.BOUND_EXACT
  else Bound.BOUND_ALPHA

/-- Conversion of an `int` to `int16_t`. -/
def toInt16 (x : Int) : Int := asInt16 (int16Bits x)

/-- Modelled from the spec: `mated_in(ply) = -VALUE_MATE + ply` (the header
defining it is missing). -/
def mated_in (VALUE_MATE ply : Int) : Int := -VALUE_MATE + ply

/-- `Stack::mated_score`, an `int16_t`. -/
def Stack.mated_score (VALUE_MATE : Int) (s : Stack) : Int :=
  toInt16 (mated_in VALUE_MATE s.height)

/-- Assignment of the killer pair of `entries_[i]`. -/
def Stack.setKillers (s : Stack) (i : Int) (k : Move × Move) : Option Stack :=
  match s.entryAt i with
  | none => none
  | some e => some { s with entries_ := s.entries_.set i.toNat { e with killers := k } }

/-- The counters `stats_` of the worker. -/
structure SearchStats where
  nodes : Nat
  qnodes : Nat
  fail_high : Nat
  fail_high_first : Nat
  deriving DecidableEq, Repr

/-- The state the search acts on: the table `g_tt`, the worker's stack, root
move picker, history table `hist_` (of a type `H` left open), counter and
followup tables, counters, the flag returned by `loop_.keep_going()`, and the
number of times the clock has been read. -/
structure SearchState (H : Type) where
  tt : TranspositionTable
  stack_ : Stack
  rmp_ : RootMovePicker
  hist_ : H
  counters_ : Nat → Move
  followups_ : Nat → Move
  stats_ : SearchStats
  keep_going : Bool
  clock : Nat

/-- The collaborators of the search for boards `B`, history tables `H` and move
pickers `MP`: the constants of the missing headers, `limits_.infinite`, the
clock (`out_of_time` at its `n`-th reading), the root position, the board's and
the evaluator's functions, the repetition test as the driver calls it
(`stack_.is_repetition(b.key(), b.half_moves())`), the move picker's two
constructors and its `next<only_tacticals>()`, which may read the worker's
state through the pointers it holds, and the library's `std::sort`. -/
structure SearchEnv (B H MP : Type) where
  VALUE_MATE : Int
  MATE_BOUND : Int
  MAX_PLIES : Int
  infinite : Bool
  out_of_time : Nat → Bool
  root_ : B
  key : B → Nat
  half_moves : B → Int
  checkers : B → Bool
  is_material_draw : B → Bool
  is_valid_move : B → Move → Bool
  is_quiet : B → Move → Bool
  do_move : B → Move → B
  eval : B → Int
  is_repetition : Stack → B → Bool
  from_to : Move → Nat
  add_bonus : H → B → Move → Int → H
  mp_new : B → Move → Move × Move → Move → Move → MP
  mp_new_q : B → MP
  mp_next : Bool → MP → SearchState H → Move × MP
  sort : List RootMove → List RootMove

/-- Result type of `search`, `quiescence` and `search_root`: the returned score
and the state afterwards; `none` when the model has no result. -/
abbrev SearchResult (H : Type) := Option (Int × SearchState H)

/-- `SearchWorker::check_time`. -/
def check_time {B H MP : Type} (env : SearchEnv B H MP) (st : SearchState H) : SearchState H :=
  if st.stats_.nodes % 2048 ≠ 0 then st
  else if st.keep_going = true ∧ env.infinite = false then
    { st with keep_going := !env.out_of_time st.clock, clock := st.clock + 1 }
  else st

/-- The three draw rules as `search` and `search_root` test them. -/
def drawByRule {B H MP : Type} (env : SearchEnv B H MP) (stk : Stack) (b : B) : Bool :=
  decide (env.half_moves b ≥ 100) || (!env.checkers b && env.is_material_draw b)
    || env.is_repetition stk b

/-- The state of a move loop when it ends: `alpha`, `best_score`, `best_move`,
`moves_tried` and the worker's state. -/
structure LoopResult (H : Type) where
  alpha : Int
  best_score : Int
  best_move : Move
  moves_tried : Nat
  st : SearchState H

/-- The move loop of `quiescence<with_evasions>` from the current picker, `alpha`
and `moves_tried`, including the two returns that follow it. `recQ` is
`quiescence` as called recursively; `gas` bounds the number of iterations. -/
def quiescenceLoop {B H MP : Type} (env : SearchEnv B H MP)
    (recQ : Bool → SearchState H → B → Int → Int → SearchResult H)
    (with_evasions : Bool) (b : B) (beta : Int) :
    Nat → MP → Int → Nat → SearchState H → SearchResult H
  | 0, _, _, _, _ => none
  | gas + 1, mp, alpha, moves_tried, st =>
    let nx := env.mp_next (!with_evasions) mp st
    if nx.1 = MOVE_NONE then
      if with_evasions = true ∧ moves_tried = 0 then
        some (st.stack_.mated_score env.VALUE_MATE, st)
      else some (alpha, st)
    else
      let bb := env.do_move b nx.1
      match st.stack_.push (env.key b) nx.1 0 with
      | none => none
      | some stk =>
        match recQ (!with_evasions && env.checkers bb) { st with stack_ := stk } bb
            (-beta) (-alpha) with
        | none => none
        | some r =>
          match r.2.stack_.pop with
          | none => none
          | some stk1 =>
            if -r.1 ≥ beta then some (beta, { r.2 with stack_ := stk1 })
            else
              quiescenceLoop env recQ with_evasions b beta gas nx.2
                (if -r.1 > alpha then -r.1 else alpha) (moves_tried + 1)
                { r.2 with stack_ := stk1 }

/-- Increment of `stats_.nodes` and `stats_.qnodes` in `quiescence`. -/
def countQNode {H : Type} (st : SearchState H) : SearchState H :=
  { st with stats_ := { st.stats_ with nodes := st.stats_.nodes + 1
                                       qnodes := st.stats_.qnodes + 1 } }

/-- Increment of `stats_.nodes` in `search`. -/
def countNode {H : Type} (st : SearchState H) : SearchState H :=
  { st with stats_ := { st.stats_ with nodes := st.stats_.nodes + 1 } }

/-- `SearchWorker::quiescence<with_evasions>(b, alpha, beta)`. -/
def quiescenceBody {B H MP : Type} (env : SearchEnv B H MP)
    (recQ : Bool → SearchState H → B → Int → Int → SearchResult H) (gas : Nat)
    (with_evasions : Bool) (st0 : SearchState H) (b : B) (alpha beta : Int) : SearchResult H :=
  let st1 := check_time env st0
  if st1.keep_going = false ∨ env.half_moves b ≥ 100 ∨ env.is_material_draw b = true
      ∨ env.is_repetition st1.stack_ b = true then
    some (0, st1)
  else if st1.stack_.capped env.MAX_PLIES = true then some (env.eval b, st1)
  else
    let st := countQNode st1
    let mated_score := st.stack_.mated_score env.VALUE_MATE
    let alpha1 := max alpha mated_score
    let beta1 := min beta (-mated_score - 1)
    if alpha1 ≥ beta1 then some (alpha1, st)
    else if with_evasions = false ∧ max alpha1 (env.eval b) ≥ beta1 then some (beta1, st)
    else
      quiescenceLoop env recQ with_evasions b beta1 gas (env.mp_new_q b)
        (if with_evasions = false then max alpha1 (env.eval b) else alpha1) 0 st

/-- The move loop of `search` from the current picker and loop variables.
`recS` is `search` as called recursively; `gas` bounds the number of
iterations. -/
def searchLoop {B H MP : Type} (env : SearchEnv B H MP)
    (recS : SearchState H → B → Int → Int → Int → SearchResult H) (b : B) (beta depth : Int) :
    Nat → MP → Int → Int → Move → Nat → SearchState H → Option (LoopResult H)
  | 0, _, _, _, _, _, _ => none
  | gas + 1, mp, alpha, best_score, best_move, moves_tried, st =>
    let nx := env.mp_next false mp st
    if nx.1 = MOVE_NONE then some ⟨alpha, best_score, best_move, moves_tried, st⟩
    else
      match st.stack_.push (env.key b) nx.1 0 with
      | none => none
      | some stk =>
        match recS { st with stack_ := stk } (env.do_move b nx.1) (-beta) (-alpha) (depth - 1) with
        | none => none
        | some r =>
          match r.2.stack_.pop with
          | none => none
          | some stk1 =>
            let score := -r.1
            let best_score1 := if score > best_score then score else best_score
            let best_move1 := if score > best_score then nx.1 else best_move
            let alpha1 := if score > alpha then score else alpha
            if score ≥ beta then
              some ⟨alpha1, best_score1, best_move1, moves_tried + 1, { r.2 with stack_ := stk1 }⟩
            else
              searchLoop env recS b beta depth gas nx.2 alpha1 best_score1 best_move1
                (moves_tried + 1) { r.2 with stack_ := stk1 }

/-- The updates of `search` after a fail high (`alpha >= beta` after the loop):
the counters, and for a quiet best move the killers of `entry = stack_.at(ply)`,
the history bonus, the counter move and the followup move. -/
def failHighUpdate {B H MP : Type} (env : SearchEnv B H MP) (b : B) (depth ply : Int)
    (opp_move prev best_move : Move) (moves_tried : Nat) (st : SearchState H) :
    Option (SearchState H) :=
  let st1 : SearchState H := { st with stats_ := { st.stats_ with
    fail_high := st.stats_.fail_high + 1
    fail_high_first := st.stats_.fail_high_first + (if moves_tried = 1 then 1 else 0) } }
  if env.is_quiet b best_move = true then
    match st1.stack_.at ply with
    | none => none
    | some entry =>
      match (if entry.killers.1 ≠ best_move then
          st1.stack_.setKillers (st1.stack_.start_ + ply) (best_move, entry.killers.1)
        else some st1.stack_) with
      | none => none
      | some stk =>
        some { st1 with
          stack_ := stk
          hist_ := env.add_bonus st1.hist_ b best_move (depth * depth)
          counters_ := Function.update st1.counters_ (env.from_to opp_move) best_move
          followups_ := if prev ≠ MOVE_NONE then
              Function.update st1.followups_ (env.from_to prev) best_move
            else st1.followups_ }
  else some st1

/-- The end of `search`, after the move loop: the return for a position without
moves, the fail-high updates, and the store into the table. -/
def searchFinish {B H MP : Type} (env : SearchEnv B H MP) (b : B) (beta depth ply old_alpha : Int)
    (opp_move prev : Move) (r : LoopResult H) : SearchResult H :=
  if r.moves_tried = 0 then
    if env.checkers b = true then some (r.st.stack_.mated_score env.VALUE_MATE, r.st)
    else some (0, r.st)
  else
    match (if r.alpha ≥ beta then
        failHighUpdate env b depth ply opp_move prev r.best_move r.moves_tried r.st
      else some r.st) with
    | none => none
    | some st =>
      let alpha := if r.alpha ≥ beta then beta else r.alpha
      if st.keep_going = true then
        match st.tt.store (TTEntry.new env.MATE_BOUND 0 (env.key b) alpha 0
            (determine_bound alpha beta old_alpha) depth r.best_move ply false) with
        | none => none
        | some tt1 => some (alpha, { st with tt := tt1 })
      else some (alpha, st)

/-- The part of `search` from the construction of the move picker on. -/
def searchMoves {B H MP : Type} (env : SearchEnv B H MP)
    (recS : SearchState H → B → Int → Int → Int → SearchResult H) (gas : Nat)
    (st : SearchState H) (b : B) (alpha beta depth ply : Int) (ttm : Move) : SearchResult H :=
  match st.stack_.at (ply - 1) with
  | none => none
  | some opp =>
    match (if ply ≥ 2 then (st.stack_.at (ply - 2)).map StackEntry.move else some MOVE_NONE) with
    | none => none
    | some prev =>
      match st.stack_.at ply with
      | none => none
      | some entry =>
        match searchLoop env recS b beta depth gas
            (env.mp_new b ttm entry.killers (st.counters_ (env.from_to opp.move))
              (if ply ≥ 2 then st.followups_ (env.from_to prev) else MOVE_NONE))
            alpha (-env.VALUE_MATE) MOVE_NONE 0 st with
        | none => none
        | some r => searchFinish env b beta depth ply alpha opp.move prev r

/-- The move `ttm` that `search` keeps from a probe: the entry's move if the
probe hit and the move is valid, otherwise `otherwise`. -/
def ttMove {B H MP : Type} (env : SearchEnv B H MP) (b : B) (pr : Bool × TTEntry)
    (otherwise : Move) : Move :=
  if pr.1 = true then
    (if env.is_valid_move b pr.2.move16 = true then pr.2.move16 else MOVE_NONE)
  else otherwise

/-- The part of `search` from the probe of the table on: the cut-off by the
table, internal iterative deepening, and the moves. -/
def searchProbe {B H MP : Type} (env : SearchEnv B H MP)
    (recS : SearchState H → B → Int → Int → Int → SearchResult H) (gas : Nat)
    (st : SearchState H) (b : B) (alpha beta depth ply : Int) : SearchResult H :=
  match st.tt.probe (env.key b) ⟨0, 0⟩ with
  | none => none
  | some pr =>
    let ttm := ttMove env b pr MOVE_NONE
    let cut := if pr.1 = true then can_return_ttscore env.MATE_BOUND pr.2 alpha beta depth ply
      else (false, alpha)
    if pr.1 = true ∧ cut.1 = true then
      some (cut.2,
        if ttm ≠ MOVE_NONE ∧ env.is_quiet b ttm = true then
          { st with hist_ := env.add_bonus st.hist_ b ttm (depth * depth) }
        else st)
    else if ttm = MOVE_NONE ∧ depth ≥ 5 then
      match recS st b cut.2 beta (depth - 2) with
      | none => none
      | some r =>
        match r.2.tt.probe (env.key b) pr.2 with
        | none => none
        | some pr2 => searchMoves env recS gas r.2 b cut.2 beta depth ply (ttMove env b pr2 ttm)
    else searchMoves env recS gas st b cut.2 beta depth ply ttm

/-- `SearchWorker::search(b, alpha, beta, depth)`. `recS` and `recQ` are `search`
and `quiescence` as called recursively. -/
def searchBody {B H MP : Type} (env : SearchEnv B H MP)
    (recS : SearchState H → B → Int → Int → Int → SearchResult H)
    (recQ : Bool → SearchState H → B → Int → Int → SearchResult H) (gas : Nat)
    (st0 : SearchState H) (b : B) (alpha beta depth : Int) : SearchResult H :=
  let ply := st0.stack_.height
  let st1 := check_time env st0
  if st1.keep_going = false then some (0, st1)
  else
    let mated_score := st1.stack_.mated_score env.VALUE_MATE
    let alpha1 := max alpha mated_score
    let beta1 := min beta (-mated_score - 1)
    if alpha1 ≥ beta1 then some (alpha1, st1)
    else if depth ≤ 0 then recQ (env.checkers b) st1 b alpha1 beta1
    else if (countNode st1).stack_.capped env.MAX_PLIES = true then
      some (env.eval b, countNode st1)
    else if drawByRule env (countNode st1).stack_ b = true then some (0, countNode st1)
    else searchProbe env recS gas (countNode st1) b alpha1 beta1 depth ply

/-- The functions `search` and `quiescence` with `n` levels of recursion left:
at level 0 there is no result; at level `n + 1` the bodies run with the
functions of level `n` as their recursive calls and `n + 1` loop iterations. -/
def searchLevel {B H MP : Type} (env : SearchEnv B H MP) :
    Nat → (SearchState H → B → Int → Int → Int → SearchResult H)
      × (Bool → SearchState H → B → Int → Int → SearchResult H)
  | 0 => (fun _ _ _ _ _ => none, fun _ _ _ _ _ => none)
  | n + 1 =>
    (searchBody env (searchLevel env n).1 (searchLevel env n).2 (n + 1),
      quiescenceBody env (searchLevel env n).2 (n + 1))

/-- `SearchWorker::search` with `fuel` levels of recursion. -/
def search {B H MP : Type} (env : SearchEnv B H MP) (fuel : Nat) :
    SearchState H → B → Int → Int → Int → SearchResult H :=
  (searchLevel env fuel).1

/-- `SearchWorker::quiescence<with_evasions>` with `fuel` levels of recursion. -/
def quiescence {B H MP : Type} (env : SearchEnv B H MP) (fuel : Nat) :
    Bool → SearchState H → B → Int → Int → SearchResult H :=
  (searchLevel env fuel).2

/-- The score of one root move in `search_root`: a full-window search for the
first move and while `depth <= 6`, otherwise a zero-window search followed by
a full-window search when the score falls strictly inside the window. -/
def rootMoveScore {B H : Type}
    (recS : SearchState H → B → Int → Int → Int → SearchResult H) (st : SearchState H) (bb : B)
    (alpha beta depth : Int) (moves_tried : Nat) : SearchResult H :=
  if moves_tried = 0 ∨ depth ≤ 6 then
    match recS st bb (-beta) (-alpha) (depth - 1) with
    | none => none
    | some r => some (-r.1, r.2)
  else
    match recS st bb (-(alpha + 1)) (-alpha) (depth - 1) with
    | none => none
    | some r =>
      if -r.1 > alpha ∧ -r.1 < beta then
        match recS r.2 bb (-beta) (-alpha) (depth - 1) with
        | none => none
        | some r2 => some (-r2.1, r2.2)
      else some (-r.1, r.2)

/-- The move loop of `search_root` from the current loop variables. `recS` is
`search`; `gas` bounds the number of iterations. -/
def rootLoop {B H MP : Type} (env : SearchEnv B H MP)
    (recS : SearchState H → B → Int → Int → Int → SearchResult H) (beta depth : Int) :
    Nat → Int → Int → Move → Nat → SearchState H → Option (LoopResult H)
  | 0, _, _, _, _, _ => none
  | gas + 1, alpha, best_score, best_move, moves_tried, st0 =>
    let nx := st0.rmp_.next
    let st : SearchState H := { st0 with rmp_ := nx.2 }
    if nx.1 = MOVE_NONE then some ⟨alpha, best_score, best_move, moves_tried, st⟩
    else
      match st.stack_.push (env.key env.root_) nx.1 0 with
      | none => none
      | some stk =>
        match rootMoveScore recS { st with stack_ := stk } (env.do_move env.root_ nx.1)
            alpha beta depth moves_tried with
        | none => none
        | some r =>
          match r.2.stack_.pop with
          | none => none
          | some stk1 =>
            match r.2.rmp_.update_last r.1 (r.2.stats_.nodes - st.stats_.nodes) with
            | none => none
            | some rmp1 =>
              let best_score1 := if r.1 > best_score then r.1 else best_score
              let best_move1 := if r.1 > best_score then nx.1 else best_move
              if r.1 ≥ beta then
                some ⟨beta, best_score1, best_move1, moves_tried + 1,
                  { r.2 with stack_ := stk1, rmp_ := rmp1 }⟩
              else
                rootLoop env recS beta depth gas (if r.1 > alpha then r.1 else alpha)
                  best_score1 best_move1 (moves_tried + 1)
                  { r.2 with stack_ := stk1, rmp_ := rmp1 }

/-- `SearchWorker::search_root(alpha, beta, depth)` for `search` given as `recS`
and `gas` loop iterations. -/
def searchRootBody {B H MP : Type} (env : SearchEnv B H MP)
    (recS : SearchState H → B → Int → Int → Int → SearchResult H) (gas : Nat)
    (st : SearchState H) (alpha beta depth : Int) : SearchResult H :=
  if drawByRule env st.stack_ env.root_ = true then some (0, st)
  else
    match st.tt.probe (env.key env.root_) ⟨0, 0⟩ with
    | none => none
    | some pr =>
      let cut := if pr.1 = true then can_return_ttscore env.MATE_BOUND pr.2 alpha beta depth 0
        else (false, alpha)
      if pr.1 = true ∧ cut.1 = true then some (cut.2, st)
      else
        match rootLoop env recS beta depth gas cut.2 (-env.VALUE_MATE) MOVE_NONE 0 st with
        | none => none
        | some r =>
          let st1 : SearchState H := { r.st with rmp_ := r.st.rmp_.complete_iter env.sort }
          if st1.keep_going = true then
            match st1.tt.store (TTEntry.new env.MATE_BOUND 0 (env.key env.root_) r.alpha 0
                (determine_bound r.alpha beta cut.2) depth r.best_move 0 false) with
            | none => none
            | some tt1 => some (r.alpha, { st1 with tt := tt1 })
          else some (r.alpha, st1)

/-- `SearchWorker::search_root` with `fuel` levels of recursion below it. -/
def search_root {B H MP : Type} (env : SearchEnv B H MP) (fuel : Nat) (st : SearchState H)
    (alpha beta depth : Int) : SearchResult H :=
  searchRootBody env (search env fuel) (fuel + 1) st alpha beta depth

/-- The `while` loop of `aspriration_window` from the current `score`, `delta`,
`alpha` and `beta`; `sr` is `search_root`. Divisions are those of C++ `int`. -/
def aspirationLoop {H : Type} (VALUE_MATE : Int)
    (sr : SearchState H → Int → Int → Int → SearchResult H) (depth : Int) :
    Nat → Int → Int → Int → Int → SearchState H → SearchResult H
  | 0, _, _, _, _, _ => none
  | gas + 1, score, delta, alpha, beta, st =>
    if st.keep_going = false then some (score, st)
    else
      match sr st alpha beta depth with
      | none => none
      | some r =>
        if r.1 ≤ alpha then
          aspirationLoop VALUE_MATE sr depth gas r.1 (delta + Int.tdiv delta 2)
            (max (-VALUE_MATE) (alpha - delta)) (Int.tdiv (alpha + beta) 2) r.2
        else if r.1 ≥ beta then
          aspirationLoop VALUE_MATE sr depth gas r.1 (delta + Int.tdiv delta 2) alpha
            (min VALUE_MATE (beta + delta)) r.2
        else some (r.1, r.2)

/-- `SearchWorker::aspriration_window(score, depth)` with `fuel` levels of
recursion below `search_root` and `fuel + 1` iterations of the window loop. -/
def aspriration_window {B H MP : Type} (env : SearchEnv B H MP) (fuel : Nat)
    (st : SearchState H) (score depth : Int) : SearchResult H :=
  if depth ≤ 5 then search_root env fuel st (-env.VALUE_MATE) env.VALUE_MATE depth
  else
    aspirationLoop env.VALUE_MATE (search_root env fuel) depth (fuel + 1) score 16 (score - 16)
      (score + 16) st

/-- A toy game for instantiating the search: positions are numbers, the move
`m` leads from `b` to `2 * b + m`; position 0 has the moves 1 and 2, position 1
has the move 1, and no other position has a move. -/
def toyMoves (b : Nat) : List Move := if b = 0 then [1, 2] else if b = 1 then [1] else []

/-- The toy collaborators: mate value 32000, `MAX_PLIES = 6`, no clock, no draw
rule, side to move in check exactly in position 2, evaluation `10 * b`, pickers
that list `toyMoves`, and insertion sort. -/
def toyEnv (root : Nat) : SearchEnv Nat Nat (List Move) :=
  { VALUE_MATE := 32000
    MATE_BOUND := 31000
    MAX_PLIES := 6
    infinite := true
    out_of_time := fun _ => false
    root_ := root
    key := fun b => b + 1
    half_moves := fun _ => 0
    checkers := fun b => decide (b = 2)
    is_material_draw := fun _ => false
    is_valid_move := fun b m => decide (m ∈ toyMoves b)
    is_quiet := fun _ _ => true
    do_move := fun b m => 2 * b + m
    eval := fun b => 10 * (b : Int)
    is_repetition := fun _ _ => false
    from_to := fun m => m
    add_bonus := fun h _ _ d => h + d.toNat
    mp_new := fun b _ _ _ _ => toyMoves b
    mp_new_q := fun _ => []
    mp_next := fun _ mp _ => (mp.headD MOVE_NONE, mp.tail)
    sort := exampleSort }

/-- A worker state at the root of a search: a cleared table of two buckets of
three slots at age 1, an empty stack of capacity 6, the given root moves, and
the search running. -/
def toyState (rootMoves : List Move) : SearchState Nat :=
  { tt := { buckets_ := [[⟨0, 0⟩, ⟨0, 0⟩, ⟨0, 0⟩], [⟨0, 0⟩, ⟨0, 0⟩, ⟨0, 0⟩]], age_ := 1 }
    stack_ := exampleStack
    rmp_ := { moves_ := rootMoves.map (fun m => ⟨m, 0, 0, 0⟩), cur_ := 0 }
    hist_ := 0
    counters_ := fun _ => MOVE_NONE
    followups_ := fun _ => MOVE_NONE
    stats_ := ⟨0, 0, 0, 0⟩
    keep_going := true
    clock := 0 }

/-- The toy worker state with the search cancelled. -/
def toyStopped : SearchState Nat := { toyState [1, 2] with keep_going := false }

/-- Position `b` has no move: the move picker that `search` constructs for it
returns `MOVE_NONE` at once, whatever it was seeded with. -/
def NoMoves {B H MP : Type} (env : SearchEnv B H MP) (b : B) : Prop :=
  ∀ (ttm : Move) (k : Move × Move) (c f : Move) (st : SearchState H),
    (env.mp_next false (env.mp_new b ttm k c f) st).1 = MOVE_NONE

/-- The toy worker state one ply below the root: the stack holds one entry. -/
def toyInterior : SearchState Nat :=
  { toyState [] with stack_ := { entries_ := exampleStack.entries_, start_ := 0, height_ := 1 } }

/-! ## Invariants of the search -/

/-- A score within `[-VALUE_MATE, +VALUE_MATE]`. -/
def InScoreRange (VALUE_MATE x : Int) : Prop := -VALUE_MATE ≤ x ∧ x ≤ VALUE_MATE

/-- The table has at least one bucket, no bucket is empty, and every slot holds
a `score16` within `[-VALUE_MATE, +VALUE_MATE]`. A cleared table with at least
one bucket of at least one slot is of this kind. -/
def TableOK (VALUE_MATE : Int) (t : TranspositionTable) : Prop :=
  0 < t.size_ ∧ (∀ b ∈ t.buckets_, b ≠ [])
    ∧ ∀ b ∈ t.buckets_, ∀ e ∈ b, InScoreRange VALUE_MATE e.score16

/-- The stack's indices lie within its array, `MAX_PLIES` does not exceed the
array, and the array is not longer than `VALUE_MATE`, so that mate scores at any
ply of the stack stay within the score range. -/
def StackOK (VALUE_MATE MAX_PLIES : Int) (s : Stack) : Prop :=
  0 ≤ s.start_ ∧ s.start_ ≤ s.height_ ∧ s.height_ ≤ s.entries_.length
    ∧ MAX_PLIES ≤ s.entries_.length ∧ (s.entries_.length : Int) ≤ VALUE_MATE

/-- The invariant of the worker's state during a search. -/
def SearchInv {B H MP : Type} (env : SearchEnv B H MP) (st : SearchState H) : Prop :=
  TableOK env.VALUE_MATE st.tt ∧ StackOK env.VALUE_MATE env.MAX_PLIES st.stack_

/-- What a call leaves in place: the stack's indices and capacity and the root
move picker. -/
def SameFrame {H : Type} (st st1 : SearchState H) : Prop :=
  st1.stack_.start_ = st.stack_.start_ ∧ st1.stack_.height_ = st.stack_.height_
    ∧ st1.stack_.entries_.length = st.stack_.entries_.length ∧ st1.rmp_ = st.rmp_

/-- Every move picker yields fewer than `W` moves: some measure of the picker
decreases with every move returned and is below `W` after construction. -/
def PickerFinite {B H MP : Type} (env : SearchEnv B H MP) (W : Nat) : Prop :=
  ∃ size : MP → Nat,
    (∀ (t : Bool) (mp : MP) (st : SearchState H),
      (env.mp_next t mp st).1 ≠ MOVE_NONE → size (env.mp_next t mp st).2 < size mp)
    ∧ (∀ (b : B) (ttm : Move) (k : Move × Move) (c f : Move), size (env.mp_new b ttm k c f) < W)
    ∧ (∀ b : B, size (env.mp_new_q b) < W)

/-- The assumptions on the collaborators: `1 ≤ VALUE_MATE ≤ 32767` so that
scores fit `int16_t`, `MATE_BOUND ≥ 0`, an evaluation within
`[-VALUE_MATE, +VALUE_MATE]`, and finite move pickers. -/
def EnvOK {B H MP : Type} (env : SearchEnv B H MP) (W : Nat) : Prop :=
  1 ≤ env.VALUE_MATE ∧ env.VALUE_MATE ≤ 32767 ∧ 0 ≤ env.MATE_BOUND
    ∧ (∀ b : B, InScoreRange env.VALUE_MATE (env.eval b)) ∧ PickerFinite env W

/-- Number of pushes the stack still accepts before `capped()`. -/
def stackRoom {B H MP : Type} (env : SearchEnv B H MP) (st : SearchState H) : Nat :=
  (env.MAX_PLIES - st.stack_.height_).toNat

/-- A call that returns: it yields a score within the range and a state that
satisfies the invariant and has the frame of the state it started from. -/
def SearchGood {B H MP : Type} (env : SearchEnv B H MP) (st : SearchState H)
    (res : SearchResult H) : Prop :=
  ∃ (r : Int) (st1 : SearchState H), res = some (r, st1) ∧ SearchInv env st1 ∧ SameFrame st st1
    ∧ InScoreRange env.VALUE_MATE r

/-- What the move loops need of `search` as called recursively: below the root,
with a window within the range and `n` at least the depth plus the room left on
the stack plus `W + 2`, the call returns well. -/
def SearchSpec {B H MP : Type} (env : SearchEnv B H MP) (W n : Nat)
    (recS : SearchState H → B → Int → Int → Int → SearchResult H) : Prop :=
  ∀ (st : SearchState H) (b : B) (alpha beta depth : Int),
    SearchInv env st → st.stack_.start_ < st.stack_.height_ →
    InScoreRange env.VALUE_MATE alpha → InScoreRange env.VALUE_MATE beta →
    depth.toNat + stackRoom env st + W + 2 ≤ n →
    SearchGood env st (recS st b alpha beta depth)

/-- What the move loops need of `quiescence` as called recursively. -/
def QuiescenceSpec {B H MP : Type} (env : SearchEnv B H MP) (W n : Nat)
    (recQ : Bool → SearchState H → B → Int → Int → SearchResult H) : Prop :=
  ∀ (we : Bool) (st : SearchState H) (b : B) (alpha beta : Int),
    SearchInv env st → st.stack_.start_ < st.stack_.height_ →
    InScoreRange env.VALUE_MATE alpha → InScoreRange env.VALUE_MATE beta →
    stackRoom env st + W + 1 ≤ n →
    SearchGood env st (recQ we st b alpha beta)

/-- The toy collaborators with the evaluation cut off at the mate value. -/
def toyEnvBounded : SearchEnv Nat Nat (List Move) :=
  { toyEnv 0 with eval := fun b => min (10 * (b : Int)) 32000 }

/-! ## Tables for the probe properties -/

/-- Every slot of every bucket is zero, as `resize` and `clear` leave them. -/
def AllZero (t : TranspositionTable) : Prop :=
  ∀ b ∈ t.buckets_, ∀ e ∈ b, e = (⟨0, 0⟩ : TTEntry)

/-- The cleared `exampleTable`: two buckets of three zero slots at age 1. -/
def zeroTable : TranspositionTable := exampleTable.clear

/-- An entry for key 5 searched to depth 3. -/
def entryFive : TTEntry := TTEntry.new 31000 0 5 50 0 Bound.BOUND_EXACT 3 99 0 false

/-- An entry for key 7 searched to depth 1. -/
def entrySeven : TTEntry := TTEntry.new 31000 0 7 60 0 Bound.BOUND_EXACT 1 98 0 false

/-- An entry for key 9 searched to depth 5. -/
def entryNine : TTEntry := TTEntry.new 31000 0 9 70 0 Bound.BOUND_EXACT 5 97 0 false

/-- A table of one bucket of two slots after two searches: `entryFive` is stored
during the search of age 1, then `new_search` starts the search of age 2, in
which `entrySeven` is stored. -/
def agedTable : Option TranspositionTable :=
  match (⟨[[⟨0, 0⟩, ⟨0, 0⟩]], 1, by decide⟩ : TranspositionTable).store entryFive with
  | none => none
  | some t => t.new_search.store entrySeven

/-! ## Perft report (src/cli.cpp, lines 185-198) -/

/-- What `parse_go_perft` does: it returns without output, or prints `nodes`
and `mnps`. -/
inductive PerftOutcome where
  | ignored : PerftOutcome
  | printed (nodes mnps : Nat) : PerftOutcome
  deriving DecidableEq, Repr

/-- The division `nodes / (delta * 1'000)` of `parse_go_perft` on 64-bit
unsigned operands (`delta` is converted to the type of `nodes`); there is no
result when the divisor is zero. -/
def perftMnps (nodes : Nat) (delta : Int) : Option Nat :=
  let divisor := (delta * 1000 % 18446744073709551616).toNat
  if divisor = 0 then none else some (nodes % 18446744073709551616 / divisor)

/-- Outcome of the extraction `is >> depth` of an `int`: it succeeds with the
integer read, or it fails and leaves a value in `depth`. -/
inductive IntExtraction where
  | ok (d : Int) : IntExtraction
  | failed (left : Int) : IntExtraction
  deriving DecidableEq, Repr

/-- The extraction `is >> depth` in `parse_go_perft`, where `depth` is
initialised to 1, on a stream given as its list of tokens: at the end of the
stream the extraction fails and `depth` keeps its initialiser 1; when
`readInt`, the library's conversion, finds no integer in the next token, it
fails and leaves 0. -/
def extractDepth (readInt : String → Option Int) (is : List String) : IntExtraction :=
  match is with
  | [] => IntExtraction.failed 1
  | x :: _ =>
    match readInt x with
    | some d => IntExtraction.ok d
    | none => IntExtraction.failed 0

/-- `UCIContext::parse_go_perft`. `rd` is the outcome of `is >> depth`, `perft`
the node counter and `delta` the elapsed time `timer::now() - start` in
milliseconds. There is no result when the division has a zero divisor. -/
def parse_go_perft {B : Type} (perft : B → Int → Nat) (board_ : B) (rd : IntExtraction)
    (delta : Int) : Option PerftOutcome :=
  let depth : Int := match rd with
    | IntExtraction.ok d => d
    | IntExtraction.failed left => left
  let extracted : Bool := match rd with
    | IntExtraction.ok _ => true
    | IntExtraction.failed _ => false
  if extracted = true ∧ depth < 1 then some PerftOutcome.ignored
  else
    match perftMnps (perft board_ depth) delta with
    | none => none
    | some mnps => some (PerftOutcome.printed (perft board_ depth % 18446744073709551616) mnps)

/-- The divisors of the reporting divisions in `iterative_deepening`: `elapsed + 1`
for `nps`, `fail_high + 1` for `fhf` and `max(1, prev_nodes)` for `ebf`. -/
def reportDivisors (elapsed : Int) (fail_high prev_nodes : Nat) : Int × Nat × Nat :=
  (elapsed + 1, fail_high + 1, max 1 prev_nodes)

/-! ## States with a capped stack -/

/-- A stack whose array has two entries more than `MAX_PLIES = 6`, in the state
left by `reset`. -/
def roomyStack : Stack :=
  { entries_ := List.replicate 8 ⟨0, 0, (0, 0), 0⟩
    start_ := 0
    height_ := 0 }

/-- The toy worker state at a root reached after six game moves: the stack is
capped (`start_ = height_ = 6 = MAX_PLIES`), with an array of `capacity`
entries. -/
def cappedRootState (capacity : Nat) : SearchState Nat :=
  { toyState [1, 2] with
    stack_ := { entries_ := List.replicate capacity ⟨0, 0, (0, 0), 0⟩, start_ := 6, height_ := 6 } }

/-- The toy worker state one ply below the root, where the slot of ply 1 holds
the killers `(5, 7)` left by an earlier node of that ply. -/
def killerState : SearchState Nat :=
  { toyState [] with
    stack_ := { entries_ := [⟨1, 1, (0, 0), 0⟩, ⟨0, 0, (5, 7), 0⟩, ⟨0, 0, (0, 0), 0⟩,
        ⟨0, 0, (0, 0), 0⟩, ⟨0, 0, (0, 0), 0⟩, ⟨0, 0, (0, 0), 0⟩], start_ := 0, height_ := 1 } }

/-! ## Piece placement (src/board/board.cpp, lines 75-107) -/

/-- The helpers and tables that `put_piece` and `remove_piece` use and whose
declarations are in headers that are not among the sources: `square_bb`,
`type_of`, `color_of`, the two overloads of `is_ok`, the table `mg_value`, the
table `ZOBRIST.psq` and the constant `NO_PIECE`. Pieces, piece types, colours
and squares are their integer codes. -/
structure PieceOps where
  square_bb : Nat → Nat
  type_of : Nat → Nat
  color_of : Nat → Nat
  is_ok_piece : Nat → Bool
  is_ok_square : Nat → Bool
  mg_value : Nat → Int
  psq : Nat → Nat → Nat
  NO_PIECE : Nat

/-- The members of `Board` that `put_piece` and `remove_piece` read and write:
the bitboards `combined_`, `color_combined_[c]` and `pieces_[pt]`, the array
`pieces_on_[s]`, the totals `material_[c]` and the Zobrist key `key_`. Arrays
are lists of their elements. -/
structure PieceBoard where
  combined_ : Nat
  color_combined_ : List Nat
  pieces_ : List Nat
  pieces_on_ : List Nat
  material_ : List Int
  key_ : Nat
  deriving DecidableEq, Repr

/-- `Board::put_piece(p, s)`. There is no result when an assertion fails or an
array is indexed outside its bounds. -/
def put_piece (ops : PieceOps) (b : PieceBoard) (p s : Nat) : Option PieceBoard :=
  if ops.is_ok_piece p = true ∧ ops.is_ok_square s = true
      ∧ b.combined_ &&& ops.square_bb s = 0 ∧ s < b.pieces_on_.length then
    match b.color_combined_[ops.color_of p]?, b.pieces_[ops.type_of p]?,
        b.material_[ops.color_of p]? with
    | some cc, some pc, some mat =>
      some { combined_ := b.combined_ ||| ops.square_bb s
             color_combined_ := b.color_combined_.set (ops.color_of p) (cc ||| ops.square_bb s)
             pieces_ := b.pieces_.set (ops.type_of p) (pc ||| ops.square_bb s)
             pieces_on_ := b.pieces_on_.set s p
             material_ := b.material_.set (ops.color_of p) (mat + ops.mg_value (ops.type_of p))
             key_ := b.key_ ^^^ ops.psq p s }
    | _, _, _ => none
  else none

/-- `Board::remove_piece(s)`. There is no result when an assertion fails or an
array is indexed outside its bounds. -/
def remove_piece (ops : PieceOps) (b : PieceBoard) (s : Nat) : Option PieceBoard :=
  if ops.is_ok_square s = true ∧ b.combined_ &&& ops.square_bb s ≠ 0 then
    match b.pieces_on_[s]? with
    | none => none
    | some p =>
      match b.color_combined_[ops.color_of p]?, b.pieces_[ops.type_of p]?,
          b.material_[ops.color_of p]? with
      | some cc, some pc, some mat =>
        some { combined_ := b.combined_ ^^^ ops.square_bb s
               color_combined_ := b.color_combined_.set (ops.color_of p) (cc ^^^ ops.square_bb s)
               pieces_ := b.pieces_.set (ops.type_of p) (pc ^^^ ops.square_bb s)
               pieces_on_ := b.pieces_on_.set s ops.NO_PIECE
               material_ := b.material_.set (ops.color_of p) (mat - ops.mg_value (ops.type_of p))
               key_ := b.key_ ^^^ ops.psq p s }
      | _, _, _ => none
  else none

/-- Union of the boards of an array of bitboards. -/
def unionOf (l : List Nat) : Nat := l.foldl (fun acc x => acc ||| x) 0

/-- The consistency invariant of the bitboards: `color_combined_` has the two
boards of `WHITE` and `BLACK`, they are disjoint, and `combined_` is their union
and the union of all `pieces_` boards. -/
def PieceBoard.Consistent (b : PieceBoard) : Prop :=
  ∃ w k : Nat, b.color_combined_ = [w, k] ∧ b.combined_ = w ||| k ∧ w &&& k = 0
    ∧ b.combined_ = unionOf b.pieces_

/-- Toy helpers: a piece is `8 * colour + type` with types 1 to 6, `square_bb(s)`
is bit `s`, and the tables are simple arithmetic. -/
def toyPieceOps : PieceOps :=
  { square_bb := fun s => 2 ^ s
    type_of := fun p => p % 8
    color_of := fun p => p / 8
    is_ok_piece := fun p => decide (p < 16 ∧ 1 ≤ p % 8 ∧ p % 8 ≤ 6)
    is_ok_square := fun s => decide (s < 64)
    mg_value := fun pt => 100 * (pt : Int)
    psq := fun p s => 64 * p + s + 1
    NO_PIECE := 0 }

/-- A toy board with a white king (piece 6) on square 4 and a black king (piece
14) on square 60. -/
def toyPieceBoard : PieceBoard :=
  { combined_ := 2 ^ 4 + 2 ^ 60
    color_combined_ := [2 ^ 4, 2 ^ 60]
    pieces_ := [0, 0, 0, 0, 0, 0, 2 ^ 4 + 2 ^ 60, 0]
    pieces_on_ := (List.replicate 64 0).set 4 6 |>.set 60 14
    material_ := [600, 600]
    key_ := 12345 }

/-- A table of 1000 three-slot buckets at age 1. Each of the first 400 buckets
holds one entry of the current age (depth 3), one entry of age 0 (depth 1) and
one zero slot; the other 600 buckets are zero. -/
def partlyFullThousand : TranspositionTable :=
  { buckets_ := List.replicate 400 [storedSlot 1 entryFive, storedSlot 0 entrySeven, ⟨0, 0⟩]
      ++ List.replicate 600 [⟨0, 0⟩, ⟨0, 0⟩, ⟨0, 0⟩]
    age_ := 1 }

/-- The toy board with a stray bit of square 12 in the white board: square 12
is empty in `combined_` and in `pieces_on_`, but the board does not satisfy the
consistency invariant. -/
def strayBoard : PieceBoard := { toyPieceBoard with color_combined_ := [2 ^ 4 + 2 ^ 12, 2 ^ 60] }

/-- A board whose bitboards hold one white pawn (type 1) on square 12 and satisfy
the consistency invariant, while `pieces_on_[12]` names the black knight (piece
10). -/
def badBoard : PieceBoard :=
  { combined_ := 2 ^ 12
    color_combined_ := [2 ^ 12, 0]
    pieces_ := [0, 2 ^ 12, 0, 0, 0, 0, 0, 0]
    pieces_on_ := (List.replicate 64 0).set 12 10
    material_ := [100, 0]
    key_ := 777 }

/-- The toy board with a white pawn (piece 1) on square 12. -/
def pawnBoard : PieceBoard :=
  { combined_ := 2 ^ 4 + 2 ^ 12 + 2 ^ 60
    color_combined_ := [2 ^ 4 + 2 ^ 12, 2 ^ 60]
    pieces_ := [0, 2 ^ 12, 0, 0, 0, 0, 2 ^ 4 + 2 ^ 60, 0]
    pieces_on_ := (List.replicate 64 0).set 4 6 |>.set 60 14 |>.set 12 1
    material_ := [700, 600]
    key_ := 4242 }

/-! ## Properties -/

/-! ### Reading the members of a packed word -/

theorem bitsAt_packData_move (m d b a s e n : Nat) :
    bitsAt (packData m d b a s e n) 0 16 = m % 65536 := by
  simp only [bitsAt, packData]; norm_num; omega

theorem bitsAt_packData_depth (m d b a s e n : Nat) :
    bitsAt (packData m d b a s e n) 16 6 = d % 64 := by
  simp only [bitsAt, packData]; norm_num; omega

theorem bitsAt_packData_bound (m d b a s e n : Nat) :
    bitsAt (packData m d b a s e n) 22 2 = b % 4 := by
  simp only [bitsAt, packData]; norm_num; omega

theorem bitsAt_packData_age (m d b a s e n : Nat) :
    bitsAt (packData m d b a s e n) 24 7 = a % 128 := by
  simp only [bitsAt, packData]; norm_num; omega

theorem bitsAt_packData_score (m d b a s e n : Nat) :
    bitsAt (packData m d b a s e n) 31 16 = s % 65536 := by
  simp only [bitsAt, packData]; norm_num; omega

theorem bitsAt_packData_eval (m d b a s e n : Nat) :
    bitsAt (packData m d b a s e n) 47 16 = e % 65536 := by
  simp only [bitsAt, packData]; norm_num; omega

theorem bitsAt_packData_null (m d b a s e n : Nat) :
    bitsAt (packData m d b a s e n) 63 1 = n % 2 := by
  simp only [bitsAt, packData]; norm_num; omega

theorem packData_lt (m d b a s e n : Nat) :
    packData m d b a s e n < 18446744073709551616 := by
  simp only [packData]; omega

theorem asInt16_int16Bits (s : Int) (hlo : -32768 ≤ s) (hhi : s ≤ 32767) :
    asInt16 (int16Bits s % 65536) = s := by
  unfold asInt16 int16Bits
  split <;> omega

theorem new_move16 (MB : Int) (age0 key : Nat) (s ev : Int) (b : Bound) (d : Int) (m : Move)
    (p : Int) (null : Bool) : (TTEntry.new MB age0 key s ev b d m p null).move16 = m % 65536 := by
  simp only [TTEntry.new, TTEntry.move16, bitsAt_packData_move]; omega

theorem new_depth5 (MB : Int) (age0 key : Nat) (s ev : Int) (b : Bound) (d : Int) (m : Move)
    (p : Int) (null : Bool) :
    (TTEntry.new MB age0 key s ev b d m p null).depth5 = (min d 63 % 256).toNat % 64 := by
  simp only [TTEntry.new, TTEntry.depth5, bitsAt_packData_depth]

theorem new_bound2 (MB : Int) (age0 key : Nat) (s ev : Int) (b : Bound) (d : Int) (m : Move)
    (p : Int) (null : Bool) : (TTEntry.new MB age0 key s ev b d m p null).bound2 = b.toNat := by
  simp only [TTEntry.new, TTEntry.bound2, bitsAt_packData_bound]
  cases b <;> rfl

theorem new_score16 (MB : Int) (age0 key : Nat) (s ev : Int) (b : Bound) (d : Int) (m : Move)
    (p : Int) (null : Bool) :
    (TTEntry.new MB age0 key s ev b d m p null).score16
      = asInt16 (int16Bits (if s > MB then s + p else if s < -MB then s - p else s) % 65536) := by
  simp only [TTEntry.new, TTEntry.score16, TTEntry.score16Bits, bitsAt_packData_score]

/-- C1. Round trip of the constructor at equal ply: for a 16-bit move `m`, a
depth `0 ≤ d ≤ 63`, a ply `p ≥ 0` and a score `s` with `|s| + p` in the range of
`int16_t`, the entry built by `TTEntry(key, s, eval, b, d, m, p, null)` has
`move16 = m`, `bound2 = b`, depth `d` and `score(p) = s`, whatever `MATE_BOUND`
is and so for mate scores as well as ordinary ones. -/
theorem ttentry_round_trip_same_ply (MATE_BOUND : Int) (age0 key : Nat) (s ev : Int) (b : Bound)
    (d : Int) (m : Move) (p : Int) (null : Bool) (hm : m < 65536) (hd0 : 0 ≤ d) (hd : d ≤ 63)
    (hp : 0 ≤ p) (hs : |s| + p ≤ 32767) :
    (TTEntry.new MATE_BOUND age0 key s ev b d m p null).move16 = m
    ∧ (TTEntry.new MATE_BOUND age0 key s ev b d m p null).bound2 = b.toNat
    ∧ ((TTEntry.new MATE_BOUND age0 key s ev b d m p null).depth5 : Int) = d
    ∧ (TTEntry.new MATE_BOUND age0 key s ev b d m p null).score MATE_BOUND p = s := by
  have habs := abs_le.mp (show |s| ≤ 32767 - p by omega)
  refine ⟨?_, new_bound2 _ _ _ _ _ _ _ _ _ _, ?_, ?_⟩
  · rw [new_move16]; exact Nat.mod_eq_of_lt hm
  · rw [new_depth5]; omega
  · unfold TTEntry.score
    simp only [new_score16]
    rw [asInt16_int16Bits _ (by split_ifs <;> omega) (by split_ifs <;> omega)]
    split_ifs <;> omega

/-! ### Mate-distance re-basing -/

theorem new_score_eq (MB : Int) (age0 key : Nat) (s ev : Int) (b : Bound) (d : Int) (m : Move)
    (P Q : Int) (null : Bool) (s1 : Int)
    (hs1 : (if s > MB then s + P else if s < -MB then s - P else s) = s1)
    (hlo : -32768 ≤ s1) (hhi : s1 ≤ 32767) :
    (TTEntry.new MB age0 key s ev b d m P null).score MB Q
      = if s1 > MB then s1 - Q else if s1 < -MB then s1 + Q else s1 := by
  unfold TTEntry.score
  simp only [new_score16, hs1]
  rw [asInt16_int16Bits _ hlo hhi]

/-- C3. Mate-distance re-basing, for `0 ≤ MATE_BOUND ≤ 32767` and a storing ply
`P ≥ 0`. An entry built from `s > MATE_BOUND` with `s + P` in the range of
`int16_t` has `score(Q) = s + P - Q` for every probe ply `Q`, hence
`score(p) - score(q) = q - p`; one built from `s < -MATE_BOUND` with `s - P` in
range has `score(Q) = s - P + Q`; one built from `|s| ≤ MATE_BOUND` has
`score(Q) = s`. -/
theorem mate_distance_rebasing (MATE_BOUND : Int) (age0 key : Nat) (s ev : Int) (b : Bound)
    (d : Int) (m : Move) (P : Int) (null : Bool)
    (hMB0 : 0 ≤ MATE_BOUND) (hMB1 : MATE_BOUND ≤ 32767) (hP : 0 ≤ P) :
    (s > MATE_BOUND → -32768 ≤ s + P → s + P ≤ 32767 →
      (∀ Q : Int, (TTEntry.new MATE_BOUND age0 key s ev b d m P null).score MATE_BOUND Q
          = s + P - Q)
      ∧ (∀ p q : Int, (TTEntry.new MATE_BOUND age0 key s ev b d m P null).score MATE_BOUND p
          - (TTEntry.new MATE_BOUND age0 key s ev b d m P null).score MATE_BOUND q = q - p))
    ∧ (s < -MATE_BOUND → -32768 ≤ s - P → s - P ≤ 32767 →
      ∀ Q : Int, (TTEntry.new MATE_BOUND age0 key s ev b d m P null).score MATE_BOUND Q
          = s - P + Q)
    ∧ (|s| ≤ MATE_BOUND →
      ∀ Q : Int, (TTEntry.new MATE_BOUND age0 key s ev b d m P null).score MATE_BOUND Q = s) := by
  refine ⟨?_, ?_, ?_⟩
  · intro hs hlo hhi
    have key1 : ∀ Q : Int,
        (TTEntry.new MATE_BOUND age0 key s ev b d m P null).score MATE_BOUND Q = s + P - Q := by
      intro Q
      rw [new_score_eq MATE_BOUND age0 key s ev b d m P Q null (s + P) (by split_ifs; omega)
        hlo hhi]
      split_ifs <;> omega
    refine ⟨key1, ?_⟩
    intro p q
    rw [key1 p, key1 q]; omega
  · intro hs hlo hhi Q
    rw [new_score_eq MATE_BOUND age0 key s ev b d m P Q null (s - P) (by split_ifs <;> omega)
      hlo hhi]
    split_ifs <;> omega
  · intro hs Q
    have habs := abs_le.mp hs
    rw [new_score_eq MATE_BOUND age0 key s ev b d m P Q null s (by split_ifs <;> omega)
      (by omega) (by omega)]
    split_ifs <;> omega

/-- Witness for C3 at `MATE_BOUND = 31000`, storing ply 3: a mate score 31500
read at ply 5, the mated score -31500 read at ply 5, and the ordinary score 100. -/
theorem mate_distance_rebasing_witness :
    (TTEntry.new 31000 0 12345 31500 0 Bound.BOUND_EXACT 7 9 3 false).score 31000 5 = 31498
    ∧ (TTEntry.new 31000 0 12345 (-31500) 0 Bound.BOUND_EXACT 7 9 3 false).score 31000 5 = -31498
    ∧ (TTEntry.new 31000 0 12345 100 0 Bound.BOUND_EXACT 7 9 3 false).score 31000 5 = 100 :=
  ⟨((mate_distance_rebasing 31000 0 12345 31500 0 Bound.BOUND_EXACT 7 9 3 false (by decide)
      (by decide) (by decide)).1 (by decide) (by decide) (by decide)).1 5,
   (mate_distance_rebasing 31000 0 12345 (-31500) 0 Bound.BOUND_EXACT 7 9 3 false (by decide)
      (by decide) (by decide)).2.1 (by decide) (by decide) (by decide) 5,
   (mate_distance_rebasing 31000 0 12345 100 0 Bound.BOUND_EXACT 7 9 3 false (by decide)
      (by decide) (by decide)).2.2 (by decide) 5⟩

/-! ### The cut-off test -/

theorem can_return_ttscore_eq (MATE_BOUND : Int) (tte : TTEntry) (alpha beta depth ply : Int) :
    can_return_ttscore MATE_BOUND tte alpha beta depth ply
      = ttscore_cutoff_reference MATE_BOUND tte alpha beta depth ply := by
  unfold can_return_ttscore ttscore_cutoff_reference
  simp only [Bound.toNat]
  by_cases hd : (tte.depth5 : Int) < depth
  · have hd2 : ¬ ((tte.depth5 : Int) ≥ depth) := by omega
    simp [hd, hd2]
  · have hd2 : (tte.depth5 : Int) ≥ depth := by omega
    by_cases h3 : tte.bound2 = 3
    · simp [hd, hd2, h3]
    · by_cases h1 : tte.bound2 = 1
      · by_cases hs : tte.score MATE_BOUND ply ≤ alpha
        · simp [hd, hd2, h1, hs]
        · simp [hd, hd2, h1, hs]
      · by_cases h2 : tte.bound2 = 2
        · by_cases hs : tte.score MATE_BOUND ply ≥ beta
          · simp [hd, hd2, h2, hs]
          · simp [hd, hd2, h2, hs]
        · simp [hd, hd2, h1, h2, h3]

/-- C7. `can_return_ttscore` computes the reference cut-off test, flag and final
`alpha`, for every entry, window, depth and ply. Spelled out with
`s = entry.score(ply)`: it returns true iff the entry's depth is at least
`depth` and the bound is exact, or upper with `s ≤ alpha`, or lower with
`s ≥ beta`; when it returns true the final `alpha` is `s` for an exact bound,
`beta` for a lower bound and the initial `alpha` for an upper bound; when it
returns false `alpha` is unchanged. -/
theorem can_return_ttscore_eq_reference (MATE_BOUND : Int) (tte : TTEntry)
    (alpha beta depth ply : Int) :
    can_return_ttscore MATE_BOUND tte alpha beta depth ply
      = ttscore_cutoff_reference MATE_BOUND tte alpha beta depth ply
    ∧ ((can_return_ttscore MATE_BOUND tte alpha beta depth ply).1 = true ↔
        ((tte.depth5 : Int) ≥ depth ∧
          (tte.bound2 = Bound.BOUND_EXACT.toNat
            ∨ (tte.bound2 = Bound.BOUND_ALPHA.toNat ∧ tte.score MATE_BOUND ply ≤ alpha)
            ∨ (tte.bound2 = Bound.BOUND_BETA.toNat ∧ tte.score MATE_BOUND ply ≥ beta))))
    ∧ ((can_return_ttscore MATE_BOUND tte alpha beta depth ply).1 = true →
        (tte.bound2 = Bound.BOUND_EXACT.toNat →
          (can_return_ttscore MATE_BOUND tte alpha beta depth ply).2
            = tte.score MATE_BOUND ply)
        ∧ (tte.bound2 = Bound.BOUND_BETA.toNat →
          (can_return_ttscore MATE_BOUND tte alpha beta depth ply).2 = beta)
        ∧ (tte.bound2 = Bound.BOUND_ALPHA.toNat →
          (can_return_ttscore MATE_BOUND tte alpha beta depth ply).2 = alpha))
    ∧ ((can_return_ttscore MATE_BOUND tte alpha beta depth ply).1 = false →
        (can_return_ttscore MATE_BOUND tte alpha beta depth ply).2 = alpha) := by
  rw [can_return_ttscore_eq]
  refine ⟨rfl, ?_, ?_, ?_⟩
  · simp only [ttscore_cutoff_reference, decide_eq_true_eq]
  · intro hok
    simp only [ttscore_cutoff_reference] at hok ⊢
    simp only [hok, if_true]
    refine ⟨fun h => by simp only [h, if_true], fun h => ?_, fun h => ?_⟩
    · simp only [h, Bound.toNat]; norm_num
    · simp only [h, Bound.toNat]; norm_num
  · intro hok
    simp only [ttscore_cutoff_reference] at hok ⊢
    simp only [hok]
    simp

/-- Witness for C7: `exampleEntry` (depth 12, lower bound, score 31500 at ply 3)
cuts off at depth 5 in the window (0, 10), and `alpha` becomes `beta`. -/
theorem can_return_ttscore_eq_reference_witness :
    can_return_ttscore 31000 exampleEntry 0 10 5 3 = (true, 10)
    ∧ ttscore_cutoff_reference 31000 exampleEntry 0 10 5 3 = (true, 10) := by
  have h := (can_return_ttscore_eq_reference 31000 exampleEntry 0 10 5 3).1
  have h1 : can_return_ttscore 31000 exampleEntry 0 10 5 3 = (true, 10) := by decide
  exact ⟨h1, h ▸ h1⟩

/-! ### Assigning the age -/

theorem setAge_key (e : TTEntry) (a : Nat) : (e.setAge a).key = e.key := rfl

theorem setAge_move16 (e : TTEntry) (a : Nat) : (e.setAge a).move16 = e.move16 := by
  simp only [TTEntry.setAge, TTEntry.move16, TTEntry.age, bitsAt]; norm_num; omega

theorem setAge_depth5 (e : TTEntry) (a : Nat) : (e.setAge a).depth5 = e.depth5 := by
  simp only [TTEntry.setAge, TTEntry.depth5, TTEntry.age, bitsAt]; norm_num; omega

theorem setAge_bound2 (e : TTEntry) (a : Nat) : (e.setAge a).bound2 = e.bound2 := by
  simp only [TTEntry.setAge, TTEntry.bound2, TTEntry.age, bitsAt]; norm_num; omega

theorem setAge_age (e : TTEntry) (a : Nat) : (e.setAge a).age = a % 128 := by
  simp only [TTEntry.setAge, TTEntry.age, bitsAt]; norm_num; omega

theorem setAge_score16 (e : TTEntry) (a : Nat) : (e.setAge a).score16 = e.score16 := by
  have h : (e.setAge a).score16Bits = e.score16Bits := by
    simp only [TTEntry.setAge, TTEntry.score16Bits, TTEntry.age, bitsAt]; norm_num; omega
  simp only [TTEntry.score16, h]

theorem setAge_eval16 (e : TTEntry) (a : Nat) : (e.setAge a).eval16 = e.eval16 := by
  have h : (e.setAge a).eval16Bits = e.eval16Bits := by
    simp only [TTEntry.setAge, TTEntry.eval16Bits, TTEntry.age, bitsAt]; norm_num; omega
  simp only [TTEntry.eval16, h]

theorem setAge_avoid_null (e : TTEntry) (a : Nat) : (e.setAge a).avoid_null = e.avoid_null := by
  have h : bitsAt (e.setAge a).data 63 1 = bitsAt e.data 63 1 := by
    simp only [TTEntry.setAge, TTEntry.age, bitsAt]; norm_num; omega
  simp only [TTEntry.avoid_null, h]

theorem setAge_setAge (e : TTEntry) (a : Nat) : (e.setAge a).setAge a = e.setAge a := by
  have h := setAge_age e a
  simp only [TTEntry.setAge, TTEntry.age, bitsAt] at h ⊢
  norm_num at h ⊢
  omega

/-! ### The stored slot and XOR validation -/

theorem storedSlot_data (age_ : Nat) (e : TTEntry) :
    (storedSlot age_ e).data = (e.setAge age_).data := rfl

theorem storedSlot_key (age_ : Nat) (e : TTEntry) :
    (storedSlot age_ e).key = e.key ^^^ (e.setAge age_).data := rfl

theorem storedSlot_valid (age_ : Nat) (e : TTEntry) :
    (storedSlot age_ e).key ^^^ (storedSlot age_ e).data = e.key := by
  rw [storedSlot_key, storedSlot_data, Nat.xor_cancel_right]

theorem storedSlot_setAge (age_ : Nat) (e : TTEntry) :
    ((storedSlot age_ e).setAge age_).data = (e.setAge age_).data := by
  have h := setAge_setAge e age_
  simp only [TTEntry.setAge, TTEntry.age, storedSlot] at h ⊢
  simpa using h

/-! ### The loops of probe and store -/

theorem probeLoop_hit (age_ key : Nat) :
    ∀ (xs : List TTEntry) (j : Nat) (x e0 : TTEntry), xs[j]? = some x →
      x.key ^^^ x.data = key →
      (∀ (i : Nat) (y : TTEntry), i < j → xs[i]? = some y → y.key ^^^ y.data ≠ key) →
      probeLoop age_ key xs e0 = (true, x.setAge age_) := by
  intro xs
  induction xs with
  | nil => intro j x e0 hj; simp at hj
  | cons a as ih =>
    intro j x e0 hj hx hlt
    cases j with
    | zero =>
      simp only [List.getElem?_cons_zero, Option.some.injEq] at hj
      subst hj
      simp [probeLoop, hx]
    | succ n =>
      have ha : a.key ^^^ a.data ≠ key := hlt 0 a (Nat.succ_pos n) (by simp)
      simp only [List.getElem?_cons_succ] at hj
      simp only [probeLoop, ha, if_false]
      exact ih n x a hj hx (fun i y hi hy => hlt (i + 1) y (by omega) (by simpa using hy))

theorem probeLoop_miss (age_ key : Nat) :
    ∀ (xs : List TTEntry) (e0 : TTEntry),
      (∀ (i : Nat) (y : TTEntry), xs[i]? = some y → y.key ^^^ y.data ≠ key) →
      (probeLoop age_ key xs e0).1 = false := by
  intro xs
  induction xs with
  | nil => intro e0 _; rfl
  | cons a as ih =>
    intro e0 h
    have ha : a.key ^^^ a.data ≠ key := h 0 a (by simp)
    simp only [probeLoop, ha, if_false]
    exact ih a (fun i y hy => h (i + 1) y (by simpa using hy))

theorem storeFindKey_some (key : Nat) :
    ∀ (xs : List TTEntry) (i0 r : Nat), storeFindKey key xs i0 = some r →
      ∃ j x, r = i0 + j ∧ xs[j]? = some x ∧ x.key ^^^ x.data = key
        ∧ ∀ (i : Nat) (y : TTEntry), i < j → xs[i]? = some y → y.key ^^^ y.data ≠ key := by
  intro xs
  induction xs with
  | nil => intro i0 r h; simp [storeFindKey] at h
  | cons a as ih =>
    intro i0 r h
    by_cases ha : a.key ^^^ a.data = key
    · simp only [storeFindKey, ha, if_true, Option.some.injEq] at h
      exact ⟨0, a, by omega, by simp, ha, fun i y hi => absurd hi (Nat.not_lt_zero i)⟩
    · simp only [storeFindKey, ha, if_false] at h
      obtain ⟨j, x, hr, hx, hxk, hlt⟩ := ih (i0 + 1) r h
      refine ⟨j + 1, x, by omega, by simpa using hx, hxk, ?_⟩
      intro i y hi hy
      cases i with
      | zero =>
        simp only [List.getElem?_cons_zero, Option.some.injEq] at hy
        subst hy; exact ha
      | succ n => exact hlt n y (by omega) (by simpa using hy)

theorem storeFindKey_none (key : Nat) :
    ∀ (xs : List TTEntry) (i0 : Nat), storeFindKey key xs i0 = none →
      ∀ (i : Nat) (y : TTEntry), xs[i]? = some y → y.key ^^^ y.data ≠ key := by
  intro xs
  induction xs with
  | nil => intro i0 _ i y hy; simp at hy
  | cons a as ih =>
    intro i0 h i y hy
    by_cases ha : a.key ^^^ a.data = key
    · simp [storeFindKey, ha] at h
    · simp only [storeFindKey, ha, if_false] at h
      cases i with
      | zero =>
        simp only [List.getElem?_cons_zero, Option.some.injEq] at hy
        subst hy; exact ha
      | succ n => exact ih (i0 + 1) h n y (by simpa using hy)

theorem storeFindAged_eq (age_ : Nat) :
    ∀ (xs : List TTEntry) (i0 : Nat) (st : Option Nat × Int),
      storeFindAged age_ xs i0 st = minDepthLoop (fun x => decide (x.age ≠ age_)) xs i0 st := by
  intro xs
  induction xs with
  | nil => intro i0 st; rfl
  | cons a as ih =>
    intro i0 st
    simp only [storeFindAged, minDepthLoop, ih, decide_eq_true_eq]

theorem storeFindShallow_eq :
    ∀ (xs : List TTEntry) (i0 : Nat) (st : Option Nat × Int),
      storeFindShallow xs i0 st = minDepthLoop (fun _ => true) xs i0 st := by
  intro xs
  induction xs with
  | nil => intro i0 st; rfl
  | cons a as ih =>
    intro i0 st
    simp only [storeFindShallow, minDepthLoop, ih, true_and]

theorem minDepthLoop_spec (p : TTEntry → Bool) :
    ∀ (xs : List TTEntry) (i0 : Nat) (st : Option Nat × Int),
      (minDepthLoop p xs i0 st = st
        ∧ ∀ (i : Nat) (y : TTEntry), xs[i]? = some y → p y = true → st.2 ≤ (y.depth5 : Int))
      ∨ (∃ j x, minDepthLoop p xs i0 st = (some (i0 + j), (x.depth5 : Int))
        ∧ xs[j]? = some x ∧ p x = true ∧ (x.depth5 : Int) < st.2
        ∧ (∀ (i : Nat) (y : TTEntry), xs[i]? = some y → p y = true → x.depth5 ≤ y.depth5)
        ∧ (∀ (i : Nat) (y : TTEntry), i < j → xs[i]? = some y → p y = true → x.depth5 < y.depth5)) := by
  intro xs
  induction xs with
  | nil =>
    intro i0 st
    left
    exact ⟨rfl, fun i y hy => by simp at hy⟩
  | cons a as ih =>
    intro i0 st
    by_cases hc : p a = true ∧ (a.depth5 : Int) < st.2
    · right
      have hstep : minDepthLoop p (a :: as) i0 st
          = minDepthLoop p as (i0 + 1) (some i0, (a.depth5 : Int)) := by
        simp only [minDepthLoop, hc, and_self, if_true]
      rcases ih (i0 + 1) (some i0, (a.depth5 : Int)) with ⟨heq, hall⟩ | ⟨j, x, heq, hx, hpx, hlt, hall, hlow⟩
      · refine ⟨0, a, by rw [hstep, heq]; rfl, by simp, hc.1, hc.2, ?_, ?_⟩
        · intro i y hy hpy
          cases i with
          | zero =>
            simp only [List.getElem?_cons_zero, Option.some.injEq] at hy
            subst hy; exact le_refl _
          | succ n =>
            have := hall n y (by simpa using hy) hpy
            simp only at this
            omega
        · intro i y hi; omega
      · refine ⟨j + 1, x, by rw [hstep, heq]; congr 2; omega, by simpa using hx, hpx, ?_, ?_, ?_⟩
        · simp only at hlt; omega
        · intro i y hy hpy
          cases i with
          | zero =>
            simp only [List.getElem?_cons_zero, Option.some.injEq] at hy
            subst hy
            simp only at hlt; omega
          | succ n => exact hall n y (by simpa using hy) hpy
        · intro i y hi hy hpy
          cases i with
          | zero =>
            simp only [List.getElem?_cons_zero, Option.some.injEq] at hy
            subst hy
            simp only at hlt; omega
          | succ n => exact hlow n y (by omega) (by simpa using hy) hpy
    · have hstep : minDepthLoop p (a :: as) i0 st = minDepthLoop p as (i0 + 1) st := by
        simp only [minDepthLoop, hc, if_false]
      have ha : p a = true → st.2 ≤ (a.depth5 : Int) := by
        intro hpa
        by_contra hlt
        exact hc ⟨hpa, by omega⟩
      rcases ih (i0 + 1) st with ⟨heq, hall⟩ | ⟨j, x, heq, hx, hpx, hlt, hall, hlow⟩
      · left
        refine ⟨by rw [hstep, heq], ?_⟩
        intro i y hy hpy
        cases i with
        | zero =>
          simp only [List.getElem?_cons_zero, Option.some.injEq] at hy
          subst hy; exact ha hpy
        | succ n => exact hall n y (by simpa using hy) hpy
      · right
        refine ⟨j + 1, x, by rw [hstep, heq]; congr 2; omega, by simpa using hx, hpx, hlt, ?_, ?_⟩
        · intro i y hy hpy
          cases i with
          | zero =>
            simp only [List.getElem?_cons_zero, Option.some.injEq] at hy
            subst hy
            have := ha hpy; omega
          | succ n => exact hall n y (by simpa using hy) hpy
        · intro i y hi hy hpy
          cases i with
          | zero =>
            simp only [List.getElem?_cons_zero, Option.some.injEq] at hy
            subst hy
            have := ha hpy; omega
          | succ n => exact hlow n y (by omega) (by simpa using hy) hpy

theorem depth5_lt (e : TTEntry) : e.depth5 < 64 := by
  unfold TTEntry.depth5 bitsAt
  exact Nat.mod_lt _ (by norm_num)

theorem storeSlot_spec (age_ : Nat) (b : Bucket) (key : Nat) (hb : b ≠ []) :
    ∃ j, storeSlot age_ b key = some j ∧ StoreChoice age_ b key j := by
  unfold storeSlot
  cases hk : storeFindKey key b 0 with
  | some r =>
    obtain ⟨j, x, hr, hx, hxk, hlt⟩ := storeFindKey_some key b 0 r hk
    have hrj : r = j := by omega
    subst hrj
    exact ⟨r, rfl, Or.inl ⟨x, hx, hxk, hlt⟩⟩
  | none =>
    have hno := storeFindKey_none key b 0 hk
    simp only [storeFindAged_eq, storeFindShallow_eq]
    rcases minDepthLoop_spec (fun x => decide (x.age ≠ age_)) b 0 (none, 9999) with
      ⟨heq, hall⟩ | ⟨j, x, heq, hx, hpx, _, hmin, hlow⟩
    · have hnoaged : ∀ (i : Nat) (y : TTEntry), b[i]? = some y → y.age = age_ := by
        intro i y hy
        by_contra hne
        have h1 := hall i y hy (by simpa using hne)
        have h2 := depth5_lt y
        simp only at h1
        omega
      rcases minDepthLoop_spec (fun _ => true) b 0 (none, 9999) with
        ⟨_, hall2⟩ | ⟨j, x, heq2, hx, hpx, _, hmin, hlow⟩
      · exfalso
        cases b with
        | nil => exact hb rfl
        | cons a as =>
          have h1 := hall2 0 a (by simp) rfl
          have h2 := depth5_lt a
          simp only at h1
          omega
      · refine ⟨j, ?_, Or.inr (Or.inr ⟨hno, hnoaged, x, hx, hpx, hmin, hlow⟩)⟩
        rw [heq]
        simp only [heq2, Nat.zero_add]
    · refine ⟨j, ?_, Or.inr (Or.inl ⟨hno, x, hx, hpx, hmin, hlow⟩)⟩
      rw [heq]
      simp only [Nat.zero_add]

theorem StoreChoice_lt (age_ : Nat) (b : Bucket) (key j : Nat) (h : StoreChoice age_ b key j) :
    j < b.length
      ∧ ∀ (i : Nat) (y : TTEntry), i < j → b[i]? = some y → y.key ^^^ y.data ≠ key := by
  rcases h with ⟨x, hx, _, hlt⟩ | ⟨hno, x, hx, _⟩ | ⟨hno, _, x, hx, _⟩
  · exact ⟨(List.getElem?_eq_some.mp hx).1, hlt⟩
  · exact ⟨(List.getElem?_eq_some.mp hx).1, fun i y _ hy => hno i y hy⟩
  · exact ⟨(List.getElem?_eq_some.mp hx).1, fun i y _ hy => hno i y hy⟩

theorem store_spec (t : TranspositionTable) (e : TTEntry) (hsize : 0 < t.size_)
    (hN : ∀ b ∈ t.buckets_, b ≠ []) :
    ∃ b j, t.buckets_[e.key % t.size_]? = some b ∧ StoreChoice t.age_ b e.key j
      ∧ t.store e = some
          { t with
            buckets_ := t.buckets_.set (e.key % t.size_) (b.set j (storedSlot t.age_ e)) } := by
  have hidx : e.key % t.size_ < t.buckets_.length := Nat.mod_lt _ hsize
  have hb : t.buckets_[e.key % t.size_]? = some (t.buckets_[e.key % t.size_]) :=
    List.getElem?_eq_getElem hidx
  obtain ⟨j, hj, hch⟩ := storeSlot_spec t.age_ (t.buckets_[e.key % t.size_]) e.key
    (hN _ (List.getElem?_mem hb))
  refine ⟨_, j, hb, hch, ?_⟩
  unfold TranspositionTable.store
  rw [hb]
  simp only [hj]

theorem members_of_data_eq (e1 e2 : TTEntry) (h : e1.data = e2.data) :
    e1.move16 = e2.move16 ∧ e1.depth5 = e2.depth5 ∧ e1.bound2 = e2.bound2
      ∧ e1.score16 = e2.score16 ∧ e1.eval16 = e2.eval16 ∧ e1.avoid_null = e2.avoid_null
      ∧ e1.age = e2.age := by
  simp only [TTEntry.move16, TTEntry.depth5, TTEntry.bound2, TTEntry.score16, TTEntry.eval16,
    TTEntry.score16Bits, TTEntry.eval16Bits, TTEntry.avoid_null, TTEntry.age, h, and_self]

/-! ### Store and probe -/

/-- C2. Store then probe: on a table with at least one bucket and no empty
bucket, in any state, `store(e)` succeeds and the following `probe(e.key)`
reports a hit; the entry it returns has the move, depth, bound, `score16`,
`eval16` and `avoid_null` of `e` and the table's current age. -/
theorem store_then_probe_hit (t : TranspositionTable) (e e0 : TTEntry) (hsize : 0 < t.size_)
    (hN : ∀ b ∈ t.buckets_, b ≠ []) :
    ∃ t1 r, t.store e = some t1 ∧ t1.probe e.key e0 = some (true, r)
      ∧ r.move16 = e.move16 ∧ r.depth5 = e.depth5 ∧ r.bound2 = e.bound2
      ∧ r.score16 = e.score16 ∧ r.eval16 = e.eval16 ∧ r.avoid_null = e.avoid_null
      ∧ r.age = t1.age_ := by
  obtain ⟨b, j, hb, hch, hst⟩ := store_spec t e hsize hN
  obtain ⟨hj, hlt⟩ := StoreChoice_lt _ _ _ _ hch
  have hidx : e.key % t.size_ < t.buckets_.length := Nat.mod_lt _ hsize
  refine ⟨_, (storedSlot t.age_ e).setAge t.age_, hst, ?_, ?_⟩
  · unfold TranspositionTable.probe
    simp only [TranspositionTable.size_, List.length_set] at hidx ⊢
    rw [List.getElem?_set_self hidx]
    simp only
    rw [probeLoop_hit t.age_ e.key (b.set j (storedSlot t.age_ e)) j (storedSlot t.age_ e) e0
      (List.getElem?_set_self hj) (storedSlot_valid _ _)]
    intro i y hi hy
    rw [List.getElem?_set_ne (by omega)] at hy
    exact hlt i y hi hy
  · obtain ⟨h1, h2, h3, h4, h5, h6, h7⟩ := members_of_data_eq _ _ (storedSlot_setAge t.age_ e)
    rw [h1, h2, h3, h4, h5, h6, h7, setAge_move16, setAge_depth5, setAge_bound2, setAge_score16,
      setAge_eval16, setAge_avoid_null, setAge_age]
    exact ⟨rfl, rfl, rfl, rfl, rfl, rfl, Nat.mod_eq_of_lt t.age_lt⟩

/-- Witness for C2: `exampleEntry` stored into `exampleTable`. -/
theorem store_then_probe_hit_witness :
    0 < exampleTable.size_
    ∧ ∃ t1 r, exampleTable.store exampleEntry = some t1
      ∧ t1.probe exampleEntry.key ⟨0, 0⟩ = some (true, r)
      ∧ r.move16 = exampleEntry.move16 ∧ r.depth5 = exampleEntry.depth5
      ∧ r.bound2 = exampleEntry.bound2 ∧ r.score16 = exampleEntry.score16
      ∧ r.eval16 = exampleEntry.eval16 ∧ r.avoid_null = exampleEntry.avoid_null
      ∧ r.age = t1.age_ :=
  ⟨by decide,
    store_then_probe_hit exampleTable exampleEntry ⟨0, 0⟩ (by decide) (by decide)⟩

/-- C4. Replacement policy of `store(e)` on a table with at least one bucket and
no empty bucket: the call succeeds, keeps the age counter and the number of
buckets, leaves every bucket other than bucket `e.key mod size` as it was, and
in that bucket changes slot `j` only, to the stored form of `e`, where `j` is
the slot designated by `StoreChoice`: (a) the lowest-index slot validating for
`e.key`, else (b) the lowest-index slot of smallest depth among those of another
age, else (c) the lowest-index slot of smallest depth. -/
theorem store_replacement_policy (t : TranspositionTable) (e : TTEntry) (hsize : 0 < t.size_)
    (hN : ∀ b ∈ t.buckets_, b ≠ []) :
    ∃ t1 b b1 j, t.store e = some t1
      ∧ t.buckets_[e.key % t.size_]? = some b
      ∧ t1.buckets_[e.key % t.size_]? = some b1
      ∧ t1.age_ = t.age_ ∧ t1.buckets_.length = t.buckets_.length
      ∧ (∀ i : Nat, i ≠ e.key % t.size_ → t1.buckets_[i]? = t.buckets_[i]?)
      ∧ b1.length = b.length
      ∧ b1[j]? = some (storedSlot t.age_ e)
      ∧ (∀ i : Nat, i ≠ j → b1[i]? = b[i]?)
      ∧ StoreChoice t.age_ b e.key j := by
  obtain ⟨b, j, hb, hch, hst⟩ := store_spec t e hsize hN
  obtain ⟨hj, _⟩ := StoreChoice_lt _ _ _ _ hch
  have hidx : e.key % t.size_ < t.buckets_.length := Nat.mod_lt _ hsize
  refine ⟨_, b, b.set j (storedSlot t.age_ e), j, hst, hb, ?_, rfl, ?_, ?_, ?_, ?_, ?_, hch⟩
  · exact List.getElem?_set_self hidx
  · simp only [List.length_set]
  · intro i hi
    exact List.getElem?_set_ne (Ne.symm hi)
  · simp only [List.length_set]
  · exact List.getElem?_set_self hj
  · intro i hi
    exact List.getElem?_set_ne (Ne.symm hi)

/-- Witness for C4: `exampleEntry` stored into `exampleTable`; no slot of bucket
1 validates for its key and slots 0 and 2 are of another age, so slot 0 is
written. -/
theorem store_replacement_policy_witness :
    (0 < exampleTable.size_)
    ∧ ∃ t1 b b1 j, exampleTable.store exampleEntry = some t1
      ∧ exampleTable.buckets_[exampleEntry.key % exampleTable.size_]? = some b
      ∧ t1.buckets_[exampleEntry.key % exampleTable.size_]? = some b1
      ∧ t1.age_ = exampleTable.age_ ∧ t1.buckets_.length = exampleTable.buckets_.length
      ∧ (∀ i : Nat, i ≠ exampleEntry.key % exampleTable.size_ →
          t1.buckets_[i]? = exampleTable.buckets_[i]?)
      ∧ b1.length = b.length
      ∧ b1[j]? = some (storedSlot exampleTable.age_ exampleEntry)
      ∧ (∀ i : Nat, i ≠ j → b1[i]? = b[i]?)
      ∧ StoreChoice exampleTable.age_ b exampleEntry.key j :=
  ⟨by decide, store_replacement_policy exampleTable exampleEntry (by decide) (by decide)⟩

/-- C5. `probe(key)` on a table with at least one bucket returns a result; it
reports a hit exactly when some slot of bucket `key mod size` has
`key ^ data = key`, and on a hit the returned entry is the lowest-index such
slot with its age member reassigned, so that its move, depth, bound, score (at
every ply) and eval are those of that slot. Otherwise it reports `false`. -/
theorem probe_first_match (t : TranspositionTable) (key : Nat) (e0 : TTEntry)
    (hsize : 0 < t.size_) :
    ∃ b r, t.buckets_[key % t.size_]? = some b ∧ t.probe key e0 = some r
      ∧ (r.1 = true ↔ ∃ (i : Nat) (y : TTEntry), b[i]? = some y ∧ y.key ^^^ y.data = key)
      ∧ (r.1 = true → ∃ (j : Nat) (x : TTEntry), b[j]? = some x ∧ x.key ^^^ x.data = key
          ∧ (∀ (i : Nat) (y : TTEntry), i < j → b[i]? = some y → y.key ^^^ y.data ≠ key)
          ∧ r.2 = x.setAge t.age_
          ∧ r.2.move16 = x.move16 ∧ r.2.depth5 = x.depth5 ∧ r.2.bound2 = x.bound2
          ∧ r.2.score16 = x.score16 ∧ r.2.eval16 = x.eval16
          ∧ ∀ MATE_BOUND ply : Int, r.2.score MATE_BOUND ply = x.score MATE_BOUND ply) := by
  have hidx : key % t.size_ < t.buckets_.length := Nat.mod_lt _ hsize
  have hb : t.buckets_[key % t.size_]? = some (t.buckets_[key % t.size_]) :=
    List.getElem?_eq_getElem hidx
  refine ⟨_, probeLoop t.age_ key (t.buckets_[key % t.size_]) e0, hb, ?_, ?_⟩
  · unfold TranspositionTable.probe
    rw [hb]
  · cases hk : storeFindKey key (t.buckets_[key % t.size_]) 0 with
    | some r =>
      obtain ⟨j, x, _, hx, hxk, hlt⟩ := storeFindKey_some key _ 0 r hk
      have hr := probeLoop_hit t.age_ key (t.buckets_[key % t.size_]) j x e0 hx hxk hlt
      rw [hr]
      refine ⟨⟨fun _ => ⟨j, x, hx, hxk⟩, fun _ => rfl⟩, fun _ => ?_⟩
      refine ⟨j, x, hx, hxk, hlt, rfl, setAge_move16 _ _, setAge_depth5 _ _, setAge_bound2 _ _,
        setAge_score16 _ _, setAge_eval16 _ _, ?_⟩
      intro MB ply
      simp only [TTEntry.score, setAge_score16]
    | none =>
      have hno := storeFindKey_none key _ 0 hk
      have hr := probeLoop_miss t.age_ key (t.buckets_[key % t.size_]) e0 hno
      refine ⟨⟨fun h => ?_, fun h => ?_⟩, fun h => ?_⟩
      · rw [hr] at h; exact absurd h (by decide)
      · obtain ⟨i, y, hy, hyk⟩ := h
        exact absurd hyk (hno i y hy)
      · rw [hr] at h; exact absurd h (by decide)

/-- Witness for C5: probing `exampleTable` for key 7 hits slot 1 of bucket 1. -/
theorem probe_first_match_witness :
    (0 < exampleTable.size_)
    ∧ ∃ b r, exampleTable.buckets_[7 % exampleTable.size_]? = some b
      ∧ exampleTable.probe 7 ⟨0, 0⟩ = some r
      ∧ (r.1 = true ↔ ∃ (i : Nat) (y : TTEntry), b[i]? = some y ∧ y.key ^^^ y.data = 7)
      ∧ (r.1 = true → ∃ (j : Nat) (x : TTEntry), b[j]? = some x ∧ x.key ^^^ x.data = 7
          ∧ (∀ (i : Nat) (y : TTEntry), i < j → b[i]? = some y → y.key ^^^ y.data ≠ 7)
          ∧ r.2 = x.setAge exampleTable.age_
          ∧ r.2.move16 = x.move16 ∧ r.2.depth5 = x.depth5 ∧ r.2.bound2 = x.bound2
          ∧ r.2.score16 = x.score16 ∧ r.2.eval16 = x.eval16
          ∧ ∀ MATE_BOUND ply : Int, r.2.score MATE_BOUND ply = x.score MATE_BOUND ply) :=
  ⟨by decide, probe_first_match exampleTable 7 ⟨0, 0⟩ (by decide)⟩

/-- C6. XOR validation of the slot `w` written by `store(A)`: its key word is
`A.key ^ w.data`, where `w.data` is the data word of `A` at the table's age, so
`w.key ^ w.data = A.key` and `w.key ^ w.data ≠ B` for every `B ≠ A.key`; and for
every other data word `d1 ≠ w.data` kept next to the same key word,
`w.key ^ d1 ≠ A.key`. -/
theorem xor_validation (t : TranspositionTable) (A : TTEntry) (hsize : 0 < t.size_)
    (hN : ∀ b ∈ t.buckets_, b ≠ []) :
    ∃ (t1 : TranspositionTable) (b1 : Bucket) (j : Nat) (w : TTEntry), t.store A = some t1 ∧ t1.buckets_[A.key % t.size_]? = some b1
      ∧ b1[j]? = some w
      ∧ w = storedSlot t.age_ A
      ∧ w.data = (A.setAge t.age_).data
      ∧ w.key = A.key ^^^ w.data
      ∧ w.key ^^^ w.data = A.key
      ∧ (∀ B : Nat, B ≠ A.key → w.key ^^^ w.data ≠ B)
      ∧ (∀ d1 : Nat, d1 ≠ w.data → w.key ^^^ d1 ≠ A.key) := by
  obtain ⟨b, j, hb, hch, hst⟩ := store_spec t A hsize hN
  obtain ⟨hj, _⟩ := StoreChoice_lt _ _ _ _ hch
  have hidx : A.key % t.size_ < t.buckets_.length := Nat.mod_lt _ hsize
  refine ⟨_, b.set j (storedSlot t.age_ A), j, storedSlot t.age_ A, hst,
    List.getElem?_set_self hidx, List.getElem?_set_self hj, rfl, rfl, rfl,
    storedSlot_valid _ _, ?_, ?_⟩
  · intro B hB h
    exact hB (h.symm.trans (storedSlot_valid _ _))
  · intro d1 hd1 h
    apply hd1
    have h2 : (storedSlot t.age_ A).key ^^^ d1
        = (storedSlot t.age_ A).key ^^^ (storedSlot t.age_ A).data :=
      h.trans (storedSlot_valid _ _).symm
    exact Nat.xor_right_injective h2

/-- Witness for C6: `exampleEntry` stored into `exampleTable`. -/
theorem xor_validation_witness :
    (0 < exampleTable.size_)
    ∧ ∃ (t1 : TranspositionTable) (b1 : Bucket) (j : Nat) (w : TTEntry),
      exampleTable.store exampleEntry = some t1
      ∧ t1.buckets_[exampleEntry.key % exampleTable.size_]? = some b1
      ∧ b1[j]? = some w
      ∧ w = storedSlot exampleTable.age_ exampleEntry
      ∧ w.data = (exampleEntry.setAge exampleTable.age_).data
      ∧ w.key = exampleEntry.key ^^^ w.data
      ∧ w.key ^^^ w.data = exampleEntry.key
      ∧ (∀ B : Nat, B ≠ exampleEntry.key → w.key ^^^ w.data ≠ B)
      ∧ (∀ d1 : Nat, d1 ≠ w.data → w.key ^^^ d1 ≠ exampleEntry.key) :=
  ⟨by decide, xor_validation exampleTable exampleEntry (by decide) (by decide)⟩

/-- Witness for C1: the entry for a mate score 31500 stored at ply 3. -/
theorem ttentry_round_trip_same_ply_witness :
    ((777 : Nat) < 65536 ∧ |(31500 : Int)| + 3 ≤ 32767)
    ∧ (TTEntry.new 31000 5 12345 31500 (-20) Bound.BOUND_BETA 12 777 3 true).move16 = 777
    ∧ (TTEntry.new 31000 5 12345 31500 (-20) Bound.BOUND_BETA 12 777 3 true).bound2
        = Bound.BOUND_BETA.toNat
    ∧ ((TTEntry.new 31000 5 12345 31500 (-20) Bound.BOUND_BETA 12 777 3 true).depth5 : Int) = 12
    ∧ (TTEntry.new 31000 5 12345 31500 (-20) Bound.BOUND_BETA 12 777 3 true).score 31000 3
        = 31500 :=
  ⟨⟨by decide, by decide⟩,
    ttentry_round_trip_same_ply 31000 5 12345 31500 (-20) Bound.BOUND_BETA 12 777 3 true
      (by decide) (by decide) (by decide) (by decide) (by decide)⟩

/-! ### Stack heights -/

theorem push_some (s : Stack) (key : Nat) (m : Move) (eval : Int)
    (h : 0 ≤ s.height_ ∧ s.height_ < s.entries_.length) :
    s.push key m eval = some
      { entries_ := s.entries_.set s.height_.toNat ⟨key, m, (MOVE_NONE, MOVE_NONE), eval⟩
        start_ := s.start_
        height_ := s.height_ + 1 } := by
  simp only [Stack.push, h, and_self, if_true]

theorem push_heights (s s1 : Stack) (key : Nat) (m : Move) (eval : Int)
    (h : s.push key m eval = some s1) :
    s1.height_ = s.height_ + 1 ∧ s1.start_ = s.start_ := by
  unfold Stack.push at h
  split at h
  · simp only [Option.some.injEq] at h
    subst h
    exact ⟨rfl, rfl⟩
  · exact absurd h (by simp)

theorem pop_heights (s s1 : Stack) (h : s.pop = some s1) :
    s1.height_ = s.height_ - 1 ∧ s1.start_ = s.start_ ∧ s1.entries_ = s.entries_ := by
  unfold Stack.pop at h
  split at h
  · simp only [Option.some.injEq] at h
    subst h
    exact ⟨rfl, rfl, rfl⟩
  · exact absurd h (by simp)

theorem run_heights :
    ∀ (ops : List StackOp) (s s1 : Stack), Stack.run ops s = some s1 →
      s1.height_ = s.height_ + countPush ops - countPop ops ∧ s1.start_ = s.start_ := by
  intro ops
  induction ops with
  | nil =>
    intro s s1 h
    simp only [Stack.run, Option.some.injEq] at h
    subst h
    simp [countPush, countPop]
  | cons op ops ih =>
    intro s s1 h
    cases op with
    | push key m eval =>
      simp only [Stack.run] at h
      cases hp : s.push key m eval with
      | none => rw [hp] at h; exact absurd h (by simp)
      | some s2 =>
        rw [hp] at h
        obtain ⟨h1, h2⟩ := ih s2 s1 h
        obtain ⟨h3, h4⟩ := push_heights s s2 key m eval hp
        simp only [countPush, countPop]
        exact ⟨by omega, by rw [h2, h4]⟩
    | pop =>
      simp only [Stack.run] at h
      cases hp : s.pop with
      | none => rw [hp] at h; exact absurd h (by simp)
      | some s2 =>
        rw [hp] at h
        obtain ⟨h1, h2⟩ := ih s2 s1 h
        obtain ⟨h3, h4, _⟩ := pop_heights s s2 hp
        simp only [countPush, countPop]
        exact ⟨by omega, by rw [h2, h4]⟩

/-- C8. Stack height bookkeeping. A `push` whose slot lies inside the array
succeeds, raises `total_height()` and `height()` by exactly 1 and keeps `start_`
and every entry other than the pushed slot, in particular all entries below it;
a `pop` at `height() > 0` succeeds, lowers both by exactly 1 and keeps `start_`
and all entries; after `set_start(total_height())` the height is 0; and every
sequence of `k` pushes and `j` pops that runs from there without failing ends
at `height() = k - j`. -/
theorem stack_height_bookkeeping (s : Stack) (key : Nat) (m : Move) (eval : Int)
    (ops : List StackOp) :
    (0 ≤ s.height_ ∧ s.height_ < s.entries_.length →
      ∃ s1, s.push key m eval = some s1
        ∧ s1.total_height = s.total_height + 1 ∧ s1.height = s.height + 1
        ∧ s1.start_ = s.start_
        ∧ ∀ i : Nat, (i : Int) ≠ s.height_ → s1.entries_[i]? = s.entries_[i]?)
    ∧ (0 < s.height →
      ∃ s1, s.pop = some s1
        ∧ s1.total_height = s.total_height - 1 ∧ s1.height = s.height - 1
        ∧ s1.start_ = s.start_ ∧ s1.entries_ = s.entries_)
    ∧ (s.set_start s.total_height).height = 0
    ∧ (∀ s1, Stack.run ops (s.set_start s.total_height) = some s1 →
        s1.height = countPush ops - countPop ops) := by
  refine ⟨?_, ?_, ?_, ?_⟩
  · intro h
    refine ⟨_, push_some s key m eval h, ?_, ?_, rfl, ?_⟩
    · simp only [Stack.total_height]
    · simp only [Stack.height]; omega
    · intro i hi
      exact List.getElem?_set_ne (by omega)
  · intro h
    have hgt : s.height_ > s.start_ := by
      simp only [Stack.height] at h; omega
    refine ⟨{ s with height_ := s.height_ - 1 }, ?_, ?_, ?_, rfl, rfl⟩
    · simp only [Stack.pop, hgt, if_true]
    · simp only [Stack.total_height]
    · simp only [Stack.height]; omega
  · simp only [Stack.height, Stack.set_start, Stack.total_height, sub_self]
  · intro s1 h
    obtain ⟨h1, h2⟩ := run_heights ops _ s1 h
    simp only [Stack.set_start, Stack.total_height] at h1 h2
    simp only [Stack.height]
    omega

/-- Witness for C8 on `exampleStack`: a push, a pop after it, and the sequence
push, push, pop, push, pop, which ends at height 3 - 2. -/
theorem stack_height_bookkeeping_witness :
    (∃ s1, exampleStack.push 9 1 0 = some s1 ∧ s1.total_height = 1 ∧ s1.height = 1)
    ∧ (∃ s1 s2, exampleStack.push 9 1 0 = some s1 ∧ s1.pop = some s2 ∧ s2.height = 0)
    ∧ (∃ s1, Stack.run [StackOp.push 9 1 0, StackOp.push 8 2 0, StackOp.pop, StackOp.push 7 3 0,
          StackOp.pop] (exampleStack.set_start exampleStack.total_height) = some s1
        ∧ s1.height = 3 - 2) := by
  obtain ⟨s1, h1, h2, h3, _, _⟩ :=
    (stack_height_bookkeeping exampleStack 9 1 0 []).1 (by decide)
  have e0 : exampleStack.total_height = 0 := rfl
  have e1 : exampleStack.height = 0 := rfl
  rw [e0] at h2
  rw [e1] at h3
  refine ⟨⟨s1, h1, h2, h3⟩, ?_, ?_⟩
  · obtain ⟨s2, h4, _, h5, _, _⟩ := (stack_height_bookkeeping s1 0 0 0 []).2.1 (by omega)
    exact ⟨s1, s2, h1, h4, by omega⟩
  · have hrun : ∃ s3, Stack.run [StackOp.push 9 1 0, StackOp.push 8 2 0, StackOp.pop,
        StackOp.push 7 3 0, StackOp.pop] (exampleStack.set_start exampleStack.total_height)
        = some s3 := ⟨_, rfl⟩
    obtain ⟨s3, h6⟩ := hrun
    exact ⟨s3, h6, (stack_height_bookkeeping exampleStack 0 0 0 _).2.2.2 s3 h6⟩

/-! ### Repetition detection -/

theorem countP_range_succ (q : Nat → Bool) (n : Nat) :
    (List.range (n + 1)).countP q = (List.range n).countP q + if q n = true then 1 else 0 := by
  rw [List.range_succ, List.countP_append, List.countP_singleton]

theorem entryAt_ofNat (s : Stack) (n : Nat) : s.entryAt (n : Int) = s.entries_[n]? := by
  simp [Stack.entryAt]

theorem repetitionCountFrom_below (s : Stack) (key : Nat) (k i : Int) (hi : i < k) :
    repetitionCountFrom s key k i = 0 := by
  unfold repetitionCountFrom
  rw [List.countP_eq_zero]
  intro j hj
  rw [List.mem_range] at hj
  simp only [decide_eq_true_eq, not_and]
  intro _ hkj
  omega

theorem repetitionCountFrom_step (s : Stack) (key : Nat) (k : Int) (n : Nat) :
    repetitionCountFrom s key k (n : Int)
      = repetitionCountFrom s key k ((n : Int) - 2)
        + if k ≤ (n : Int) ∧ (s.entryAt (n : Int)).map StackEntry.key = some key then 1 else 0 := by
  unfold repetitionCountFrom
  have h1 : ((n : Int) + 1).toNat = n + 1 := by omega
  rw [h1, countP_range_succ]
  congr 1
  · cases n with
    | zero => simp
    | succ m =>
      have h2 : (((m + 1 : Nat) : Int) - 2 + 1).toNat = m := by omega
      rw [h2, countP_range_succ]
      have h3 : ¬ ((((m + 1 : Nat) : Int) - (m : Int)) % 2 = 0) := by omega
      simp only [decide_eq_true_eq, h3, false_and, if_false, Nat.add_zero]
      apply List.countP_congr
      intro j _
      simp only [decide_eq_true_eq]
      constructor
      · rintro ⟨ha, hb⟩; exact ⟨by omega, hb⟩
      · rintro ⟨ha, hb⟩; exact ⟨by omega, hb⟩
  · simp only [sub_self, decide_eq_true_eq, EuclideanDomain.zero_mod, true_and]

theorem repetitionLoop_spec (s : Stack) (key : Nat) (k : Int) (hk : 0 ≤ k) :
    ∀ (fuel : Nat) (i fold : Int), i < s.entries_.length → 0 ≤ fold → 1 ≤ fuel →
      i + 3 ≤ 2 * (fuel : Int) →
      ∃ r, repetitionLoop s key k fuel i fold = some r
        ∧ (r = 0 ↔ fold ≤ (repetitionCountFrom s key k i : Int)) := by
  intro fuel
  induction fuel with
  | zero => intro i fold _ _ h1; omega
  | succ f ih =>
    intro i fold hlen hfold _ hfuel
    by_cases hg : i ≥ k ∧ fold ≠ 0
    · obtain ⟨n, hn⟩ := Int.eq_ofNat_of_zero_le (show 0 ≤ i by omega)
      subst hn
      have hnlt : n < s.entries_.length := by omega
      have hen : s.entryAt (n : Int) = some (s.entries_[n]) := by
        rw [entryAt_ofNat]; exact List.getElem?_eq_getElem hnlt
      obtain ⟨r, hr, hiff⟩ := ih ((n : Int) - 2)
        (if (s.entries_[n]).key = key then fold - 1 else fold) (by omega)
        (by split_ifs <;> omega) (by omega) (by push_cast at hfuel; omega)
      refine ⟨r, ?_, ?_⟩
      · rw [repetitionLoop, if_pos hg]
        simp only [hen]
        exact hr
      · rw [hiff, repetitionCountFrom_step, hen]
        simp only [Option.map_some', Option.some.injEq, hg.1, true_and]
        split_ifs <;> push_cast <;> omega
    · refine ⟨fold, by rw [repetitionLoop, if_neg hg], ?_⟩
      by_cases hf : fold = 0
      · subst hf
        simp
      · have hik : i < k := by
          by_contra hcon
          exact hg ⟨by omega, hf⟩
        rw [repetitionCountFrom_below s key k i hik]
        constructor
        · intro h; exact absurd h hf
        · intro h; simp only [Nat.cast_zero] at h; omega

theorem repetitionCount_eq (s : Stack) (b : Board) (hh : 0 < s.height_) :
    repetitionCount s b
      = repetitionCountFrom s b.key (max 0 (s.height_ - min b.half_moves b.plies_from_null))
          (s.height_ - 2) := by
  obtain ⟨n, hn⟩ := Int.eq_ofNat_of_zero_le (show 0 ≤ s.height_ - 1 by omega)
  have hh2 : s.height_ = (n : Int) + 1 := by omega
  unfold repetitionCount repetitionCountFrom
  rw [hh2]
  have h1 : ((n : Int) + 1).toNat = n + 1 := by omega
  have h2 : ((n : Int) + 1 - 2 + 1).toNat = n := by omega
  rw [h1, h2, countP_range_succ]
  have h3 : ¬ (((n : Int) + 1 - (n : Int)) % 2 = 0) := by omega
  simp only [decide_eq_true_eq, h3, false_and, if_false, Nat.add_zero]
  apply List.countP_congr
  intro j _
  simp only [decide_eq_true_eq]
  constructor
  · rintro ⟨ha, hb⟩; exact ⟨by omega, hb⟩
  · rintro ⟨ha, hb⟩; exact ⟨by omega, hb⟩

theorem is_repetition_eq (s : Stack) (b : Board) (fold : Int) (hfold : 1 ≤ fold)
    (hlen : s.height_ ≤ s.entries_.length) :
    s.is_repetition b fold
      = some (decide (0 < s.height_ ∧ fold ≤ (repetitionCount s b : Int))) := by
  unfold Stack.is_repetition
  by_cases h0 : s.height_ = 0
  · simp [h0]
  · simp only [h0, if_false]
    by_cases hpos : 0 < s.height_
    · obtain ⟨r, hr, hiff⟩ := repetitionLoop_spec s b.key
        (max 0 (s.height_ - min b.half_moves b.plies_from_null)) (le_max_left _ _)
        (s.height_.toNat + 1) (s.height_ - 2) fold (by omega) (by omega) (by omega)
        (by push_cast; omega)
      rw [hr, repetitionCount_eq s b hpos]
      simp only [hpos, true_and, Option.some.injEq, decide_eq_decide]
      exact hiff
    · have hneg : s.height_ < 0 := by omega
      have ht : s.height_.toNat = 0 := by omega
      have hg : ¬ (s.height_ - 2 ≥ max 0 (s.height_ - min b.half_moves b.plies_from_null)
          ∧ fold ≠ 0) := by
        intro h
        have := le_max_left (0 : Int) (s.height_ - min b.half_moves b.plies_from_null)
        omega
      have hf : ¬ fold = 0 := by omega
      simp only [ht, Nat.zero_add, repetitionLoop, hg, if_false, hpos, false_and, hf,
        decide_False]

theorem two_le_countP_range (q : Nat → Bool) (n a c : Nat) (ha : a < n) (hc : c < n)
    (hac : a ≠ c) (hqa : q a = true) (hqc : q c = true) :
    2 ≤ (List.range n).countP q := by
  have hnd : ((List.range n).filter q).Nodup := (List.nodup_range n).filter q
  rw [List.countP_eq_length_filter, ← List.toFinset_card_of_nodup hnd, ← Finset.card_pair hac]
  apply Finset.card_le_card
  intro x hx
  simp only [Finset.mem_insert, Finset.mem_singleton] at hx
  simp only [List.mem_toFinset, List.mem_filter, List.mem_range]
  rcases hx with rfl | rfl
  · exact ⟨ha, hqa⟩
  · exact ⟨hc, hqc⟩

/-- C9. Characterisation of `is_repetition(b, fold)` for `fold ≥ 1` on a stack
whose height does not exceed its capacity: the call returns, and it returns
true iff `total_height() > 0` and at least `fold` of the indices
`h - 2, h - 4, ...` that are not below `max(0, h - min(half_moves,
plies_from_null))` hold `b.key()` (`repetitionCount`). The count looks at no
entry at odd distance or outside the window, and it does not depend on
`start_`: entries below `start_` count like the others. -/
theorem is_repetition_characterisation (s : Stack) (b : Board) (fold : Int) (hfold : 1 ≤ fold)
    (hlen : s.height_ ≤ s.entries_.length) :
    s.is_repetition b fold
        = some (decide (0 < s.total_height ∧ fold ≤ (repetitionCount s b : Int)))
    ∧ ∀ start : Int, (s.set_start start).is_repetition b fold = s.is_repetition b fold := by
  refine ⟨is_repetition_eq s b fold hfold hlen, ?_⟩
  intro start
  rw [is_repetition_eq s b fold hfold hlen,
    is_repetition_eq (s.set_start start) b fold hfold hlen]
  rfl

/-- Witness for C9: on `repeatingStack` the key 7 is found twice (plies 2 and
0) by a board whose window covers four plies. -/
theorem is_repetition_characterisation_witness :
    ((1 : Int) ≤ 2 ∧ repeatingStack.height_ ≤ repeatingStack.entries_.length)
    ∧ repeatingStack.is_repetition ⟨7, 4, 4⟩ 2
        = some (decide (0 < repeatingStack.total_height
            ∧ (2 : Int) ≤ (repetitionCount repeatingStack ⟨7, 4, 4⟩ : Int)))
    ∧ ∀ start : Int, (repeatingStack.set_start start).is_repetition ⟨7, 4, 4⟩ 2
        = repeatingStack.is_repetition ⟨7, 4, 4⟩ 2 :=
  ⟨⟨by decide, by decide⟩,
    is_repetition_characterisation repeatingStack ⟨7, 4, 4⟩ 2 (by decide) (by decide)⟩

/-- C10 as stated fails. On `repeatingStack` the current ply is `4 = 0 + 4 * 1`
and plies 0 and 2 hold key 7. With `half_moves = 2` (so `2p ≤ half_moves`) and
no recent null move, ply 0 is outside the window and `is_repetition(b, 2)` is
false; with `half_moves = 100` and `plies_from_null = 0` the window is empty and
it is false as well. -/
theorem threefold_fails_with_short_window :
    (repeatingStack.total_height = 0 + 4 * 1
      ∧ (repeatingStack.entryAt 0).map StackEntry.key = some 7
      ∧ (repeatingStack.entryAt (0 + 2 * 1)).map StackEntry.key = some 7)
    ∧ ((2 : Int) * 1 ≤ (Board.mk 7 2 100).half_moves
      ∧ repeatingStack.is_repetition (Board.mk 7 2 100) 2 = some false)
    ∧ ((2 : Int) * 1 ≤ (Board.mk 7 100 0).half_moves
      ∧ repeatingStack.is_repetition (Board.mk 7 100 0) 2 = some false) := by
  decide

/-- C10, amended. If the current ply is `h = k + 4p` with `k ≥ 0`, `p ≥ 1` and
`h` within the capacity, the entries at plies `k` and `k + 2p` both hold
`b.key()`, and `4p ≤ min(b.half_moves(), b.plies_from_null())`, then
`is_repetition(b, 2)` returns true. -/
theorem threefold_repetition (s : Stack) (b : Board) (k p : Int) (hk : 0 ≤ k) (hp : 1 ≤ p)
    (hh : s.total_height = k + 4 * p) (hlen : s.height_ ≤ s.entries_.length)
    (h1 : (s.entryAt k).map StackEntry.key = some b.key)
    (h2 : (s.entryAt (k + 2 * p)).map StackEntry.key = some b.key)
    (hwin : 4 * p ≤ min b.half_moves b.plies_from_null) :
    s.is_repetition b 2 = some true := by
  simp only [Stack.total_height] at hh
  rw [is_repetition_eq s b 2 (by decide) hlen]
  have hcount : 2 ≤ repetitionCount s b := by
    unfold repetitionCount
    have hmax : max 0 (s.height_ - min b.half_moves b.plies_from_null) ≤ k := by
      apply max_le hk
      omega
    apply two_le_countP_range _ _ k.toNat (k + 2 * p).toNat (by omega) (by omega) (by omega)
    · have e1 : ((k.toNat : Nat) : Int) = k := Int.toNat_of_nonneg hk
      simp only [decide_eq_true_eq, e1]
      exact ⟨by omega, hmax, h1⟩
    · have e2 : (((k + 2 * p).toNat : Nat) : Int) = k + 2 * p :=
        Int.toNat_of_nonneg (by omega)
      simp only [decide_eq_true_eq, e2]
      exact ⟨by omega, by omega, h2⟩
  have hpos : 0 < s.height_ := by omega
  have hc : (2 : Int) ≤ (repetitionCount s b : Int) := by exact_mod_cast hcount
  simp only [hpos, hc, and_self, decide_True]

/-- Witness for C10, amended: `repeatingStack` with `k = 0`, `p = 1` and a board
whose half-move clock and null-move distance are both 4. -/
theorem threefold_repetition_witness :
    ((4 : Int) * 1 ≤ min (Board.mk 7 4 4).half_moves (Board.mk 7 4 4).plies_from_null)
    ∧ repeatingStack.is_repetition (Board.mk 7 4 4) 2 = some true :=
  ⟨by decide,
    threefold_repetition repeatingStack (Board.mk 7 4 4) 0 1 (by decide) (by decide) (by decide)
      (by decide) (by decide) (by decide) (by decide)⟩

/-! ### Root move picker -/

theorem next_at_end (p : RootMovePicker) (h : p.moves_.length ≤ p.cur_) :
    p.next = (MOVE_NONE, p) := by
  unfold RootMovePicker.next
  rw [List.getElem?_eq_none h]

theorem nextMany_at_end (k : Nat) (p : RootMovePicker) (h : p.moves_.length ≤ p.cur_) :
    p.nextMany k = (List.replicate k MOVE_NONE, p) := by
  induction k with
  | zero => rfl
  | succ n ih =>
    simp only [RootMovePicker.nextMany, next_at_end p h, ih, List.replicate_succ]

theorem nextMany_spec :
    ∀ (n : Nat) (p : RootMovePicker), p.cur_ + n ≤ p.moves_.length →
      p.nextMany n = (((p.moves_.drop p.cur_).take n).map RootMove.move,
        { moves_ := p.moves_, cur_ := p.cur_ + n }) := by
  intro n
  induction n with
  | zero => intro p _; simp [RootMovePicker.nextMany]
  | succ n ih =>
    intro p h
    have hlt : p.cur_ < p.moves_.length := by omega
    have hnext : p.next = ((p.moves_[p.cur_]).move, { moves_ := p.moves_, cur_ := p.cur_ + 1 }) := by
      unfold RootMovePicker.next
      rw [List.getElem?_eq_getElem hlt]
    have hdrop : p.moves_.drop p.cur_ = p.moves_[p.cur_] :: p.moves_.drop (p.cur_ + 1) :=
      List.drop_eq_getElem_cons hlt
    simp only [RootMovePicker.nextMany, hnext]
    rw [ih { moves_ := p.moves_, cur_ := p.cur_ + 1 } (by simp only; omega)]
    simp only [hdrop, List.take_succ_cons, List.map_cons]
    congr 2
    omega

theorem not_before_iff (x y : RootMove) :
    rootMoveBefore y x = false ↔
      (x.score > y.score ∨ (x.score = y.score ∧ x.prev_score ≥ y.prev_score)) := by
  unfold rootMoveBefore
  split <;> simp only [decide_eq_false_iff_not] <;> omega

/-- C11. Root move order after an iteration, for any `std::sort` meeting its
contract. After `complete_iter()` the number of moves is unchanged; the next
`num_moves()` calls of `next()` return the moves of the sorted array in order;
these root moves are a permutation of the ones held before the call, ordered by
non-increasing score and, among equal scores, non-increasing previous score;
and any number of further calls return `MOVE_NONE` and leave the picker as it is. -/
theorem root_move_order (sort : List RootMove → List RootMove)
    (hsort : StdSortContract rootMoveBefore sort) (p : RootMovePicker) (k : Nat) :
    (p.complete_iter sort).num_moves = p.num_moves
    ∧ ((p.complete_iter sort).nextMany p.num_moves).1
        = (p.complete_iter sort).moves_.map RootMove.move
    ∧ (p.complete_iter sort).moves_.Perm p.moves_
    ∧ (((p.complete_iter sort).nextMany p.num_moves).1).Perm (p.moves_.map RootMove.move)
    ∧ (p.complete_iter sort).moves_.Pairwise (fun x y =>
        x.score > y.score ∨ (x.score = y.score ∧ x.prev_score ≥ y.prev_score))
    ∧ (((p.complete_iter sort).nextMany p.num_moves).2).nextMany k
        = (List.replicate k MOVE_NONE, ((p.complete_iter sort).nextMany p.num_moves).2) := by
  obtain ⟨hperm, hsorted⟩ := hsort p.moves_
  have hlen : (sort p.moves_).length = p.moves_.length := hperm.length_eq
  have hrun := nextMany_spec p.moves_.length (p.complete_iter sort)
    (by simp only [RootMovePicker.complete_iter]; omega)
  simp only [RootMovePicker.complete_iter, Nat.zero_add, List.drop_zero] at hrun
  have htake : (sort p.moves_).take p.moves_.length = sort p.moves_ := by
    rw [← hlen]; exact List.take_length _
  rw [htake] at hrun
  simp only [RootMovePicker.num_moves, RootMovePicker.complete_iter]
  refine ⟨hlen, ?_, hperm, ?_, ?_, ?_⟩
  · rw [hrun]
  · rw [hrun]; exact hperm.map _
  · exact hsorted.imp (fun {x y} h => (not_before_iff x y).mp h)
  · rw [hrun]
    exact nextMany_at_end k _ (by simp only; omega)

theorem exampleSort_contract : StdSortContract rootMoveBefore exampleSort := by
  intro l
  refine ⟨List.perm_insertionSort _ l, ?_⟩
  exact @List.sorted_insertionSort RootMove (fun x y => rootMoveBefore y x = false) _
    ⟨fun a b => by simp only [not_before_iff]; omega⟩
    ⟨fun a b c hab hbc => by simp only [not_before_iff] at hab hbc ⊢; omega⟩ l

/-- Witness for C11: `examplePicker` (scores 5, 9, 5 with previous scores 0, 1,
3) sorted by insertion sort yields the moves 12, 13, 11. -/
theorem root_move_order_witness :
    ((examplePicker.complete_iter exampleSort).nextMany 3).1 = [12, 13, 11]
    ∧ (((examplePicker.complete_iter exampleSort).nextMany 3).2).nextMany 2
        = ([MOVE_NONE, MOVE_NONE], ((examplePicker.complete_iter exampleSort).nextMany 3).2) := by
  have h := root_move_order exampleSort exampleSort_contract examplePicker 2
  refine ⟨by decide, h.2.2.2.2.2⟩

/-! ### hashfull -/

theorem foldl_occupied (age_ : Nat) :
    ∀ (b : List TTEntry) (cnt : Nat),
      b.foldl (fun c e => c + if hashfullOccupied age_ e = true then 1 else 0) cnt
        = cnt + b.countP (hashfullOccupied age_) := by
  intro b
  induction b with
  | nil => intro cnt; simp
  | cons a as ih =>
    intro cnt
    simp only [List.foldl_cons, ih, List.countP_cons]
    omega

theorem hashfullLoop_spec (t : TranspositionTable) :
    ∀ (rem i cnt : Nat), i + rem ≤ t.buckets_.length →
      hashfullLoop t i rem cnt
        = some (cnt + (((t.buckets_.drop i).take rem).map
            (fun b => b.countP (hashfullOccupied t.age_))).sum) := by
  intro rem
  induction rem with
  | zero => intro i cnt _; simp [hashfullLoop]
  | succ r ih =>
    intro i cnt h
    have hi : i < t.buckets_.length := by omega
    have hdrop : t.buckets_.drop i = t.buckets_[i] :: t.buckets_.drop (i + 1) :=
      List.drop_eq_getElem_cons hi
    simp only [hashfullLoop, List.getElem?_eq_getElem hi, foldl_occupied]
    rw [ih (i + 1) _ (by omega), hdrop]
    simp only [List.take_succ_cons, List.map_cons, List.sum_cons]
    congr 1
    omega

theorem sum_countP_bound (p : TTEntry → Bool) (N : Nat) :
    ∀ (L : List (List TTEntry)), (∀ b ∈ L, b.length = N) →
      (L.map (fun b => b.countP p)).sum ≤ L.length * N
      ∧ ((L.map (fun b => b.countP p)).sum = L.length * N ↔ ∀ b ∈ L, ∀ e ∈ b, p e = true) := by
  intro L
  induction L with
  | nil => intro _; simp
  | cons a as ih =>
    intro h
    obtain ⟨hle, hiff⟩ := ih (fun b hb => h b (List.mem_cons_of_mem _ hb))
    have ha : a.length = N := h a (List.mem_cons_self _ _)
    have hca : a.countP p ≤ N := ha ▸ List.countP_le_length p
    have hmul : (as.length + 1) * N = as.length * N + N := by ring
    simp only [List.map_cons, List.sum_cons, List.length_cons, hmul]
    refine ⟨by omega, ?_⟩
    constructor
    · intro heq
      have h1 : a.countP p = a.length := by omega
      have h2 : (as.map (fun b => b.countP p)).sum = as.length * N := by omega
      intro b hb e he
      rcases List.mem_cons.mp hb with rfl | hb
      · exact (List.countP_eq_length.mp h1) e he
      · exact (hiff.mp h2) b hb e he
    · intro hall
      have h1 : a.countP p = a.length :=
        List.countP_eq_length.mpr (fun e he => hall a (List.mem_cons_self _ _) e he)
      have h2 := hiff.mpr (fun b hb => hall b (List.mem_cons_of_mem _ hb))
      omega

/-- C18. `hashfull` on a table with at least 1000 buckets whose first 1000
buckets have `Bucket::N = N > 0` slots: it returns `c / N` (integer division),
where `c` counts the slots of the first 1000 buckets with non-zero depth and the
current age; the result is at most 1000, and it is 1000 exactly when every slot
of these buckets has non-zero depth and the current age. -/
theorem hashfull_permille (t : TranspositionTable) (N : Nat) (hN : 0 < N)
    (hsize : 1000 ≤ t.size_) (hlen : ∀ b ∈ t.buckets_.take 1000, b.length = N) :
    t.hashfull N = some (occupiedCount t / N)
    ∧ occupiedCount t / N ≤ 1000
    ∧ (occupiedCount t / N = 1000 ↔
        ∀ b ∈ t.buckets_.take 1000, ∀ e ∈ b, e.depth5 ≠ 0 ∧ e.age = t.age_) := by
  have hsz : 1000 ≤ t.buckets_.length := hsize
  obtain ⟨hle, hiff⟩ := sum_countP_bound (hashfullOccupied t.age_) N (t.buckets_.take 1000) hlen
  have hl : (t.buckets_.take 1000).length = 1000 := by
    rw [List.length_take]; omega
  rw [hl] at hle hiff
  refine ⟨?_, ?_, ?_⟩
  · unfold TranspositionTable.hashfull
    rw [hashfullLoop_spec t 1000 0 0 (by omega)]
    simp only [List.drop_zero, Nat.zero_add, occupiedCount]
  · unfold occupiedCount
    exact Nat.div_le_of_le_mul (by rw [Nat.mul_comm]; exact hle)
  · unfold occupiedCount
    have hocc : ∀ e : TTEntry, hashfullOccupied t.age_ e = true ↔ (e.depth5 ≠ 0 ∧ e.age = t.age_) := by
      intro e; simp [hashfullOccupied]
    constructor
    · intro h
      have hge : 1000 * N ≤ ((t.buckets_.take 1000).map
          (fun b => b.countP (hashfullOccupied t.age_))).sum := by
        have := Nat.div_mul_le_self ((t.buckets_.take 1000).map
          (fun b => b.countP (hashfullOccupied t.age_))).sum N
        rw [h] at this
        exact this
      intro b hb e he
      exact (hocc e).mp ((hiff.mp (Nat.le_antisymm hle hge)) b hb e he)
    · intro h
      have heq := hiff.mpr (fun b hb e he => (hocc e).mpr (h b hb e he))
      rw [heq]
      exact Nat.mul_div_cancel 1000 hN

/-! ### extract_pv -/

theorem probe_cases (t : TranspositionTable) (key : Nat) (hsize : 0 < t.size_) :
    (∃ e, ∀ e0, t.probe key e0 = some (true, e))
    ∨ (∀ e0, ∃ r, t.probe key e0 = some r ∧ r.1 = false) := by
  have hidx : key % t.size_ < t.buckets_.length := Nat.mod_lt _ hsize
  have hb : t.buckets_[key % t.size_]? = some (t.buckets_[key % t.size_]) :=
    List.getElem?_eq_getElem hidx
  cases hk : storeFindKey key (t.buckets_[key % t.size_]) 0 with
  | some r =>
    obtain ⟨j, x, _, hx, hxk, hlt⟩ := storeFindKey_some key _ 0 r hk
    left
    refine ⟨x.setAge t.age_, fun e0 => ?_⟩
    unfold TranspositionTable.probe
    rw [hb]
    simp only [probeLoop_hit t.age_ key (t.buckets_[key % t.size_]) j x e0 hx hxk hlt]
  | none =>
    have hno := storeFindKey_none key _ 0 hk
    right
    intro e0
    refine ⟨probeLoop t.age_ key (t.buckets_[key % t.size_]) e0, ?_,
      probeLoop_miss t.age_ key _ e0 hno⟩
    unfold TranspositionTable.probe
    rw [hb]

theorem extract_pv_loop_spec {B : Type} (key : B → Nat) (is_valid_move : B → Move → Bool)
    (do_move : B → Move → B) (t : TranspositionTable) (len : Int) (hsize : 0 < t.size_) :
    ∀ (fuel : Nat) (b : B) (tte : TTEntry) (n : Int) (pv : List Move), n ≤ len →
      (len - n).toNat + 1 ≤ fuel →
      ∃ ms : List Move,
        extract_pv_loop key is_valid_move do_move t len fuel b tte n pv
          = some (n + (ms.length : Int), pv ++ ms)
        ∧ n + (ms.length : Int) ≤ len
        ∧ (∀ (i : Nat) (m : Move), ms[i]? = some m → ∀ e0, ∃ e,
            t.probe (key (playMoves do_move b (ms.take i))) e0 = some (true, e)
            ∧ m = e.move16
            ∧ is_valid_move (playMoves do_move b (ms.take i)) m = true)
        ∧ (n + (ms.length : Int) < len → ∀ e0, ∃ r,
            t.probe (key (playMoves do_move b ms)) e0 = some r
            ∧ (r.1 = false ∨ is_valid_move (playMoves do_move b ms) r.2.move16 = false)) := by
  intro fuel
  induction fuel with
  | zero => intro b tte n pv _ h; omega
  | succ f ih =>
    intro b tte n pv hn hf
    rcases probe_cases t (key b) hsize with ⟨e, he⟩ | hmiss
    · by_cases hlt : n < len
      · by_cases hv : is_valid_move b e.move16 = false
        · refine ⟨[], ?_, by simpa using hn, ?_, ?_⟩
          · simp [extract_pv_loop, he tte, hlt, hv]
          · intro i m hm; simp at hm
          · intro _ e0
            exact ⟨(true, e), he e0, Or.inr hv⟩
        · obtain ⟨ms, hrun, hle, hall, hend⟩ := ih (do_move b e.move16) e (n + 1)
            (pv ++ [e.move16]) (by omega) (by omega)
          refine ⟨e.move16 :: ms, ?_, ?_, ?_, ?_⟩
          · simp only [extract_pv_loop, he tte, hlt, and_self, if_true, hv, if_false]
            rw [hrun]
            simp only [List.length_cons, List.append_assoc, List.singleton_append,
              Nat.cast_add, Nat.cast_one]
            have harith : n + 1 + (ms.length : Int) = n + ((ms.length : Int) + 1) := by omega
            rw [harith]
            simp
          · simp only [List.length_cons, Nat.cast_add, Nat.cast_one]; omega
          · intro i m hm e0
            cases i with
            | zero =>
              simp only [List.getElem?_cons_zero, Option.some.injEq] at hm
              subst hm
              exact ⟨e, he e0, rfl, by simpa using hv⟩
            | succ j =>
              simp only [List.getElem?_cons_succ] at hm
              simpa [playMoves] using hall j m hm e0
          · intro hlt2 e0
            have := hend (by simp only [List.length_cons, Nat.cast_add, Nat.cast_one] at hlt2; omega) e0
            simpa [playMoves] using this
      · refine ⟨[], ?_, by simpa using hn, ?_, ?_⟩
        · simp [extract_pv_loop, he tte, hlt]
        · intro i m hm; simp at hm
        · intro h; simp at h; omega
    · obtain ⟨r, hr, hfalse⟩ := hmiss tte
      refine ⟨[], ?_, by simpa using hn, ?_, ?_⟩
      · simp [extract_pv_loop, hr, hfalse]
      · intro i m hm; simp at hm
      · intro _ e0
        obtain ⟨r2, hr2, hf2⟩ := hmiss e0
        exact ⟨r2, hr2, Or.inl hf2⟩

/-- C17. `extract_pv(b, pv, len)` for `len ≥ 0` on a table with at least one
bucket returns: the result is a count `n` with `0 ≤ n ≤ len` and exactly `n`
written moves; the `i`-th written move is the move of the entry that `probe`
finds for the position reached from `b` by the moves before it, and it is valid
there; and if `n < len`, the probe for the position reached after all `n` moves
misses or yields a move that is not valid there. -/
theorem extract_pv_spec {B : Type} (key : B → Nat) (is_valid_move : B → Move → Bool)
    (do_move : B → Move → B) (t : TranspositionTable) (tte0 : TTEntry) (b : B) (len : Int)
    (hlen : 0 ≤ len) (hsize : 0 < t.size_) :
    ∃ (n : Int) (pv : List Move),
      t.extract_pv key is_valid_move do_move tte0 b len = some (n, pv)
      ∧ 0 ≤ n ∧ n ≤ len ∧ (pv.length : Int) = n
      ∧ (∀ (i : Nat) (m : Move), pv[i]? = some m → ∀ e0, ∃ e,
          t.probe (key (playMoves do_move b (pv.take i))) e0 = some (true, e)
          ∧ m = e.move16
          ∧ is_valid_move (playMoves do_move b (pv.take i)) m = true)
      ∧ (n < len → ∀ e0, ∃ r,
          t.probe (key (playMoves do_move b pv)) e0 = some r
          ∧ (r.1 = false ∨ is_valid_move (playMoves do_move b pv) r.2.move16 = false)) := by
  obtain ⟨ms, hrun, hle, hall, hend⟩ := extract_pv_loop_spec key is_valid_move do_move t len
    hsize (len.toNat + 1) b tte0 0 [] hlen (by omega)
  refine ⟨(ms.length : Int), ms, ?_, by omega, by omega, rfl, hall, ?_⟩
  · unfold TranspositionTable.extract_pv
    rw [hrun]
    simp
  · intro h
    exact hend (by omega)

/-- Witness for C17 on the toy board: from position 5 with `len = 4` the table
yields the move 2 (to position 7), whose entry holds the invalid move 9. -/
theorem extract_pv_spec_witness :
    toyTable.extract_pv toyKey toyValid toyDoMove ⟨0, 0⟩ 5 4 = some (1, [2])
    ∧ ∃ (n : Int) (pv : List Move),
      toyTable.extract_pv toyKey toyValid toyDoMove ⟨0, 0⟩ 5 4 = some (n, pv)
      ∧ 0 ≤ n ∧ n ≤ 4 ∧ (pv.length : Int) = n :=
  ⟨by decide, by
    obtain ⟨n, pv, h1, h2, h3, h4, _⟩ :=
      extract_pv_spec toyKey toyValid toyDoMove toyTable ⟨0, 0⟩ 5 4 (by decide) (by decide)
    exact ⟨n, pv, h1, h2, h3, h4⟩⟩

/-! ### Option range checking -/

theorem resize_spec (sizeofBucket N : Nat) (t : TranspositionTable) (mbs : Int) :
    (t.resize sizeofBucket N mbs).age_ = t.age_
      ∧ (t.resize sizeofBucket N mbs).size_
        = (mbs % 18446744073709551616).toNat * 1024 * 1024 % 18446744073709551616 / sizeofBucket
      ∧ (∀ b ∈ (t.resize sizeofBucket N mbs).buckets_, b = List.replicate N (⟨0, 0⟩ : TTEntry))
      ∧ (0 ≤ mbs → mbs < 17592186044416 → 0 < sizeofBucket →
          (t.resize sizeofBucket N mbs).size_ * sizeofBucket ≤ mbs.toNat * 1048576
          ∧ mbs.toNat * 1048576 < ((t.resize sizeofBucket N mbs).size_ + 1) * sizeofBucket) := by
  refine ⟨rfl, ?_, ?_, ?_⟩
  · simp only [TranspositionTable.size_, TranspositionTable.resize, List.length_replicate]
  · intro b hb
    simp only [TranspositionTable.resize] at hb
    exact List.eq_of_mem_replicate hb
  · intro h0 h1 hs
    simp only [TranspositionTable.size_, TranspositionTable.resize, List.length_replicate]
    have hm : (mbs % 18446744073709551616).toNat = mbs.toNat := by omega
    have hw : mbs.toNat * 1024 * 1024 % 18446744073709551616 = mbs.toNat * 1048576 := by omega
    rw [hm, hw]
    generalize mbs.toNat * 1048576 = M
    have h2 := Nat.div_add_mod M sizeofBucket
    have h3 := Nat.mod_lt M hs
    rw [Nat.mul_comm] at h2
    rw [Nat.add_mul, Nat.one_mul]
    generalize M / sizeofBucket * sizeofBucket = x at h2 ⊢
    omega

/-- C19. Range checking of the spin options in `parse_setopt`, for the command
`name <nm> value <tokens>`. For each of `multipv`, `aspdelta`, `aspmindepth`
and `hash` (the lower-cased name): when no integer can be extracted, or the
integer lies outside the option's `[MIN, MAX]`, the state (configuration and
table) is unchanged; when the integer `v` lies inside, the option's field
becomes `v` and nothing else changes; for `hash` the configuration and the age
counter are kept and the table is the result of `resize(v)`: its number of
buckets is `v * 1024 * 1024 / sizeof(Bucket)` in `size_t` arithmetic, every
bucket has `Bucket::N` zero slots, and for `0 ≤ v < 2^44` the buckets fill `v`
MiB up to less than one bucket. -/
theorem setopt_range_checking (lim : OptionBounds) (lower : String → String)
    (readInt : String → Option Int) (sizeofBucket N : Nat) (nm : String) (vs : List String)
    (u : UciState) :
    (lower nm = "multipv" →
      (readIntToken readInt vs = none →
        parse_setopt lim lower readInt sizeofBucket N ("name" :: nm :: "value" :: vs) u = u)
      ∧ (∀ v : Int, readIntToken readInt vs = some v →
        ((v < lim.MULTIPV_MIN ∨ lim.MULTIPV_MAX < v) →
          parse_setopt lim lower readInt sizeofBucket N ("name" :: nm :: "value" :: vs) u = u)
        ∧ ((lim.MULTIPV_MIN ≤ v ∧ v ≤ lim.MULTIPV_MAX) →
          parse_setopt lim lower readInt sizeofBucket N ("name" :: nm :: "value" :: vs) u
            = ⟨⟨v, u.cfg_.asp_init_delta, u.cfg_.asp_min_depth⟩, u.tt⟩)))
    ∧ (lower nm = "aspdelta" →
      (readIntToken readInt vs = none →
        parse_setopt lim lower readInt sizeofBucket N ("name" :: nm :: "value" :: vs) u = u)
      ∧ (∀ v : Int, readIntToken readInt vs = some v →
        ((v < lim.ASP_INIT_MIN ∨ lim.ASP_INIT_MAX < v) →
          parse_setopt lim lower readInt sizeofBucket N ("name" :: nm :: "value" :: vs) u = u)
        ∧ ((lim.ASP_INIT_MIN ≤ v ∧ v ≤ lim.ASP_INIT_MAX) →
          parse_setopt lim lower readInt sizeofBucket N ("name" :: nm :: "value" :: vs) u
            = ⟨⟨u.cfg_.multipv, v, u.cfg_.asp_min_depth⟩, u.tt⟩)))
    ∧ (lower nm = "aspmindepth" →
      (readIntToken readInt vs = none →
        parse_setopt lim lower readInt sizeofBucket N ("name" :: nm :: "value" :: vs) u = u)
      ∧ (∀ v : Int, readIntToken readInt vs = some v →
        ((v < lim.ASP_MIN_DEPTH_MIN ∨ lim.ASP_MIN_DEPTH_MAX < v) →
          parse_setopt lim lower readInt sizeofBucket N ("name" :: nm :: "value" :: vs) u = u)
        ∧ ((lim.ASP_MIN_DEPTH_MIN ≤ v ∧ v ≤ lim.ASP_MIN_DEPTH_MAX) →
          parse_setopt lim lower readInt sizeofBucket N ("name" :: nm :: "value" :: vs) u
            = ⟨⟨u.cfg_.multipv, u.cfg_.asp_init_delta, v⟩, u.tt⟩)))
    ∧ (lower nm = "hash" →
      (readIntToken readInt vs = none →
        parse_setopt lim lower readInt sizeofBucket N ("name" :: nm :: "value" :: vs) u = u)
      ∧ (∀ v : Int, readIntToken readInt vs = some v →
        ((v < lim.TT_SIZE_MIN ∨ lim.TT_SIZE_MAX < v) →
          parse_setopt lim lower readInt sizeofBucket N ("name" :: nm :: "value" :: vs) u = u)
        ∧ ((lim.TT_SIZE_MIN ≤ v ∧ v ≤ lim.TT_SIZE_MAX) →
          parse_setopt lim lower readInt sizeofBucket N ("name" :: nm :: "value" :: vs) u
            = ⟨u.cfg_, u.tt.resize sizeofBucket N v⟩
          ∧ (parse_setopt lim lower readInt sizeofBucket N ("name" :: nm :: "value" :: vs)
              u).cfg_ = u.cfg_
          ∧ (parse_setopt lim lower readInt sizeofBucket N ("name" :: nm :: "value" :: vs)
              u).tt.age_ = u.tt.age_
          ∧ (parse_setopt lim lower readInt sizeofBucket N ("name" :: nm :: "value" :: vs)
              u).tt.size_
            = (v % 18446744073709551616).toNat * 1024 * 1024 % 18446744073709551616
                / sizeofBucket
          ∧ (∀ b ∈ (parse_setopt lim lower readInt sizeofBucket N
              ("name" :: nm :: "value" :: vs) u).tt.buckets_,
              b = List.replicate N (⟨0, 0⟩ : TTEntry))
          ∧ (0 ≤ v → v < 17592186044416 → 0 < sizeofBucket →
              (parse_setopt lim lower readInt sizeofBucket N ("name" :: nm :: "value" :: vs)
                u).tt.size_ * sizeofBucket ≤ v.toNat * 1048576
              ∧ v.toNat * 1048576
                < ((parse_setopt lim lower readInt sizeofBucket N
                    ("name" :: nm :: "value" :: vs) u).tt.size_ + 1) * sizeofBucket)))) := by
  have hin : ∀ v a b : Int, (a ≤ v ∧ v ≤ b) → inrange v a b = true := by
    intro v a b h; simp [inrange, h.1, h.2]
  have hout : ∀ v a b : Int, (v < a ∨ b < v) → ¬ (inrange v a b = true) := by
    intro v a b h hr
    simp only [inrange, Bool.and_eq_true, decide_eq_true_eq] at hr
    omega
  refine ⟨?_, ?_, ?_, ?_⟩
  · intro hn
    refine ⟨fun hr => ?_, fun v hr => ⟨fun ho => ?_, fun hi => ?_⟩⟩
    · simp [parse_setopt, readToken, hn, hr]
    · simp [parse_setopt, readToken, hn, hr, hout v _ _ ho]
    · simp [parse_setopt, readToken, hn, hr, hin v _ _ hi]
  · intro hn
    refine ⟨fun hr => ?_, fun v hr => ⟨fun ho => ?_, fun hi => ?_⟩⟩
    · simp [parse_setopt, readToken, hn, hr]
    · simp [parse_setopt, readToken, hn, hr, hout v _ _ ho]
    · simp [parse_setopt, readToken, hn, hr, hin v _ _ hi]
  · intro hn
    refine ⟨fun hr => ?_, fun v hr => ⟨fun ho => ?_, fun hi => ?_⟩⟩
    · simp [parse_setopt, readToken, hn, hr]
    · simp [parse_setopt, readToken, hn, hr, hout v _ _ ho]
    · simp [parse_setopt, readToken, hn, hr, hin v _ _ hi]
  · intro hn
    refine ⟨fun hr => ?_, fun v hr => ⟨fun ho => ?_, fun hi => ?_⟩⟩
    · simp [parse_setopt, readToken, hn, hr]
    · simp [parse_setopt, readToken, hn, hr, hout v _ _ ho]
    · have heq : parse_setopt lim lower readInt sizeofBucket N
          ("name" :: nm :: "value" :: vs) u = ⟨u.cfg_, u.tt.resize sizeofBucket N v⟩ := by
        simp [parse_setopt, readToken, hn, hr, hin v _ _ hi]
      obtain ⟨h1, h2, h3, h4⟩ := resize_spec sizeofBucket N u.tt v
      rw [heq]
      exact ⟨rfl, rfl, h1, h2, h3, h4⟩

/-- Witness for C19: `setoption name MultiPV value 0` leaves `multipv = 1` and
`setoption name MultiPV value 4` sets it to 4; `setoption name hash value 0`
leaves the table as it is and `setoption name hash value 4` replaces it, for
buckets of 64 bytes and 3 slots, by 65536 buckets of three zero slots;
`aspdelta` and `aspmindepth` are set to 4. -/
theorem setopt_range_checking_witness :
    parse_setopt exampleBounds exampleLower exampleReadInt 64 3
        ["name", "MultiPV", "value", "0"] exampleUci = exampleUci
    ∧ parse_setopt exampleBounds exampleLower exampleReadInt 64 3
        ["name", "MultiPV", "value", "4"] exampleUci
      = ⟨⟨4, 16, 5⟩, exampleTable⟩
    ∧ parse_setopt exampleBounds exampleLower exampleReadInt 64 3
        ["name", "hash", "value", "0"] exampleUci = exampleUci
    ∧ (parse_setopt exampleBounds exampleLower exampleReadInt 64 3
        ["name", "hash", "value", "4"] exampleUci).cfg_ = exampleUci.cfg_
    ∧ (parse_setopt exampleBounds exampleLower exampleReadInt 64 3
        ["name", "hash", "value", "4"] exampleUci).tt.size_ = 65536
    ∧ (∀ b ∈ (parse_setopt exampleBounds exampleLower exampleReadInt 64 3
        ["name", "hash", "value", "4"] exampleUci).tt.buckets_,
        b = [(⟨0, 0⟩ : TTEntry), ⟨0, 0⟩, ⟨0, 0⟩])
    ∧ (parse_setopt exampleBounds exampleLower exampleReadInt 64 3
        ["name", "hash", "value", "4"] exampleUci).tt.size_ * 64 = 4 * 1048576
    ∧ parse_setopt exampleBounds exampleLower exampleReadInt 64 3
        ["name", "aspdelta", "value", "4"] exampleUci = ⟨⟨1, 4, 5⟩, exampleTable⟩
    ∧ parse_setopt exampleBounds exampleLower exampleReadInt 64 3
        ["name", "aspmindepth", "value", "4"] exampleUci = ⟨⟨1, 16, 4⟩, exampleTable⟩ := by
  have hm := (setopt_range_checking exampleBounds exampleLower exampleReadInt 64 3 "MultiPV"
    ["0"] exampleUci).1 (by decide)
  have hm4 := (setopt_range_checking exampleBounds exampleLower exampleReadInt 64 3 "MultiPV"
    ["4"] exampleUci).1 (by decide)
  have hh := (setopt_range_checking exampleBounds exampleLower exampleReadInt 64 3 "hash"
    ["0"] exampleUci).2.2.2 (by decide)
  have hh4 := (setopt_range_checking exampleBounds exampleLower exampleReadInt 64 3 "hash"
    ["4"] exampleUci).2.2.2 (by decide)
  obtain ⟨_, h2, _, h4, h5, _⟩ := (hh4.2 4 (by decide)).2 (by decide)
  have hsz : (parse_setopt exampleBounds exampleLower exampleReadInt 64 3
      ["name", "hash", "value", "4"] exampleUci).tt.size_ = 65536 := h4.trans (by decide)
  have ha := (setopt_range_checking exampleBounds exampleLower exampleReadInt 64 3 "aspdelta"
    ["4"] exampleUci).2.1 (by decide)
  have hd := (setopt_range_checking exampleBounds exampleLower exampleReadInt 64 3
    "aspmindepth" ["4"] exampleUci).2.2.1 (by decide)
  refine ⟨((hm.2 0 (by decide)).1 (by decide)), ((hm4.2 4 (by decide)).2 (by decide)),
    ((hh.2 0 (by decide)).1 (by decide)), h2, hsz, h5, ?_,
    ((ha.2 4 (by decide)).2 (by decide)), ((hd.2 4 (by decide)).2 (by decide))⟩
  rw [hsz]

/-! ### parse_position -/

theorem parseMovesLoop_spec {B : Type} (key : B → Nat) (move_from_str : B → String → Move)
    (do_move : B → Move → B) (bad : String) (rest : List String) :
    ∀ (pre : List String) (b : B) (st : Stack), 0 ≤ st.height_ →
      st.height_ + (pre.length : Int) ≤ st.entries_.length →
      (∀ (i : Nat) (tok : String), pre[i]? = some tok →
        move_from_str (playTokens move_from_str do_move b (pre.take i)) tok ≠ MOVE_NONE) →
      move_from_str (playTokens move_from_str do_move b pre) bad = MOVE_NONE →
      ∃ st1, parseMovesLoop key move_from_str do_move (pre ++ bad :: rest) b st
          = some (playTokens move_from_str do_move b pre, st1)
        ∧ st1.height_ = st.height_ + (pre.length : Int)
        ∧ st1.start_ = st.start_
        ∧ st1.entries_.length = st.entries_.length
        ∧ (∀ (i : Nat) (tok : String), pre[i]? = some tok →
            st1.entries_[st.height_.toNat + i]?
              = some ⟨key (playTokens move_from_str do_move b (pre.take i)),
                  move_from_str (playTokens move_from_str do_move b (pre.take i)) tok,
                  (MOVE_NONE, MOVE_NONE), 0⟩)
        ∧ (∀ j : Nat, (j : Int) < st.height_ → st1.entries_[j]? = st.entries_[j]?) := by
  intro pre
  induction pre with
  | nil =>
    intro b st _ _ _ hbad
    refine ⟨st, ?_, by simp, rfl, rfl, ?_, fun j _ => rfl⟩
    · simp only [playTokens, List.foldl_nil] at hbad
      simp [parseMovesLoop, playTokens, hbad]
    · intro i tok h; simp at h
  | cons t ts ih =>
    intro b st h0 hcap hvalid hbad
    have ht : move_from_str b t ≠ MOVE_NONE := by
      have := hvalid 0 t (by simp)
      simpa [playTokens] using this
    simp only [List.length_cons, Nat.cast_add, Nat.cast_one] at hcap
    have hpush := push_some st (key b) (move_from_str b t) 0 ⟨h0, by omega⟩
    obtain ⟨st1, hrun, hh, hs, hl, hent, hlow⟩ := ih (do_move b (move_from_str b t))
      { entries_ := st.entries_.set st.height_.toNat
          ⟨key b, move_from_str b t, (MOVE_NONE, MOVE_NONE), 0⟩
        start_ := st.start_
        height_ := st.height_ + 1 }
      (by simp only; omega) (by simp only [List.length_set]; omega)
      (fun i tok h => by
        have := hvalid (i + 1) tok (by simpa using h)
        simpa [playTokens] using this)
      (by simpa [playTokens] using hbad)
    simp only [List.length_set] at hl
    dsimp only at hh hs hent hlow
    refine ⟨st1, ?_, ?_, hs, hl, ?_, ?_⟩
    · rw [List.cons_append, parseMovesLoop, if_neg ht, hpush]
      simp only
      rw [hrun]
      simp [playTokens]
    · simp only [List.length_cons, Nat.cast_add, Nat.cast_one]; omega
    · intro i tok h
      cases i with
      | zero =>
        simp only [List.getElem?_cons_zero, Option.some.injEq] at h
        subst h
        have := hlow st.height_.toNat (by omega)
        rw [Nat.add_zero, this, List.getElem?_set_self (by omega)]
        simp [playTokens]
      | succ j =>
        simp only [List.getElem?_cons_succ] at h
        have := hent j tok h
        have hidx : (st.height_ + 1).toNat + j = st.height_.toNat + (j + 1) := by omega
        simp only [hidx] at this
        rw [this]
        simp [playTokens]
    · intro j hj
      have := hlow j (by omega)
      rw [this, List.getElem?_set_ne (by omega)]

theorem readFen_spec :
    ∀ (ws : List String) (s fen : String) (tail : List String),
      (∀ w ∈ ws, w ≠ "moves") →
      readFen (ws ++ "moves" :: tail) s fen
        = ("moves", ws.foldl (fun f w => f ++ w ++ " ") fen, tail) := by
  intro ws
  induction ws with
  | nil => intro s fen tail _; simp [readFen]
  | cons w ws ih =>
    intro s fen tail h
    have hw : w ≠ "moves" := h w (List.mem_cons_self _ _)
    simp only [List.cons_append, readFen, hw, if_false, List.foldl_cons]
    exact ih w _ tail (fun x hx => h x (List.mem_cons_of_mem _ hx))

/-- C20. Illegal move in a `position` command, for `startpos moves pre.. bad
rest..` and for `fen ws.. moves pre.. bad rest..` with a fen that loads: if
every token of `pre` converts to a move on the board reached before it, `bad`
converts to `MOVE_NONE` on the board reached after `pre`, and the moves of
`pre` fit the stack's array, then the resulting board is the one reached after
exactly `pre`, the tokens after `bad` play no role, the stack's total height is
the length of `pre`, its `i`-th entry holds the key of the board before the
`i`-th move and that move, and `start_ = total_height()`, so `height() = 0`. -/
theorem position_stops_at_illegal_move {B : Type} (key : B → Nat)
    (move_from_str : B → String → Move) (do_move : B → Move → B) (start_pos : B)
    (load_fen : B → String → Option B) (pre : List String) (bad : String)
    (rest ws : List String) (board_ b0 : B) (st_ : Stack)
    (hroot : b0 = start_pos
      ∨ ((∀ w ∈ ws, w ≠ "moves")
        ∧ load_fen board_ (ws.foldl (fun f w => f ++ w ++ " ") "") = some b0))
    (hvalid : ∀ (i : Nat) (tok : String), pre[i]? = some tok →
      move_from_str (playTokens move_from_str do_move b0 (pre.take i)) tok ≠ MOVE_NONE)
    (hbad : move_from_str (playTokens move_from_str do_move b0 pre) bad = MOVE_NONE)
    (hcap : pre.length ≤ st_.entries_.length) :
    ∃ st1 : Stack,
      ((b0 = start_pos →
          parse_position key move_from_str do_move start_pos load_fen
            ("startpos" :: "moves" :: (pre ++ bad :: rest)) board_ st_
            = some (playTokens move_from_str do_move b0 pre, st1))
        ∧ (((∀ w ∈ ws, w ≠ "moves")
            ∧ load_fen board_ (ws.foldl (fun f w => f ++ w ++ " ") "") = some b0) →
          parse_position key move_from_str do_move start_pos load_fen
            ("fen" :: (ws ++ "moves" :: (pre ++ bad :: rest))) board_ st_
            = some (playTokens move_from_str do_move b0 pre, st1)))
      ∧ st1.total_height = (pre.length : Int)
      ∧ st1.start_ = st1.total_height
      ∧ st1.height = 0
      ∧ (∀ (i : Nat) (tok : String), pre[i]? = some tok →
          st1.entries_[i]?
            = some ⟨key (playTokens move_from_str do_move b0 (pre.take i)),
                move_from_str (playTokens move_from_str do_move b0 (pre.take i)) tok,
                (MOVE_NONE, MOVE_NONE), 0⟩) := by
  obtain ⟨st1, hrun, hh, _, _, hent, _⟩ := parseMovesLoop_spec key move_from_str do_move bad rest
    pre b0 st_.reset (by simp [Stack.reset])
    (by simp only [Stack.reset, List.length_map]; omega) hvalid hbad
  have hh0 : st1.height_ = (pre.length : Int) := by
    rw [hh]; simp [Stack.reset]
  refine ⟨st1.set_start st1.total_height, ⟨?_, ?_⟩, ?_, ?_, ?_, ?_⟩
  · intro hb
    subst hb
    simp [parse_position, readToken, hrun]
  · rintro ⟨hws, hload⟩
    simp [parse_position, readToken, readFen_spec ws "fen" "" _ hws, hload, hrun]
  · simp only [Stack.set_start, Stack.total_height]; exact hh0
  · simp only [Stack.set_start, Stack.total_height]
  · simp only [Stack.set_start, Stack.total_height, Stack.height, sub_self]
  · intro i tok h
    have := hent i tok h
    simpa [Stack.reset, Stack.set_start] using this

/-- Witness for C20 on the toy board: `position startpos moves a b zz a` plays
`a` and `b` from position 0 and stops at `zz`. -/
theorem position_stops_at_illegal_move_witness :
    ∃ st1 : Stack,
      parse_position toyKey toyMoveFromStr toyDoMove 0 toyLoadFen
          ["startpos", "moves", "a", "b", "zz", "a"] 55 exampleStack = some (3, st1)
      ∧ st1.total_height = 2 ∧ st1.height = 0
      ∧ st1.entries_[0]? = some ⟨0, 1, (MOVE_NONE, MOVE_NONE), 0⟩
      ∧ st1.entries_[1]? = some ⟨1, 2, (MOVE_NONE, MOVE_NONE), 0⟩ := by
  obtain ⟨st1, ⟨h1, _⟩, h2, _, h4, h5⟩ :=
    position_stops_at_illegal_move toyKey toyMoveFromStr toyDoMove 0 toyLoadFen ["a", "b"] "zz"
      ["a"] [] 55 0 exampleStack (Or.inl rfl)
      (by
        intro i tok h
        rcases i with _ | _ | i
        · simp at h; subst h; decide
        · simp at h; subst h; decide
        · simp at h)
      (by decide) (by decide)
  exact ⟨st1, h1 rfl, h2, h4, h5 0 "a" rfl, h5 1 "b" rfl⟩

/-! ### Search driver: unfolding -/

theorem search_succ {B H MP : Type} (env : SearchEnv B H MP) (n : Nat) :
    search env (n + 1) = searchBody env (search env n) (quiescence env n) (n + 1) := rfl

theorem quiescence_succ {B H MP : Type} (env : SearchEnv B H MP) (n : Nat) :
    quiescence env (n + 1) = quiescenceBody env (quiescence env n) (n + 1) := rfl

/-! ### Aspiration at small depth -/

/-- C12. Aspiration idempotence: for every depth `d ≤ 5`, at every fuel and in
every state, `aspriration_window(s, d)` is `search_root(-VALUE_MATE,
+VALUE_MATE, d)`, the same returned score and the same state afterwards (or no
result in both), whatever the previous score `s` is. -/
theorem aspiration_shallow {B H MP : Type} (env : SearchEnv B H MP) (fuel : Nat)
    (st : SearchState H) (s s1 d : Int) (hd : d ≤ 5) :
    aspriration_window env fuel st s d
        = search_root env fuel st (-env.VALUE_MATE) env.VALUE_MATE d
    ∧ aspriration_window env fuel st s d = aspriration_window env fuel st s1 d := by
  simp only [aspriration_window, hd, if_true, and_self]

/-- Witness for C12 on the toy game at depth 3: the previous scores 77 and -5
give the search of the full window, whose score is 31999. -/
theorem aspiration_shallow_witness :
    ((3 : Int) ≤ 5)
    ∧ (aspriration_window (toyEnv 0) 10 (toyState [1, 2]) 77 3
        = search_root (toyEnv 0) 10 (toyState [1, 2]) (-(toyEnv 0).VALUE_MATE)
            (toyEnv 0).VALUE_MATE 3
      ∧ aspriration_window (toyEnv 0) 10 (toyState [1, 2]) 77 3
        = aspriration_window (toyEnv 0) 10 (toyState [1, 2]) (-5) 3)
    ∧ (aspriration_window (toyEnv 0) 10 (toyState [1, 2]) 77 3).map (fun r => r.1)
        = some 31999 :=
  ⟨by decide, aspiration_shallow (toyEnv 0) 10 (toyState [1, 2]) 77 (-5) 3 (by decide),
    by decide⟩

/-! ### Cancellation -/

theorem check_time_stopped {B H MP : Type} (env : SearchEnv B H MP) (st : SearchState H)
    (h : st.keep_going = false) : check_time env st = st := by
  unfold check_time
  simp [h]

theorem searchBody_stopped {B H MP : Type} (env : SearchEnv B H MP)
    (recS : SearchState H → B → Int → Int → Int → SearchResult H)
    (recQ : Bool → SearchState H → B → Int → Int → SearchResult H) (gas : Nat)
    (st : SearchState H) (b : B) (alpha beta depth : Int) (h : st.keep_going = false) :
    searchBody env recS recQ gas st b alpha beta depth = some (0, st) := by
  unfold searchBody
  simp [check_time_stopped env st h, h]

theorem quiescenceBody_stopped {B H MP : Type} (env : SearchEnv B H MP)
    (recQ : Bool → SearchState H → B → Int → Int → SearchResult H) (gas : Nat)
    (with_evasions : Bool) (st : SearchState H) (b : B) (alpha beta : Int)
    (h : st.keep_going = false) :
    quiescenceBody env recQ gas with_evasions st b alpha beta = some (0, st) := by
  unfold quiescenceBody
  simp [check_time_stopped env st h, h]

theorem rootMoveScore_stopped {B H : Type}
    (recS : SearchState H → B → Int → Int → Int → SearchResult H)
    (hrec : ∀ (st : SearchState H) (b : B) (a be d : Int), st.keep_going = false →
      recS st b a be d = some (0, st))
    (st : SearchState H) (bb : B) (alpha beta depth : Int) (moves_tried : Nat)
    (h : st.keep_going = false) :
    rootMoveScore recS st bb alpha beta depth moves_tried = some (0, st) := by
  unfold rootMoveScore
  split
  · simp [hrec st bb _ _ _ h]
  · simp only [hrec st bb _ _ _ h, neg_zero]
    split <;> rfl

theorem rootLoop_stopped {B H MP : Type} (env : SearchEnv B H MP)
    (recS : SearchState H → B → Int → Int → Int → SearchResult H)
    (hrec : ∀ (st : SearchState H) (b : B) (a be d : Int), st.keep_going = false →
      recS st b a be d = some (0, st))
    (beta depth : Int) :
    ∀ (gas : Nat) (alpha best_score : Int) (best_move : Move) (moves_tried : Nat)
      (st : SearchState H), st.keep_going = false →
      st.rmp_.moves_.length - st.rmp_.cur_ < gas →
      0 ≤ st.stack_.height_ → st.stack_.height_ < st.stack_.entries_.length →
      st.stack_.start_ ≤ st.stack_.height_ →
      ∃ r, rootLoop env recS beta depth gas alpha best_score best_move moves_tried st = some r
        ∧ r.st.tt = st.tt ∧ r.st.keep_going = false := by
  intro gas
  induction gas with
  | zero => intro _ _ _ _ st _ h; omega
  | succ g ih =>
    intro alpha best_score best_move moves_tried st hkg hgas h0 hcap hstart
    rw [rootLoop]
    by_cases hcur : st.rmp_.cur_ < st.rmp_.moves_.length
    · have hnext : st.rmp_.next
          = ((st.rmp_.moves_[st.rmp_.cur_]).move,
              { moves_ := st.rmp_.moves_, cur_ := st.rmp_.cur_ + 1 }) := by
        unfold RootMovePicker.next
        rw [List.getElem?_eq_getElem hcur]
      simp only [hnext]
      by_cases hm : (st.rmp_.moves_[st.rmp_.cur_]).move = MOVE_NONE
      · simp only [hm, if_true]
        exact ⟨_, rfl, rfl, hkg⟩
      · have hpush := push_some st.stack_ (env.key env.root_)
          ((st.rmp_.moves_[st.rmp_.cur_]).move) 0 ⟨h0, hcap⟩
        have hget : st.rmp_.moves_[st.rmp_.cur_ + 1 - 1]?
            = some (st.rmp_.moves_[st.rmp_.cur_]) := by
          rw [Nat.add_sub_cancel]; exact List.getElem?_eq_getElem hcur
        have hpop : st.stack_.height_ + 1 > st.stack_.start_ := by omega
        have hupd : 0 < st.rmp_.cur_ + 1 ∧ st.rmp_.cur_ + 1 ≤ st.rmp_.moves_.length := by omega
        simp only [hm, if_false, hpush, rootMoveScore_stopped recS hrec, hkg, Stack.pop,
          RootMovePicker.update_last, hget, hpop, hupd, and_self, if_true]
        split
        · exact ⟨_, rfl, rfl, rfl⟩
        · exact ih _ _ _ _ _ rfl (by simp only [List.length_set]; omega) (by simp only; omega)
            (by simp only [List.length_set]; omega) (by simp only; omega)
    · have hnext : st.rmp_.next = (MOVE_NONE, st.rmp_) := next_at_end _ (by omega)
      simp only [hnext, if_true]
      exact ⟨_, rfl, rfl, hkg⟩

theorem searchRootBody_stopped {B H MP : Type} (env : SearchEnv B H MP)
    (recS : SearchState H → B → Int → Int → Int → SearchResult H)
    (hrec : ∀ (st : SearchState H) (b : B) (a be d : Int), st.keep_going = false →
      recS st b a be d = some (0, st))
    (gas : Nat) (st : SearchState H) (alpha beta depth : Int) (hkg : st.keep_going = false)
    (hsize : 0 < st.tt.size_) (hgas : st.rmp_.moves_.length - st.rmp_.cur_ < gas)
    (h0 : 0 ≤ st.stack_.height_) (hcap : st.stack_.height_ < st.stack_.entries_.length)
    (hstart : st.stack_.start_ ≤ st.stack_.height_) :
    ∃ r st1, searchRootBody env recS gas st alpha beta depth = some (r, st1)
      ∧ st1.tt = st.tt := by
  unfold searchRootBody
  by_cases hdraw : drawByRule env st.stack_ env.root_ = true
  · simp only [hdraw, if_true]
    exact ⟨_, _, rfl, rfl⟩
  · simp only [hdraw, if_false]
    have hprobe : ∃ pr, st.tt.probe (env.key env.root_) ⟨0, 0⟩ = some pr := by
      rcases probe_cases st.tt (env.key env.root_) hsize with ⟨e, he⟩ | hmiss
      · exact ⟨_, he _⟩
      · obtain ⟨r, hr, _⟩ := hmiss ⟨0, 0⟩
        exact ⟨r, hr⟩
    obtain ⟨pr, hpr⟩ := hprobe
    simp only [hpr]
    generalize (if pr.1 = true then can_return_ttscore env.MATE_BOUND pr.2 alpha beta depth 0
      else (false, alpha)) = cut
    by_cases hc : pr.1 = true ∧ cut.1 = true
    · simp only [hc, and_self, if_true]
      exact ⟨_, _, rfl, rfl⟩
    · obtain ⟨r, hr, htt, hkg2⟩ := rootLoop_stopped env recS hrec beta depth gas
        cut.2 (-env.VALUE_MATE) MOVE_NONE 0 st hkg hgas h0 hcap hstart
      simp only [hc, if_false, hr, hkg2]
      exact ⟨_, _, rfl, htt⟩

/-- C16. Cancellation stores nothing. Entered with `keep_going()` false,
`search` and `quiescence` return 0 and leave the whole state (table, node
counters, stack, heuristic tables) as it was; and `search_root`, on a table
with at least one bucket and a stack with room for one push, returns with the
table identical to the table on entry. -/
theorem cancelled_search_stores_nothing {B H MP : Type} (env : SearchEnv B H MP) (n : Nat)
    (st : SearchState H) (b : B) (alpha beta depth : Int) (with_evasions : Bool)
    (hstop : st.keep_going = false) :
    search env (n + 1) st b alpha beta depth = some (0, st)
    ∧ quiescence env (n + 1) with_evasions st b alpha beta = some (0, st)
    ∧ (0 < st.tt.size_ → st.rmp_.moves_.length ≤ n + 1 → 0 ≤ st.stack_.height_ →
        st.stack_.height_ < st.stack_.entries_.length → st.stack_.start_ ≤ st.stack_.height_ →
        ∃ r st1, search_root env (n + 1) st alpha beta depth = some (r, st1)
          ∧ st1.tt = st.tt) := by
  refine ⟨?_, ?_, ?_⟩
  · rw [search_succ]; exact searchBody_stopped env _ _ _ st b alpha beta depth hstop
  · rw [quiescence_succ]; exact quiescenceBody_stopped env _ _ _ st b alpha beta hstop
  · intro hsize hlen h0 hcap hstart
    unfold search_root
    exact searchRootBody_stopped env (search env (n + 1))
      (fun s c a be d h => by rw [search_succ]; exact searchBody_stopped env _ _ _ s c a be d h)
      (n + 1 + 1) st alpha beta depth hstop hsize (by omega) h0 hcap hstart

/-- Witness for C16 on the toy game with the search cancelled. -/
theorem cancelled_search_stores_nothing_witness :
    toyStopped.keep_going = false
    ∧ search (toyEnv 0) 3 toyStopped 1 (-5) 5 2 = some (0, toyStopped)
    ∧ quiescence (toyEnv 0) 3 true toyStopped 1 (-5) 5 = some (0, toyStopped)
    ∧ ∃ r st1, search_root (toyEnv 0) 3 toyStopped (-32000) 32000 2 = some (r, st1)
        ∧ st1.tt = toyStopped.tt := by
  have h := cancelled_search_stores_nothing (toyEnv 0) 2 toyStopped 1 (-5) 5 2 true rfl
  have h2 := cancelled_search_stores_nothing (toyEnv 0) 2 toyStopped 1 (-32000) 32000 2 true rfl
  exact ⟨rfl, h.1, h.2.1, h2.2.2 (by decide) (by decide) (by decide) (by decide) (by decide)⟩

/-! ### Positions without moves -/

theorem toInt16_eq (x : Int) (hlo : -32768 ≤ x) (hhi : x ≤ 32767) : toInt16 x = x := by
  unfold toInt16 asInt16 int16Bits
  split <;> omega

theorem store_some (t : TranspositionTable) (e : TTEntry) (hsize : 0 < t.size_)
    (hN : ∀ b ∈ t.buckets_, b ≠ []) : ∃ t1, t.store e = some t1 := by
  obtain ⟨b, j, _, _, hst⟩ := store_spec t e hsize hN
  exact ⟨_, hst⟩

/-- C14, as the code behaves. When no draw rule applies at the root, the probe
of the table misses and the root picker has no move left (a root without legal
moves, in check or not), `search_root(alpha, beta, depth)` returns `alpha`: the
move loop does not run and nothing replaces the initial `alpha`. For the full
window the result is `-VALUE_MATE`, which is 0 only if `VALUE_MATE` is 0. -/
theorem search_root_without_moves {B H MP : Type} (env : SearchEnv B H MP) (fuel : Nat)
    (st : SearchState H) (alpha beta depth : Int)
    (hdraw : drawByRule env st.stack_ env.root_ = false)
    (hmiss : ∃ pr, st.tt.probe (env.key env.root_) ⟨0, 0⟩ = some pr ∧ pr.1 = false)
    (hN : ∀ b ∈ st.tt.buckets_, b ≠ [])
    (hnone : st.rmp_.moves_.length ≤ st.rmp_.cur_) :
    (∃ st1, search_root env fuel st alpha beta depth = some (alpha, st1))
    ∧ (∃ st1, search_root env fuel st (-env.VALUE_MATE) env.VALUE_MATE depth
        = some (-env.VALUE_MATE, st1)) := by
  have hsize : 0 < st.tt.size_ := by
    obtain ⟨pr, hpr, _⟩ := hmiss
    by_contra hcon
    have h0 : st.tt.buckets_.length = 0 := by
      simp only [TranspositionTable.size_] at hcon; omega
    unfold TranspositionTable.probe at hpr
    rw [List.getElem?_eq_none (by omega)] at hpr
    exact absurd hpr (by simp)
  have key : ∀ a be : Int, ∃ st1, search_root env fuel st a be depth = some (a, st1) := by
    intro a be
    obtain ⟨pr, hpr, hfalse⟩ := hmiss
    have hnext : st.rmp_.next = (MOVE_NONE, st.rmp_) := next_at_end _ hnone
    unfold search_root searchRootBody
    simp only [hdraw, hpr, hfalse, rootLoop, hnext, if_true]
    by_cases hkg : st.keep_going = true
    · obtain ⟨t1, ht1⟩ := store_some st.tt (TTEntry.new env.MATE_BOUND 0 (env.key env.root_) a 0
        (determine_bound a be a) depth MOVE_NONE 0 false) hsize hN
      simp [hkg, ht1]
    · simp [hkg]
  exact ⟨key alpha beta, key _ _⟩

/-- Witness for C14: on the toy game the position 3 has no move and the side to
move is not in check; from a cleared table `search_root` over the full window
at depth 1 returns -32000. -/
theorem search_root_without_moves_witness :
    (toyEnv 3).checkers 3 = false
    ∧ (toyState []).rmp_.num_moves = 0
    ∧ (search_root (toyEnv 3) 10 (toyState []) (-32000) 32000 1).map (fun r => r.1)
        = some (-32000)
    ∧ ∃ st1, search_root (toyEnv 3) 10 (toyState []) (-(toyEnv 3).VALUE_MATE)
        (toyEnv 3).VALUE_MATE 1 = some (-(toyEnv 3).VALUE_MATE, st1) :=
  ⟨by decide, by decide, by decide,
    (search_root_without_moves (toyEnv 3) 10 (toyState []) 0 0 1 (by decide)
      ⟨(false, ⟨0, 0⟩), by decide, rfl⟩ (by decide) (by decide)).2⟩

theorem check_time_tt {B H MP : Type} (env : SearchEnv B H MP) (st : SearchState H) :
    (check_time env st).tt = st.tt := by
  unfold check_time; split_ifs <;> rfl

theorem check_time_stack {B H MP : Type} (env : SearchEnv B H MP) (st : SearchState H) :
    (check_time env st).stack_ = st.stack_ := by
  unfold check_time; split_ifs <;> rfl

theorem probe_some (t : TranspositionTable) (key : Nat) (e0 : TTEntry) (hsize : 0 < t.size_) :
    ∃ pr, t.probe key e0 = some pr := by
  rcases probe_cases t key hsize with ⟨e, he⟩ | hmiss
  · exact ⟨_, he _⟩
  · obtain ⟨r, hr, _⟩ := hmiss e0
    exact ⟨r, hr⟩

theorem searchMoves_no_moves {B H MP : Type} (env : SearchEnv B H MP)
    (recS : SearchState H → B → Int → Int → Int → SearchResult H) (gas : Nat)
    (st : SearchState H) (b : B) (alpha beta depth : Int) (ttm : Move)
    (hno : NoMoves env b) (h0 : 0 ≤ st.stack_.start_) (h1 : st.stack_.start_ < st.stack_.height_)
    (h2 : st.stack_.height_ < st.stack_.entries_.length) :
    searchMoves env recS (gas + 1) st b alpha beta depth st.stack_.height ttm
      = some (if env.checkers b = true then st.stack_.mated_score env.VALUE_MATE else 0, st) := by
  have hat : ∀ d : Int, 0 ≤ d → d ≤ st.stack_.height →
      ∃ e, st.stack_.at (st.stack_.height - d) = some e := by
    intro d hd0 hd1
    simp only [Stack.height] at hd1 ⊢
    unfold Stack.at Stack.entryAt
    have hnn : 0 ≤ st.stack_.start_ + (st.stack_.height_ - st.stack_.start_ - d) := by omega
    simp only [hnn, if_true]
    exact ⟨_, List.getElem?_eq_getElem (by omega)⟩
  obtain ⟨e1, he1⟩ := hat 1 (by omega) (by simp only [Stack.height]; omega)
  obtain ⟨e0, he0⟩ := hat 0 (by omega) (by simp only [Stack.height]; omega)
  rw [sub_zero] at he0
  unfold searchMoves
  simp only [he1, he0]
  by_cases hply : st.stack_.height ≥ 2
  · obtain ⟨e2, he2⟩ := hat 2 (by omega) hply
    simp only [hply, if_true, he2, Option.map_some', searchLoop, hno _ _ _ _ st, searchFinish]
    split <;> rfl
  · simp only [hply, if_false, searchLoop, hno _ _ _ _ st, if_true, searchFinish]
    split <;> rfl

theorem countNode_tt {H : Type} (st : SearchState H) : (countNode st).tt = st.tt := rfl

theorem countNode_stack {H : Type} (st : SearchState H) : (countNode st).stack_ = st.stack_ := rfl

theorem countNode_keep_going {H : Type} (st : SearchState H) :
    (countNode st).keep_going = st.keep_going := rfl

theorem searchProbe_no_moves {B H MP : Type} (env : SearchEnv B H MP)
    (recS : SearchState H → B → Int → Int → Int → SearchResult H) (gas : Nat)
    (st : SearchState H) (b : B) (alpha beta depth : Int) (hno : NoMoves env b)
    (hrec : ∀ a be : Int, 5 ≤ depth → ∃ r st1, recS st b a be (depth - 2) = some (r, st1)
      ∧ st1.tt = st.tt ∧ st1.stack_ = st.stack_)
    (hsize : 0 < st.tt.size_) (h0 : 0 ≤ st.stack_.start_)
    (h1 : st.stack_.start_ < st.stack_.height_)
    (h2 : st.stack_.height_ < st.stack_.entries_.length) :
    ∃ r st1, searchProbe env recS (gas + 1) st b alpha beta depth st.stack_.height
        = some (r, st1)
      ∧ st1.tt = st.tt ∧ st1.stack_ = st.stack_
      ∧ (∀ pr, st.tt.probe (env.key b) ⟨0, 0⟩ = some pr →
          ¬ (pr.1 = true ∧ (can_return_ttscore env.MATE_BOUND pr.2 alpha beta depth
              st.stack_.height).1 = true) →
          r = if env.checkers b = true then st.stack_.mated_score env.VALUE_MATE else 0) := by
  unfold searchProbe
  obtain ⟨pr, hpr⟩ := probe_some st.tt (env.key b) ⟨0, 0⟩ hsize
  simp only [hpr]
  generalize httm : ttMove env b pr MOVE_NONE = ttm
  by_cases hp : pr.1 = true
  · simp only [hp, if_true, true_and]
    by_cases hc : (can_return_ttscore env.MATE_BOUND pr.2 alpha beta depth
        st.stack_.height).1 = true
    · simp only [hc, if_true]
      refine ⟨_, _, rfl, ?_, ?_, ?_⟩
      · split_ifs <;> rfl
      · split_ifs <;> rfl
      · intro pr1 hpr1 hncut
        rw [Option.some.injEq] at hpr1
        subst hpr1
        exact absurd ⟨hp, hc⟩ hncut
    · simp only [hc, if_false]
      by_cases hiid : ttm = MOVE_NONE ∧ depth ≥ 5
      · obtain ⟨r, st1, hr, hrtt, hrstk⟩ := hrec (can_return_ttscore env.MATE_BOUND pr.2 alpha
          beta depth st.stack_.height).2 beta hiid.2
        obtain ⟨pr2, hpr2⟩ := probe_some st1.tt (env.key b) pr.2 (by rw [hrtt]; exact hsize)
        have hheight : st.stack_.height = st1.stack_.height := by rw [hrstk]
        simp only [hiid, and_self, if_true, hr, hpr2]
        rw [hheight, searchMoves_no_moves env _ gas st1 b _ _ _ _ hno
          (by rw [hrstk]; exact h0) (by rw [hrstk]; exact h1) (by rw [hrstk]; exact h2)]
        exact ⟨_, _, rfl, hrtt, hrstk, fun _ _ _ => by rw [hrstk]⟩
      · simp only [hiid, if_false]
        rw [searchMoves_no_moves env _ gas st b _ _ _ _ hno h0 h1 h2]
        exact ⟨_, _, rfl, rfl, rfl, fun _ _ _ => rfl⟩
  · have hp1 : pr.1 = false := by simpa using hp
    simp only [hp1, Bool.false_eq_true, false_and, if_false]
    by_cases hiid : ttm = MOVE_NONE ∧ depth ≥ 5
    · obtain ⟨r, st1, hr, hrtt, hrstk⟩ := hrec alpha beta hiid.2
      obtain ⟨pr2, hpr2⟩ := probe_some st1.tt (env.key b) pr.2 (by rw [hrtt]; exact hsize)
      have hheight : st.stack_.height = st1.stack_.height := by rw [hrstk]
      simp only [hiid, and_self, if_true, hr, hpr2]
      rw [hheight, searchMoves_no_moves env _ gas st1 b _ _ _ _ hno
        (by rw [hrstk]; exact h0) (by rw [hrstk]; exact h1) (by rw [hrstk]; exact h2)]
      exact ⟨_, _, rfl, hrtt, hrstk, fun _ _ _ => by rw [hrstk]⟩
    · simp only [hiid, if_false]
      rw [searchMoves_no_moves env _ gas st b _ _ _ _ hno h0 h1 h2]
      exact ⟨_, _, rfl, rfl, rfl, fun _ _ _ => rfl⟩

theorem search_no_moves {B H MP : Type} (env : SearchEnv B H MP) (b : B) (hno : NoMoves env b) :
    ∀ (n : Nat) (depth : Int) (st : SearchState H) (alpha beta : Int), 1 ≤ depth →
      depth ≤ n → 0 < st.tt.size_ → 0 ≤ st.stack_.start_ →
      st.stack_.start_ < st.stack_.height_ →
      env.MAX_PLIES ≤ st.stack_.entries_.length →
      ∃ r st1, search env n st b alpha beta depth = some (r, st1)
        ∧ st1.tt = st.tt ∧ st1.stack_ = st.stack_ := by
  intro n
  induction n with
  | zero => intro depth _ _ _ h1 h2; omega
  | succ n ih =>
    intro depth st alpha beta hd1 hdn hsize h0 h1 hmax
    rw [search_succ]
    unfold searchBody
    have htt := check_time_tt env st
    have hstk := check_time_stack env st
    simp only [countNode_stack, hstk]
    by_cases hkg : (check_time env st).keep_going = false
    · simp only [hkg, if_true]
      exact ⟨_, _, rfl, htt, hstk⟩
    · simp only [hkg, if_false]
      by_cases hmdp : max alpha (st.stack_.mated_score env.VALUE_MATE)
          ≥ min beta (-st.stack_.mated_score env.VALUE_MATE - 1)
      · simp only [hmdp, if_true]
        exact ⟨_, _, rfl, htt, hstk⟩
      · have hd0 : ¬ depth ≤ 0 := by omega
        simp only [hmdp, hd0, if_false]
        by_cases hcap : st.stack_.capped env.MAX_PLIES = true
        · simp only [hcap, if_true]
          exact ⟨_, _, rfl, htt, hstk⟩
        · simp only [hcap, if_false]
          by_cases hdraw : drawByRule env st.stack_ b = true
          · simp only [hdraw, if_true]
            exact ⟨_, _, rfl, htt, hstk⟩
          · simp only [hdraw, if_false]
            have hlt : st.stack_.height_ < st.stack_.entries_.length := by
              simp only [Stack.capped, decide_eq_true_eq] at hcap
              omega
            have hcs : (countNode (check_time env st)).stack_ = st.stack_ := hstk
            have hct : (countNode (check_time env st)).tt = st.tt := htt
            obtain ⟨r, st1, hr, hrtt, hrstk, _⟩ := searchProbe_no_moves env (search env n) n
              (countNode (check_time env st)) b
              (max alpha (st.stack_.mated_score env.VALUE_MATE))
              (min beta (-st.stack_.mated_score env.VALUE_MATE - 1)) depth hno
              (fun a be h5 => ih (depth - 2) _ a be (by omega) (by omega)
                (by rw [hct]; exact hsize) (by rw [hcs]; exact h0) (by rw [hcs]; exact h1)
                (by rw [hcs]; exact hmax))
              (by rw [hct]; exact hsize) (by rw [hcs]; exact h0) (by rw [hcs]; exact h1)
              (by rw [hcs]; exact hlt)
            rw [hcs] at hr
            exact ⟨r, st1, hr, hrtt.trans hct, hrstk.trans hcs⟩

/-- C15. No-move interior nodes. Let `b` have no move, and let the call
`search(b, alpha, beta, depth)` pass its early exits: the search is still
running after `check_time`, mate-distance pruning leaves a non-empty window,
`depth > 0`, the stack is not capped, no draw rule applies and the table gives
no cut-off. Then, with `depth` levels of fuel, the call returns
`stack.mated_score()` if `b` is in check and 0 otherwise, and the table is
unchanged: nothing is stored for `b`. `mated_score()` is
`-VALUE_MATE + height()` whenever that fits `int16_t`. -/
theorem no_move_interior_node {B H MP : Type} (env : SearchEnv B H MP) (n : Nat)
    (st : SearchState H) (b : B) (alpha beta depth : Int) (hno : NoMoves env b)
    (hrun : (check_time env st).keep_going = true)
    (hmdp : max alpha (st.stack_.mated_score env.VALUE_MATE)
      < min beta (-st.stack_.mated_score env.VALUE_MATE - 1))
    (hdepth : 1 ≤ depth) (hfuel : depth ≤ n)
    (hcap : st.stack_.capped env.MAX_PLIES = false)
    (hdraw : drawByRule env st.stack_ b = false)
    (hcut : ∀ pr, st.tt.probe (env.key b) ⟨0, 0⟩ = some pr →
      ¬ (pr.1 = true ∧ (can_return_ttscore env.MATE_BOUND pr.2
          (max alpha (st.stack_.mated_score env.VALUE_MATE))
          (min beta (-st.stack_.mated_score env.VALUE_MATE - 1)) depth st.stack_.height).1 = true))
    (hsize : 0 < st.tt.size_) (h0 : 0 ≤ st.stack_.start_)
    (h1 : st.stack_.start_ < st.stack_.height_)
    (hmax : env.MAX_PLIES ≤ st.stack_.entries_.length) :
    ∃ st1, search env n st b alpha beta depth
        = some (if env.checkers b = true then st.stack_.mated_score env.VALUE_MATE else 0, st1)
      ∧ st1.tt = st.tt
      ∧ ((-32768 ≤ -env.VALUE_MATE + st.stack_.height
            ∧ -env.VALUE_MATE + st.stack_.height ≤ 32767) →
          st.stack_.mated_score env.VALUE_MATE = -env.VALUE_MATE + st.stack_.height) := by
  obtain ⟨m, rfl⟩ : ∃ m, n = m + 1 := ⟨n - 1, by omega⟩
  have htt := check_time_tt env st
  have hstk := check_time_stack env st
  have hcs : (countNode (check_time env st)).stack_ = st.stack_ := hstk
  have hct : (countNode (check_time env st)).tt = st.tt := htt
  have hlt : st.stack_.height_ < st.stack_.entries_.length := by
    simp only [Stack.capped, decide_eq_false_iff_not] at hcap
    omega
  obtain ⟨r, st1, hr, hrtt, _, hres⟩ := searchProbe_no_moves env (search env m) m
    (countNode (check_time env st)) b
    (max alpha (st.stack_.mated_score env.VALUE_MATE))
    (min beta (-st.stack_.mated_score env.VALUE_MATE - 1)) depth hno
    (fun a be h5 => search_no_moves env b hno m (depth - 2) _ a be (by omega) (by omega)
      (by rw [hct]; exact hsize) (by rw [hcs]; exact h0) (by rw [hcs]; exact h1)
      (by rw [hcs]; exact hmax))
    (by rw [hct]; exact hsize) (by rw [hcs]; exact h0) (by rw [hcs]; exact h1)
    (by rw [hcs]; exact hlt)
  rw [hcs, hct] at hres
  rw [hcs] at hr
  obtain ⟨pr, hpr⟩ := probe_some st.tt (env.key b) ⟨0, 0⟩ hsize
  have hrval := hres pr hpr (hcut pr hpr)
  refine ⟨st1, ?_, hrtt.trans hct, ?_⟩
  · rw [search_succ]
    unfold searchBody
    have hd0 : ¬ depth ≤ 0 := by omega
    have hmdp2 : ¬ (max alpha (st.stack_.mated_score env.VALUE_MATE)
        ≥ min beta (-st.stack_.mated_score env.VALUE_MATE - 1)) := by omega
    simp only [countNode_stack, hstk, hrun, Bool.true_eq_false, Bool.false_eq_true, if_false,
      hmdp2, hd0, hcap,
      hdraw, hr, hrval]
  · intro hfit
    unfold Stack.mated_score mated_in
    exact toInt16_eq _ hfit.1 hfit.2

/-- Witness for C15 on the toy game: position 2 has no move and its side to move
is in check; one ply below the root the search of the full window returns the
mated score -32000 + 1, and the table stays as it was. -/
theorem no_move_interior_node_witness :
    (toyEnv 0).checkers 2 = true
    ∧ ∃ st1, search (toyEnv 0) 3 toyInterior 2 (-32000) 32000 1 = some (-31999, st1)
        ∧ st1.tt = toyInterior.tt := by
  have hprobe : toyInterior.tt.probe ((toyEnv 0).key 2) ⟨0, 0⟩ = some (false, ⟨0, 0⟩) := by
    decide
  obtain ⟨st1, h1, h2, _⟩ := no_move_interior_node (toyEnv 0) 3 toyInterior 2 (-32000) 32000 1
    (fun _ _ _ _ _ => rfl) (by decide) (by decide) (by decide) (by decide) (by decide)
    (by decide)
    (fun pr hpr => by
      rw [hprobe] at hpr
      cases hpr
      simp)
    (by decide) (by decide) (by decide) (by decide)
  exact ⟨by decide, st1, h1, h2⟩

/-! ### Score range: the table -/

theorem probeLoop_true (age_ key : Nat) :
    ∀ (xs : List TTEntry) (e0 e : TTEntry), probeLoop age_ key xs e0 = (true, e) →
      ∃ x ∈ xs, e = x.setAge age_ := by
  intro xs
  induction xs with
  | nil => intro e0 e h; simp [probeLoop] at h
  | cons a as ih =>
    intro e0 e h
    by_cases ha : a.key ^^^ a.data = key
    · simp only [probeLoop, ha, if_true, Prod.mk.injEq, true_and] at h
      exact ⟨a, List.mem_cons_self _ _, h.symm⟩
    · simp only [probeLoop, ha, if_false] at h
      obtain ⟨x, hx, hxe⟩ := ih a e h
      exact ⟨x, List.mem_cons_of_mem _ hx, hxe⟩

theorem probe_tableOK (VM : Int) (t : TranspositionTable) (key : Nat) (e0 : TTEntry)
    (ht : TableOK VM t) :
    ∃ pr, t.probe key e0 = some pr ∧ (pr.1 = true → InScoreRange VM pr.2.score16) := by
  obtain ⟨pr, hpr⟩ := probe_some t key e0 ht.1
  refine ⟨pr, hpr, fun hit => ?_⟩
  unfold TranspositionTable.probe at hpr
  cases hb : t.buckets_[key % t.size_]? with
  | none => rw [hb] at hpr; exact absurd hpr (by simp)
  | some b =>
    rw [hb] at hpr
    simp only [Option.some.injEq] at hpr
    have hmem : b ∈ t.buckets_ := List.getElem?_mem hb
    have hpair : probeLoop t.age_ key b e0 = (true, pr.2) := by
      rw [hpr, ← hit]
    obtain ⟨x, hx, hxe⟩ := probeLoop_true t.age_ key b e0 pr.2 hpair
    rw [hxe, setAge_score16]
    exact ht.2.2 b hmem x hx

theorem storedSlot_score16 (age_ : Nat) (e : TTEntry) :
    (storedSlot age_ e).score16 = e.score16 := by
  have h := (members_of_data_eq (storedSlot age_ e) (e.setAge age_) (storedSlot_data age_ e)).2.2.2.1
  rw [h, setAge_score16]

theorem store_tableOK (VM : Int) (t : TranspositionTable) (e : TTEntry) (ht : TableOK VM t)
    (he : InScoreRange VM e.score16) :
    ∃ t1, t.store e = some t1 ∧ TableOK VM t1 := by
  obtain ⟨b, j, hb, _, hst⟩ := store_spec t e ht.1 ht.2.1
  refine ⟨_, hst, ?_, ?_, ?_⟩
  · simp only [TranspositionTable.size_, List.length_set]; exact ht.1
  · intro c hc
    rcases List.mem_or_eq_of_mem_set hc with hc | rfl
    · exact ht.2.1 c hc
    · intro hnil
      have hl : (b.set j (storedSlot t.age_ e)).length = 0 := by rw [hnil]; rfl
      rw [List.length_set] at hl
      exact ht.2.1 b (List.getElem?_mem hb) (List.length_eq_zero.mp hl)
  · intro c hc x hx
    rcases List.mem_or_eq_of_mem_set hc with hc | rfl
    · exact ht.2.2 c hc x hx
    · rcases List.mem_or_eq_of_mem_set hx with hx | rfl
      · exact ht.2.2 b (List.getElem?_mem hb) x hx
      · rw [storedSlot_score16]; exact he

theorem new_score16_range (MB VM : Int) (key : Nat) (s : Int) (b : Bound) (d : Int) (m : Move)
    (ply : Int) (hVM : VM ≤ 32767) (hMB : 0 ≤ MB) (hply : 0 ≤ ply)
    (hlo : -VM + ply ≤ s) (hhi : s ≤ VM - ply) :
    InScoreRange VM (TTEntry.new MB 0 key s 0 b d m ply false).score16 := by
  rw [new_score16]
  have hfit : -32768 ≤ (if s > MB then s + ply else if s < -MB then s - ply else s)
      ∧ (if s > MB then s + ply else if s < -MB then s - ply else s) ≤ 32767 := by
    split_ifs <;> constructor <;> omega
  rw [asInt16_int16Bits _ hfit.1 hfit.2]
  unfold InScoreRange
  split_ifs <;> constructor <;> omega

theorem score_range (MB VM : Int) (e : TTEntry) (ply : Int) (hMB : 0 ≤ MB)
    (he : InScoreRange VM e.score16) (hply0 : 0 ≤ ply) (hply1 : ply ≤ VM) :
    InScoreRange VM (e.score MB ply) := by
  unfold InScoreRange at he ⊢
  unfold TTEntry.score
  simp only
  split_ifs <;> constructor <;> omega

theorem can_return_false_snd (MB : Int) (tte : TTEntry) (alpha beta depth ply : Int)
    (h : (can_return_ttscore MB tte alpha beta depth ply).1 = false) :
    (can_return_ttscore MB tte alpha beta depth ply).2 = alpha := by
  rw [can_return_ttscore_eq] at h ⊢
  simp only [ttscore_cutoff_reference] at h ⊢
  simp only [h]
  simp

theorem can_return_snd_range (MB VM : Int) (tte : TTEntry) (alpha beta depth ply : Int)
    (hMB : 0 ≤ MB) (he : InScoreRange VM tte.score16) (hply0 : 0 ≤ ply) (hply1 : ply ≤ VM)
    (ha : InScoreRange VM alpha) (hb : InScoreRange VM beta) :
    InScoreRange VM (can_return_ttscore MB tte alpha beta depth ply).2 := by
  have hs := score_range MB VM tte ply hMB he hply0 hply1
  unfold can_return_ttscore
  simp only
  split_ifs <;> assumption

/-! ### Score range: the stack and the move loops -/

theorem inScoreRange_neg (VM x : Int) (h : InScoreRange VM x) : InScoreRange VM (-x) := by
  unfold InScoreRange at h ⊢; omega

theorem push_good (s : Stack) (key : Nat) (m : Move) (ev : Int) (h0 : 0 ≤ s.height_)
    (h1 : s.height_ < s.entries_.length) :
    ∃ stk, s.push key m ev = some stk ∧ stk.start_ = s.start_ ∧ stk.height_ = s.height_ + 1
      ∧ stk.entries_.length = s.entries_.length := by
  unfold Stack.push
  rw [if_pos ⟨h0, h1⟩]
  exact ⟨_, rfl, rfl, rfl, by simp⟩

theorem pop_good (s : Stack) (h : s.start_ < s.height_) :
    ∃ stk, s.pop = some stk ∧ stk.start_ = s.start_ ∧ stk.height_ = s.height_ - 1
      ∧ stk.entries_.length = s.entries_.length := by
  unfold Stack.pop
  rw [if_pos h]
  exact ⟨_, rfl, rfl, rfl, rfl⟩

theorem searchLoop_good {B H MP : Type} (env : SearchEnv B H MP) (W n : Nat)
    (recS : SearchState H → B → Int → Int → Int → SearchResult H)
    (hrec : SearchSpec env W n recS) (size : MP → Nat)
    (hdec : ∀ (t : Bool) (mp : MP) (st : SearchState H),
      (env.mp_next t mp st).1 ≠ MOVE_NONE → size (env.mp_next t mp st).2 < size mp)
    (b : B) (beta depth : Int) (hb : InScoreRange env.VALUE_MATE beta) :
    ∀ (gas : Nat) (mp : MP) (alpha bs : Int) (bm : Move) (mt : Nat) (st : SearchState H),
      size mp < gas → SearchInv env st → st.stack_.height_ < env.MAX_PLIES →
      InScoreRange env.VALUE_MATE alpha →
      (depth - 1).toNat + (env.MAX_PLIES - (st.stack_.height_ + 1)).toNat + W + 2 ≤ n →
      ∃ r, searchLoop env recS b beta depth gas mp alpha bs bm mt st = some r
        ∧ SearchInv env r.st ∧ SameFrame st r.st ∧ alpha ≤ r.alpha
        ∧ InScoreRange env.VALUE_MATE r.alpha := by
  intro gas
  induction gas with
  | zero => intro mp _ _ _ _ _ h; omega
  | succ g ih =>
    intro mp alpha bs bm mt st hsz hinv hcap ha hbud
    rw [searchLoop]
    simp only
    by_cases hnx : (env.mp_next false mp st).1 = MOVE_NONE
    · simp only [hnx, if_true]
      exact ⟨_, rfl, hinv, ⟨rfl, rfl, rfl, rfl⟩, le_refl _, ha⟩
    · simp only [hnx, if_false]
      obtain ⟨htt, h0, h1, h2, h3, h4⟩ := hinv
      obtain ⟨stk, hpush, hs, hh, hl⟩ := push_good st.stack_ (env.key b)
        (env.mp_next false mp st).1 0 (by omega) (by omega)
      rw [hpush]
      simp only
      have hinvc : SearchInv env { st with stack_ := stk } := by
        refine ⟨htt, ?_, ?_, ?_, ?_, ?_⟩ <;> simp only [hs, hh, hl] <;> omega
      obtain ⟨r, st1, hres, hinv1, hfr1, hr⟩ := hrec { st with stack_ := stk }
        (env.do_move b (env.mp_next false mp st).1) (-beta) (-alpha) (depth - 1) hinvc
        (by simp only [hs, hh]; omega) (inScoreRange_neg _ _ hb) (inScoreRange_neg _ _ ha)
        (by simp only [stackRoom, hh]; omega)
      rw [hres]
      simp only
      obtain ⟨f1, f2, f3, f4⟩ := hfr1
      simp only at f1 f2 f3 f4
      obtain ⟨stk1, hpop, ps, ph, pl⟩ := pop_good st1.stack_ (by rw [f1, f2, hs, hh]; omega)
      rw [hpop]
      simp only
      have hinv2 : SearchInv env { st1 with stack_ := stk1 } := by
        refine ⟨hinv1.1, ?_, ?_, ?_, ?_, ?_⟩ <;> simp only [ps, ph, pl, f1, f2, f3, hs, hh, hl] <;>
          omega
      have hfr2 : SameFrame st { st1 with stack_ := stk1 } := by
        refine ⟨?_, ?_, ?_, f4⟩ <;> (simp only [ps, ph, pl, f1, f2, f3, hs, hh, hl]; try omega)
      have hr1 := inScoreRange_neg _ _ hr
      have ha1 : InScoreRange env.VALUE_MATE (if -r > alpha then -r else alpha) := by
        split_ifs <;> assumption
      have hle : alpha ≤ (if -r > alpha then -r else alpha) := by split_ifs <;> omega
      by_cases hcut : -r ≥ beta
      · simp only [hcut, if_true]
        exact ⟨_, rfl, hinv2, hfr2, hle, ha1⟩
      · simp only [hcut, if_false]
        have hsz1 := hdec false mp st hnx
        obtain ⟨res, hres2, i1, i2, i3, i4⟩ := ih (env.mp_next false mp st).2
          (if -r > alpha then -r else alpha) (if -r > bs then -r else bs)
          (if -r > bs then (env.mp_next false mp st).1 else bm) (mt + 1)
          { st1 with stack_ := stk1 } (by omega) hinv2
          (by simp only [ph, f2, hh]; omega) ha1
          (by simp only [ph, f2, hh]; omega)
        refine ⟨res, hres2, i1, ?_, by omega, i4⟩
        obtain ⟨g1, g2, g3, g4⟩ := hfr2
        obtain ⟨k1, k2, k3, k4⟩ := i2
        exact ⟨k1.trans g1, k2.trans g2, k3.trans g3, k4.trans g4⟩

theorem mated_score_eq (VM MP : Int) (s : Stack) (hs : StackOK VM MP s) (hVM : VM ≤ 32767) :
    s.mated_score VM = -VM + (s.height_ - s.start_) := by
  obtain ⟨h0, h1, h2, h3, h4⟩ := hs
  unfold Stack.mated_score mated_in Stack.height
  exact toInt16_eq _ (by omega) (by omega)

theorem sameFrame_trans {H : Type} (a b c : SearchState H) (h1 : SameFrame a b)
    (h2 : SameFrame b c) : SameFrame a c := by
  obtain ⟨g1, g2, g3, g4⟩ := h1
  obtain ⟨k1, k2, k3, k4⟩ := h2
  exact ⟨k1.trans g1, k2.trans g2, k3.trans g3, k4.trans g4⟩

theorem quiescenceLoop_good {B H MP : Type} (env : SearchEnv B H MP) (W n : Nat)
    (recQ : Bool → SearchState H → B → Int → Int → SearchResult H)
    (hrec : QuiescenceSpec env W n recQ) (size : MP → Nat)
    (hdec : ∀ (t : Bool) (mp : MP) (st : SearchState H),
      (env.mp_next t mp st).1 ≠ MOVE_NONE → size (env.mp_next t mp st).2 < size mp)
    (hVM : env.VALUE_MATE ≤ 32767)
    (we : Bool) (b : B) (beta : Int) (hb : InScoreRange env.VALUE_MATE beta) :
    ∀ (gas : Nat) (mp : MP) (alpha : Int) (mt : Nat) (st : SearchState H),
      size mp < gas → SearchInv env st → st.stack_.height_ < env.MAX_PLIES →
      InScoreRange env.VALUE_MATE alpha →
      (env.MAX_PLIES - (st.stack_.height_ + 1)).toNat + W + 1 ≤ n →
      SearchGood env st (quiescenceLoop env recQ we b beta gas mp alpha mt st) := by
  intro gas
  induction gas with
  | zero => intro mp _ _ _ h; omega
  | succ g ih =>
    intro mp alpha mt st hsz hinv hcap ha hbud
    rw [quiescenceLoop]
    simp only
    by_cases hnx : (env.mp_next (!we) mp st).1 = MOVE_NONE
    · simp only [hnx, if_true]
      by_cases hm : we = true ∧ mt = 0
      · simp only [hm, and_self, if_true]
        refine ⟨_, _, rfl, hinv, ⟨rfl, rfl, rfl, rfl⟩, ?_⟩
        rw [mated_score_eq _ _ _ hinv.2 hVM]
        obtain ⟨_, h0, h1, h2, h3, h4⟩ := hinv
        unfold InScoreRange; omega
      · rw [if_neg hm]
        exact ⟨_, _, rfl, hinv, ⟨rfl, rfl, rfl, rfl⟩, ha⟩
    · simp only [hnx, if_false]
      obtain ⟨htt, h0, h1, h2, h3, h4⟩ := hinv
      obtain ⟨stk, hpush, hs, hh, hl⟩ := push_good st.stack_ (env.key b)
        (env.mp_next (!we) mp st).1 0 (by omega) (by omega)
      rw [hpush]
      simp only
      have hinvc : SearchInv env { st with stack_ := stk } := by
        refine ⟨htt, ?_, ?_, ?_, ?_, ?_⟩ <;> (simp only [hs, hh, hl]; omega)
      obtain ⟨r, st1, hres, hinv1, hfr1, hr⟩ := hrec
        (!we && env.checkers (env.do_move b (env.mp_next (!we) mp st).1))
        { st with stack_ := stk }
        (env.do_move b (env.mp_next (!we) mp st).1) (-beta) (-alpha) hinvc
        (by simp only [hs, hh]; omega) (inScoreRange_neg _ _ hb) (inScoreRange_neg _ _ ha)
        (by simp only [stackRoom, hh]; omega)
      rw [hres]
      simp only
      obtain ⟨f1, f2, f3, f4⟩ := hfr1
      simp only at f1 f2 f3 f4
      obtain ⟨stk1, hpop, ps, ph, pl⟩ := pop_good st1.stack_ (by rw [f1, f2, hs, hh]; omega)
      rw [hpop]
      simp only
      have hinv2 : SearchInv env { st1 with stack_ := stk1 } := by
        refine ⟨hinv1.1, ?_, ?_, ?_, ?_, ?_⟩ <;>
          (simp only [ps, ph, pl, f1, f2, f3, hs, hh, hl]; omega)
      have hfr2 : SameFrame st { st1 with stack_ := stk1 } := by
        refine ⟨?_, ?_, ?_, f4⟩ <;> (simp only [ps, ph, pl, f1, f2, f3, hs, hh, hl]; try omega)
      have hr1 := inScoreRange_neg _ _ hr
      have ha1 : InScoreRange env.VALUE_MATE (if -r > alpha then -r else alpha) := by
        split_ifs <;> assumption
      by_cases hcut : -r ≥ beta
      · simp only [hcut, if_true]
        exact ⟨_, _, rfl, hinv2, hfr2, hb⟩
      · simp only [hcut, if_false]
        have hsz1 := hdec (!we) mp st hnx
        obtain ⟨v, st2, hres2, i1, i2, i3⟩ := ih (env.mp_next (!we) mp st).2
          (if -r > alpha then -r else alpha) (mt + 1)
          { st1 with stack_ := stk1 } (by omega) hinv2
          (by simp only [ph, f2, hh]; omega) ha1
          (by simp only [ph, f2, hh]; omega)
        exact ⟨v, st2, hres2, i1, sameFrame_trans _ _ _ hfr2 i2, i3⟩

theorem check_time_rmp {B H MP : Type} (env : SearchEnv B H MP) (st : SearchState H) :
    (check_time env st).rmp_ = st.rmp_ := by
  unfold check_time
  split_ifs <;> rfl

theorem check_time_inv {B H MP : Type} (env : SearchEnv B H MP) (st : SearchState H)
    (h : SearchInv env st) : SearchInv env (check_time env st) := by
  unfold SearchInv
  rw [check_time_tt, check_time_stack]
  exact h

theorem check_time_frame {B H MP : Type} (env : SearchEnv B H MP) (st : SearchState H) :
    SameFrame st (check_time env st) := by
  unfold SameFrame
  rw [check_time_stack, check_time_rmp]
  exact ⟨rfl, rfl, rfl, rfl⟩

theorem searchGood_of_frame {B H MP : Type} (env : SearchEnv B H MP) (a b : SearchState H)
    (res : SearchResult H) (hf : SameFrame a b) (h : SearchGood env b res) :
    SearchGood env a res := by
  obtain ⟨r, st1, hres, hinv, hfr, hr⟩ := h
  exact ⟨r, st1, hres, hinv, sameFrame_trans _ _ _ hf hfr, hr⟩

theorem quiescenceBody_good {B H MP : Type} (env : SearchEnv B H MP) (W n : Nat)
    (recQ : Bool → SearchState H → B → Int → Int → SearchResult H)
    (henv : EnvOK env W) (hrec : QuiescenceSpec env W n recQ) :
    QuiescenceSpec env W (n + 1) (quiescenceBody env recQ (n + 1)) := by
  intro we st0 b alpha beta hinv hply ha hb hbud
  obtain ⟨hVM1, hVM, hMB, hev, size, hdec, hnew, hnewq⟩ := henv
  have hinv1 := check_time_inv env st0 hinv
  have hfr1 := check_time_frame env st0
  unfold quiescenceBody
  simp only
  generalize check_time env st0 = st1 at hinv1 hfr1 ⊢
  obtain ⟨f1, f2, f3, f4⟩ := hfr1
  by_cases hdraw : st1.keep_going = false ∨ env.half_moves b ≥ 100
      ∨ env.is_material_draw b = true ∨ env.is_repetition st1.stack_ b = true
  · rw [if_pos hdraw]
    exact ⟨0, st1, rfl, hinv1, ⟨f1, f2, f3, f4⟩, by unfold InScoreRange; omega⟩
  · rw [if_neg hdraw]
    by_cases hcap : st1.stack_.capped env.MAX_PLIES = true
    · rw [if_pos hcap]
      exact ⟨_, _, rfl, hinv1, ⟨f1, f2, f3, f4⟩, hev b⟩
    · rw [if_neg hcap]
      have hcap1 : st1.stack_.height_ < env.MAX_PLIES := by
        simpa [Stack.capped] using hcap
      have hms : (countQNode st1).stack_.mated_score env.VALUE_MATE
          = -env.VALUE_MATE + (st1.stack_.height_ - st1.stack_.start_) :=
        mated_score_eq _ _ _ hinv1.2 hVM
      rw [hms]
      obtain ⟨h0, h1, h2, h3, h4⟩ := hinv1.2
      unfold InScoreRange at ha hb
      have hev1 := hev b
      unfold InScoreRange at hev1
      generalize hm : -env.VALUE_MATE + (st1.stack_.height_ - st1.stack_.start_) = m
      have ha1 : InScoreRange env.VALUE_MATE (max alpha m) := by
        unfold InScoreRange; omega
      have hb1 : InScoreRange env.VALUE_MATE (min beta (-m - 1)) := by
        unfold InScoreRange; omega
      by_cases hc1 : max alpha m ≥ min beta (-m - 1)
      · rw [if_pos hc1]
        exact ⟨_, _, rfl, hinv1, ⟨f1, f2, f3, f4⟩, ha1⟩
      · rw [if_neg hc1]
        by_cases hc2 : we = false ∧ max (max alpha m) (env.eval b) ≥ min beta (-m - 1)
        · rw [if_pos hc2]
          exact ⟨_, _, rfl, hinv1, ⟨f1, f2, f3, f4⟩, hb1⟩
        · rw [if_neg hc2]
          apply searchGood_of_frame env st0 (countQNode st1) _ ⟨f1, f2, f3, f4⟩
          apply quiescenceLoop_good env W n recQ hrec size hdec hVM we b _ hb1
          · have := hnewq b
            omega
          · exact hinv1
          · exact hcap1
          · unfold InScoreRange at ha1 ⊢
            split_ifs <;> omega
          · show (env.MAX_PLIES - (st1.stack_.height_ + 1)).toNat + W + 1 ≤ n
            unfold stackRoom at hbud
            rw [← f2] at hbud
            omega

theorem entryAt_some (s : Stack) (i : Int) (h0 : 0 ≤ i) (h1 : i < s.entries_.length) :
    ∃ e, s.entryAt i = some e := by
  unfold Stack.entryAt
  rw [if_pos h0]
  have hlt : i.toNat < s.entries_.length := by omega
  exact ⟨s.entries_[i.toNat], List.getElem?_eq_getElem hlt⟩

theorem setKillers_good (s : Stack) (i : Int) (k : Move × Move) (h0 : 0 ≤ i)
    (h1 : i < s.entries_.length) :
    ∃ stk, s.setKillers i k = some stk ∧ stk.start_ = s.start_ ∧ stk.height_ = s.height_
      ∧ stk.entries_.length = s.entries_.length := by
  obtain ⟨e, he⟩ := entryAt_some s i h0 h1
  unfold Stack.setKillers
  rw [he]
  exact ⟨_, rfl, rfl, rfl, by simp⟩

theorem failHighUpdate_good {B H MP : Type} (env : SearchEnv B H MP) (b : B) (depth ply : Int)
    (opp prev bm : Move) (mt : Nat) (st : SearchState H) (hinv : SearchInv env st)
    (hply : ply = st.stack_.height_ - st.stack_.start_)
    (hlen : st.stack_.height_ < st.stack_.entries_.length) :
    ∃ st1, failHighUpdate env b depth ply opp prev bm mt st = some st1 ∧ SearchInv env st1
      ∧ SameFrame st st1 := by
  obtain ⟨htt, h0, h1, h2, h3, h4⟩ := hinv
  unfold failHighUpdate
  simp only
  by_cases hq : env.is_quiet b bm = true
  · simp only [hq, if_true]
    obtain ⟨e, he⟩ := entryAt_some st.stack_ (st.stack_.start_ + ply) (by omega) (by omega)
    unfold Stack.at
    rw [he]
    simp only
    by_cases hk : e.killers.1 ≠ bm
    · rw [if_pos hk]
      obtain ⟨stk, hset, s1, s2, s3⟩ := setKillers_good st.stack_ (st.stack_.start_ + ply)
        (bm, e.killers.1) (by omega) (by omega)
      rw [hset]
      refine ⟨_, rfl, ⟨htt, ?_, ?_, ?_, ?_, ?_⟩, ⟨s1, s2, s3, rfl⟩⟩ <;>
        (simp only [s1, s2, s3]; try omega)
    · rw [if_neg hk]
      exact ⟨_, rfl, ⟨htt, h0, h1, h2, h3, h4⟩, ⟨rfl, rfl, rfl, rfl⟩⟩
  · simp only [hq, if_false]
    exact ⟨_, rfl, ⟨htt, h0, h1, h2, h3, h4⟩, ⟨rfl, rfl, rfl, rfl⟩⟩

theorem searchFinish_good {B H MP : Type} (env : SearchEnv B H MP) (b : B)
    (beta depth ply old_alpha : Int) (opp prev : Move) (r : LoopResult H)
    (hVM : env.VALUE_MATE ≤ 32767) (hMB : 0 ≤ env.MATE_BOUND)
    (hinv : SearchInv env r.st) (hply : ply = r.st.stack_.height_ - r.st.stack_.start_)
    (hlen : r.st.stack_.height_ < r.st.stack_.entries_.length)
    (hlo : -env.VALUE_MATE + ply ≤ r.alpha) (hblo : -env.VALUE_MATE + ply ≤ beta)
    (hbhi : beta ≤ env.VALUE_MATE - ply) :
    SearchGood env r.st (searchFinish env b beta depth ply old_alpha opp prev r) := by
  have hstk := hinv.2
  obtain ⟨h0, h1, h2, h3, h4⟩ := hstk
  unfold searchFinish
  by_cases hmt : r.moves_tried = 0
  · rw [if_pos hmt]
    by_cases hch : env.checkers b = true
    · rw [if_pos hch]
      refine ⟨_, _, rfl, hinv, ⟨rfl, rfl, rfl, rfl⟩, ?_⟩
      rw [mated_score_eq _ _ _ hinv.2 hVM]
      unfold InScoreRange; omega
    · rw [if_neg hch]
      exact ⟨_, _, rfl, hinv, ⟨rfl, rfl, rfl, rfl⟩, by unfold InScoreRange; omega⟩
  · rw [if_neg hmt]
    have hfh : ∃ st1, (if r.alpha ≥ beta then
          failHighUpdate env b depth ply opp prev r.best_move r.moves_tried r.st
        else some r.st) = some st1 ∧ SearchInv env st1 ∧ SameFrame r.st st1 := by
      by_cases hc : r.alpha ≥ beta
      · rw [if_pos hc]
        exact failHighUpdate_good env b depth ply opp prev r.best_move r.moves_tried r.st hinv
          hply hlen
      · rw [if_neg hc]
        exact ⟨_, rfl, hinv, ⟨rfl, rfl, rfl, rfl⟩⟩
    obtain ⟨st1, hst1, hinv1, hfr1⟩ := hfh
    rw [hst1]
    simp only
    have hal : -env.VALUE_MATE + ply ≤ (if r.alpha ≥ beta then beta else r.alpha)
        ∧ (if r.alpha ≥ beta then beta else r.alpha) ≤ env.VALUE_MATE - ply := by
      split_ifs <;> constructor <;> omega
    generalize (if r.alpha ≥ beta then beta else r.alpha) = af at hal ⊢
    have haf : InScoreRange env.VALUE_MATE af := by unfold InScoreRange; omega
    by_cases hkg : st1.keep_going = true
    · rw [if_pos hkg]
      obtain ⟨t1, ht1, htok⟩ := store_tableOK env.VALUE_MATE st1.tt
        (TTEntry.new env.MATE_BOUND 0 (env.key b) af 0 (determine_bound af beta old_alpha) depth
          r.best_move ply false) hinv1.1
        (new_score16_range _ _ _ _ _ _ _ _ hVM hMB (by omega) hal.1 hal.2)
      rw [ht1]
      exact ⟨_, _, rfl, ⟨htok, hinv1.2⟩, hfr1, haf⟩
    · rw [if_neg hkg]
      exact ⟨_, _, rfl, hinv1, hfr1, haf⟩

theorem searchMoves_good {B H MP : Type} (env : SearchEnv B H MP) (W n gas : Nat)
    (recS : SearchState H → B → Int → Int → Int → SearchResult H)
    (henv : EnvOK env W) (hrec : SearchSpec env W n recS)
    (st : SearchState H) (b : B) (alpha beta depth ply : Int) (ttm : Move)
    (hgas : W ≤ gas) (hinv : SearchInv env st) (hpos : st.stack_.start_ < st.stack_.height_)
    (hcap : st.stack_.height_ < env.MAX_PLIES)
    (hply : ply = st.stack_.height_ - st.stack_.start_)
    (hlo : -env.VALUE_MATE + ply ≤ alpha) (hab : alpha < beta)
    (hbhi : beta ≤ env.VALUE_MATE - ply)
    (hbud : (depth - 1).toNat + (env.MAX_PLIES - (st.stack_.height_ + 1)).toNat + W + 2 ≤ n) :
    SearchGood env st (searchMoves env recS gas st b alpha beta depth ply ttm) := by
  obtain ⟨hVM1, hVM, hMB, hev, size, hdec, hnew, hnewq⟩ := henv
  have hstk := hinv.2
  obtain ⟨h0, h1, h2, h3, h4⟩ := hstk
  unfold searchMoves
  obtain ⟨opp, hopp⟩ := entryAt_some st.stack_ (st.stack_.start_ + (ply - 1)) (by omega)
    (by omega)
  have hprev : ∃ prev, (if ply ≥ 2 then (st.stack_.at (ply - 2)).map StackEntry.move
      else some MOVE_NONE) = some prev := by
    by_cases hp : ply ≥ 2
    · rw [if_pos hp]
      obtain ⟨e, he⟩ := entryAt_some st.stack_ (st.stack_.start_ + (ply - 2)) (by omega)
        (by omega)
      unfold Stack.at
      rw [he]
      exact ⟨_, rfl⟩
    · rw [if_neg hp]
      exact ⟨_, rfl⟩
  obtain ⟨prev, hprev⟩ := hprev
  rw [hprev]
  obtain ⟨entry, hentry⟩ := entryAt_some st.stack_ (st.stack_.start_ + ply) (by omega)
    (by omega)
  unfold Stack.at
  rw [hopp, hentry]
  simp only
  have ha : InScoreRange env.VALUE_MATE alpha := by unfold InScoreRange; omega
  have hb : InScoreRange env.VALUE_MATE beta := by unfold InScoreRange; omega
  obtain ⟨r, hr, hinvr, hfr, hle, hra⟩ := searchLoop_good env W n recS hrec size hdec b beta
    depth hb gas
    (env.mp_new b ttm entry.killers (st.counters_ (env.from_to opp.move))
      (if ply ≥ 2 then st.followups_ (env.from_to prev) else MOVE_NONE))
    alpha (-env.VALUE_MATE) MOVE_NONE 0 st
    (by have := hnew b ttm entry.killers (st.counters_ (env.from_to opp.move))
          (if ply ≥ 2 then st.followups_ (env.from_to prev) else MOVE_NONE)
        omega)
    hinv hcap ha hbud
  rw [hr]
  simp only
  obtain ⟨f1, f2, f3, f4⟩ := hfr
  apply searchGood_of_frame env st r.st _ ⟨f1, f2, f3, f4⟩
  exact searchFinish_good env b beta depth ply alpha opp.move prev r hVM hMB hinvr
    (by rw [f1, f2]; exact hply) (by rw [f2, f3]; omega) (by omega) (by omega) hbhi

theorem searchProbe_good {B H MP : Type} (env : SearchEnv B H MP) (W n gas : Nat)
    (recS : SearchState H → B → Int → Int → Int → SearchResult H)
    (henv : EnvOK env W) (hrec : SearchSpec env W n recS)
    (st : SearchState H) (b : B) (alpha beta depth ply : Int)
    (hgas : W ≤ gas) (hinv : SearchInv env st) (hpos : st.stack_.start_ < st.stack_.height_)
    (hcap : st.stack_.height_ < env.MAX_PLIES)
    (hply : ply = st.stack_.height_ - st.stack_.start_)
    (hlo : -env.VALUE_MATE + ply ≤ alpha) (hab : alpha < beta)
    (hbhi : beta ≤ env.VALUE_MATE - ply) (hd : 0 < depth)
    (hbud : depth.toNat + stackRoom env st + W + 2 ≤ n + 1) :
    SearchGood env st (searchProbe env recS gas st b alpha beta depth ply) := by
  have henv1 := henv
  obtain ⟨hVM1, hVM, hMB, hev, _⟩ := henv1
  have hstk := hinv.2
  obtain ⟨h0, h1, h2, h3, h4⟩ := hstk
  have ha : InScoreRange env.VALUE_MATE alpha := by unfold InScoreRange; omega
  have hb : InScoreRange env.VALUE_MATE beta := by unfold InScoreRange; omega
  have hbud1 : (depth - 1).toNat + (env.MAX_PLIES - (st.stack_.height_ + 1)).toNat + W + 2
      ≤ n := by
    unfold stackRoom at hbud
    omega
  unfold searchProbe
  obtain ⟨pr, hpr, hprr⟩ := probe_tableOK env.VALUE_MATE st.tt (env.key b) ⟨0, 0⟩ hinv.1
  rw [hpr]
  simp only
  generalize hcut : (if pr.1 = true then
      can_return_ttscore env.MATE_BOUND pr.2 alpha beta depth ply else (false, alpha)) = cut
  by_cases hc : pr.1 = true ∧ cut.1 = true
  · rw [if_pos hc]
    have hcr : InScoreRange env.VALUE_MATE cut.2 := by
      rw [← hcut, if_pos hc.1]
      exact can_return_snd_range _ _ _ _ _ _ _ hMB (hprr hc.1) (by omega) (by omega) ha hb
    refine ⟨_, _, rfl, ?_, ?_, hcr⟩
    · split_ifs
      · exact hinv
      · exact hinv
    · split_ifs
      · exact ⟨rfl, rfl, rfl, rfl⟩
      · exact ⟨rfl, rfl, rfl, rfl⟩
  · rw [if_neg hc]
    have hc2 : cut.2 = alpha := by
      by_cases hp : pr.1 = true
      · rw [if_pos hp] at hcut
        have hf : cut.1 = false := by
          cases hh : cut.1
          · rfl
          · exact absurd ⟨hp, hh⟩ hc
        rw [← hcut] at hf ⊢
        exact can_return_false_snd _ _ _ _ _ _ hf
      · rw [if_neg hp] at hcut
        rw [← hcut]
    rw [hc2]
    by_cases hiid : ttMove env b pr MOVE_NONE = MOVE_NONE ∧ depth ≥ 5
    · rw [if_pos hiid]
      obtain ⟨r, st1, hres, hinv1, hfr1, hr⟩ := hrec st b alpha beta (depth - 2) hinv hpos ha hb
        (by omega)
      rw [hres]
      simp only
      obtain ⟨pr2, hpr2, _⟩ := probe_tableOK env.VALUE_MATE st1.tt (env.key b) pr.2 hinv1.1
      rw [hpr2]
      simp only
      obtain ⟨f1, f2, f3, f4⟩ := hfr1
      apply searchGood_of_frame env st st1 _ ⟨f1, f2, f3, f4⟩
      exact searchMoves_good env W n gas recS henv hrec st1 b alpha beta depth ply _ hgas hinv1
        (by rw [f1, f2]; exact hpos) (by rw [f2]; exact hcap) (by rw [f1, f2]; exact hply)
        hlo hab hbhi (by rw [f2]; exact hbud1)
    · rw [if_neg hiid]
      exact searchMoves_good env W n gas recS henv hrec st b alpha beta depth ply _ hgas hinv
        hpos hcap hply hlo hab hbhi hbud1

theorem searchBody_good {B H MP : Type} (env : SearchEnv B H MP) (W n : Nat)
    (recS : SearchState H → B → Int → Int → Int → SearchResult H)
    (recQ : Bool → SearchState H → B → Int → Int → SearchResult H)
    (henv : EnvOK env W) (hrecS : SearchSpec env W n recS)
    (hrecQ : QuiescenceSpec env W n recQ) :
    SearchSpec env W (n + 1) (searchBody env recS recQ (n + 1)) := by
  intro st0 b alpha beta depth hinv hpos ha hb hbud
  have henv1 := henv
  obtain ⟨hVM1, hVM, hMB, hev, _⟩ := henv1
  have hinv1 := check_time_inv env st0 hinv
  have hfr1 := check_time_frame env st0
  unfold searchBody
  simp only
  generalize check_time env st0 = st1 at hinv1 hfr1 ⊢
  obtain ⟨f1, f2, f3, f4⟩ := hfr1
  by_cases hkg : st1.keep_going = false
  · rw [if_pos hkg]
    exact ⟨0, st1, rfl, hinv1, ⟨f1, f2, f3, f4⟩, by unfold InScoreRange; omega⟩
  · rw [if_neg hkg]
    rw [mated_score_eq _ _ _ hinv1.2 hVM]
    have hstk := hinv1.2
    obtain ⟨h0, h1, h2, h3, h4⟩ := hstk
    unfold InScoreRange at ha hb
    generalize hm : -env.VALUE_MATE + (st1.stack_.height_ - st1.stack_.start_) = m
    have ha1 : InScoreRange env.VALUE_MATE (max alpha m) := by
      unfold InScoreRange; omega
    have hb1 : InScoreRange env.VALUE_MATE (min beta (-m - 1)) := by
      unfold InScoreRange; omega
    by_cases hc1 : max alpha m ≥ min beta (-m - 1)
    · rw [if_pos hc1]
      exact ⟨_, _, rfl, hinv1, ⟨f1, f2, f3, f4⟩, ha1⟩
    · rw [if_neg hc1]
      by_cases hd : depth ≤ 0
      · rw [if_pos hd]
        apply searchGood_of_frame env st0 st1 _ ⟨f1, f2, f3, f4⟩
        apply hrecQ (env.checkers b) st1 b _ _ hinv1 (by rw [f1, f2]; exact hpos) ha1 hb1
        unfold stackRoom at hbud ⊢
        rw [f2]
        omega
      · rw [if_neg hd]
        by_cases hcap : (countNode st1).stack_.capped env.MAX_PLIES = true
        · rw [if_pos hcap]
          exact ⟨_, _, rfl, hinv1, ⟨f1, f2, f3, f4⟩, hev b⟩
        · rw [if_neg hcap]
          have hcap1 : st1.stack_.height_ < env.MAX_PLIES := by
            simpa [Stack.capped, countNode] using hcap
          by_cases hdr : drawByRule env (countNode st1).stack_ b = true
          · rw [if_pos hdr]
            exact ⟨_, _, rfl, hinv1, ⟨f1, f2, f3, f4⟩, by unfold InScoreRange; omega⟩
          · rw [if_neg hdr]
            apply searchGood_of_frame env st0 (countNode st1) _ ⟨f1, f2, f3, f4⟩
            apply searchProbe_good env W n (n + 1) recS henv hrecS (countNode st1) b _ _ depth
              st0.stack_.height (by omega) hinv1
              (by show st1.stack_.start_ < st1.stack_.height_; omega) hcap1
            · show st0.stack_.height = st1.stack_.height_ - st1.stack_.start_
              rw [f1, f2]
              rfl
            · unfold Stack.height
              rw [← f1, ← f2]
              omega
            · omega
            · unfold Stack.height
              rw [← f1, ← f2]
              omega
            · omega
            · show depth.toNat + (env.MAX_PLIES - st1.stack_.height_).toNat + W + 2 ≤ n + 1
              unfold stackRoom at hbud
              rw [f2]
              exact hbud

theorem searchLevel_good {B H MP : Type} (env : SearchEnv B H MP) (W : Nat)
    (henv : EnvOK env W) :
    ∀ n : Nat, SearchSpec env W n (search env n) ∧ QuiescenceSpec env W n (quiescence env n) := by
  intro n
  induction n with
  | zero =>
    constructor
    · intro st b alpha beta depth _ _ _ _ h
      omega
    · intro we st b alpha beta _ _ _ _ h
      omega
  | succ n ih =>
    constructor
    · rw [search_succ]
      exact searchBody_good env W n _ _ henv ih.1 ih.2
    · rw [quiescence_succ]
      exact quiescenceBody_good env W n _ henv ih.2

/-! ### Score range: the root -/

theorem rootMoveScore_good {B H MP : Type} (env : SearchEnv B H MP) (W n : Nat)
    (recS : SearchState H → B → Int → Int → Int → SearchResult H)
    (hrec : SearchSpec env W n recS) (st : SearchState H) (bb : B) (alpha beta depth : Int)
    (mt : Nat) (hinv : SearchInv env st) (hpos : st.stack_.start_ < st.stack_.height_)
    (ha : InScoreRange env.VALUE_MATE alpha) (hb : InScoreRange env.VALUE_MATE beta)
    (hab : alpha < beta) (hbud : (depth - 1).toNat + stackRoom env st + W + 2 ≤ n) :
    SearchGood env st (rootMoveScore recS st bb alpha beta depth mt) := by
  unfold rootMoveScore
  by_cases hfull : mt = 0 ∨ depth ≤ 6
  · rw [if_pos hfull]
    obtain ⟨r, st1, hres, hinv1, hfr1, hr⟩ := hrec st bb (-beta) (-alpha) (depth - 1) hinv hpos
      (inScoreRange_neg _ _ hb) (inScoreRange_neg _ _ ha) hbud
    rw [hres]
    exact ⟨_, _, rfl, hinv1, hfr1, inScoreRange_neg _ _ hr⟩
  · rw [if_neg hfull]
    have hz : InScoreRange env.VALUE_MATE (-(alpha + 1)) := by
      unfold InScoreRange at ha hb ⊢
      omega
    obtain ⟨r, st1, hres, hinv1, hfr1, hr⟩ := hrec st bb (-(alpha + 1)) (-alpha) (depth - 1)
      hinv hpos hz (inScoreRange_neg _ _ ha) hbud
    rw [hres]
    simp only
    by_cases hin : -r > alpha ∧ -r < beta
    · rw [if_pos hin]
      obtain ⟨f1, f2, f3, f4⟩ := hfr1
      obtain ⟨r2, st2, hres2, hinv2, hfr2, hr2⟩ := hrec st1 bb (-beta) (-alpha) (depth - 1)
        hinv1 (by rw [f1, f2]; exact hpos) (inScoreRange_neg _ _ hb) (inScoreRange_neg _ _ ha)
        (by unfold stackRoom at hbud ⊢; rw [f2]; exact hbud)
      rw [hres2]
      exact ⟨_, _, rfl, hinv2, sameFrame_trans _ _ _ ⟨f1, f2, f3, f4⟩ hfr2,
        inScoreRange_neg _ _ hr2⟩
    · rw [if_neg hin]
      exact ⟨_, _, rfl, hinv1, hfr1, inScoreRange_neg _ _ hr⟩

theorem next_some (p : RootMovePicker) (h : p.next.1 ≠ MOVE_NONE) :
    p.cur_ < p.moves_.length ∧ p.next.2.cur_ = p.cur_ + 1 ∧ p.next.2.moves_ = p.moves_ := by
  unfold RootMovePicker.next at h ⊢
  cases hg : p.moves_[p.cur_]? with
  | none => rw [hg] at h; exact absurd rfl h
  | some rm =>
    obtain ⟨hlt, _⟩ := List.getElem?_eq_some_iff.mp hg
    exact ⟨hlt, rfl, rfl⟩

theorem update_last_good (p : RootMovePicker) (s : Int) (nd : Nat) (h0 : 0 < p.cur_)
    (h1 : p.cur_ ≤ p.moves_.length) :
    ∃ p1, p.update_last s nd = some p1 ∧ p1.cur_ = p.cur_
      ∧ p1.moves_.length = p.moves_.length := by
  unfold RootMovePicker.update_last
  rw [if_pos ⟨h0, h1⟩]
  have hlt : p.cur_ - 1 < p.moves_.length := by omega
  rw [List.getElem?_eq_getElem hlt]
  exact ⟨_, rfl, rfl, by simp⟩

theorem rootLoop_good {B H MP : Type} (env : SearchEnv B H MP) (W n : Nat)
    (recS : SearchState H → B → Int → Int → Int → SearchResult H)
    (hrec : SearchSpec env W n recS) (beta depth : Int)
    (hb : InScoreRange env.VALUE_MATE beta) :
    ∀ (gas : Nat) (alpha bs : Int) (bm : Move) (mt : Nat) (st0 : SearchState H),
      st0.rmp_.moves_.length - st0.rmp_.cur_ < gas → SearchInv env st0 →
      st0.stack_.height_ < st0.stack_.entries_.length →
      InScoreRange env.VALUE_MATE alpha → alpha < beta →
      (depth - 1).toNat + (env.MAX_PLIES - (st0.stack_.height_ + 1)).toNat + W + 2 ≤ n →
      ∃ r, rootLoop env recS beta depth gas alpha bs bm mt st0 = some r
        ∧ SearchInv env r.st ∧ InScoreRange env.VALUE_MATE r.alpha := by
  intro gas
  induction gas with
  | zero => intro _ _ _ _ _ h; omega
  | succ g ih =>
    intro alpha bs bm mt st0 hsz hinv hlen ha hab hbud
    rw [rootLoop]
    simp only
    by_cases hnx : st0.rmp_.next.1 = MOVE_NONE
    · simp only [hnx, if_true]
      exact ⟨_, rfl, hinv, ha⟩
    · simp only [hnx, if_false]
      obtain ⟨n1, n2, n3⟩ := next_some st0.rmp_ hnx
      obtain ⟨htt, h0, h1, h2, h3, h4⟩ := hinv
      obtain ⟨stk, hpush, hs, hh, hl⟩ := push_good st0.stack_ (env.key env.root_)
        st0.rmp_.next.1 0 (by omega) hlen
      rw [hpush]
      simp only
      have hinvc : SearchInv env { st0 with rmp_ := st0.rmp_.next.2, stack_ := stk } := by
        refine ⟨htt, ?_, ?_, ?_, ?_, ?_⟩ <;> (simp only [hs, hh, hl]; omega)
      obtain ⟨r, st1, hres, hinv1, hfr1, hr⟩ := rootMoveScore_good env W n recS hrec
        { st0 with rmp_ := st0.rmp_.next.2, stack_ := stk } (env.do_move env.root_ st0.rmp_.next.1)
        alpha beta depth mt hinvc (by simp only [hs, hh]; omega) ha hb hab
        (by simp only [stackRoom, hh]; omega)
      rw [hres]
      simp only
      obtain ⟨f1, f2, f3, f4⟩ := hfr1
      simp only at f1 f2 f3 f4
      obtain ⟨stk1, hpop, ps, ph, pl⟩ := pop_good st1.stack_ (by rw [f1, f2, hs, hh]; omega)
      rw [hpop]
      simp only
      obtain ⟨rmp1, hupd, u1, u2⟩ := update_last_good st1.rmp_ r
        (st1.stats_.nodes - st0.stats_.nodes) (by rw [f4, n2]; omega) (by rw [f4, n2, n3]; omega)
      rw [hupd]
      simp only
      have hinv2 : SearchInv env { st1 with stack_ := stk1, rmp_ := rmp1 } := by
        refine ⟨hinv1.1, ?_, ?_, ?_, ?_, ?_⟩ <;>
          (simp only [ps, ph, pl, f1, f2, f3, hs, hh, hl]; omega)
      by_cases hcut : r ≥ beta
      · simp only [hcut, if_true]
        exact ⟨_, rfl, hinv2, hb⟩
      · simp only [hcut, if_false]
        have ha1 : InScoreRange env.VALUE_MATE (if r > alpha then r else alpha) := by
          split_ifs <;> assumption
        exact ih (if r > alpha then r else alpha) (if r > bs then r else bs)
          (if r > bs then st0.rmp_.next.1 else bm) (mt + 1)
          { st1 with stack_ := stk1, rmp_ := rmp1 }
          (by simp only [u1, u2, f4, n2, n3]; omega) hinv2
          (by simp only [ph, pl, f2, f3, hh, hl]; omega) ha1
          (by split_ifs <;> omega)
          (by simp only [ph, f2, hh]; omega)

theorem searchRootBody_good {B H MP : Type} (env : SearchEnv B H MP) (W n gas : Nat)
    (recS : SearchState H → B → Int → Int → Int → SearchResult H)
    (henv : EnvOK env W) (hrec : SearchSpec env W n recS) (st : SearchState H)
    (alpha beta depth : Int) (hgas : st.rmp_.moves_.length - st.rmp_.cur_ < gas)
    (hinv : SearchInv env st) (hlen : st.stack_.height_ < st.stack_.entries_.length)
    (ha : InScoreRange env.VALUE_MATE alpha) (hb : InScoreRange env.VALUE_MATE beta)
    (hab : alpha < beta)
    (hbud : (depth - 1).toNat + (env.MAX_PLIES - (st.stack_.height_ + 1)).toNat + W + 2 ≤ n) :
    ∃ (r : Int) (st1 : SearchState H), searchRootBody env recS gas st alpha beta depth
        = some (r, st1) ∧ SearchInv env st1 ∧ InScoreRange env.VALUE_MATE r := by
  obtain ⟨hVM1, hVM, hMB, hev, _⟩ := henv
  have hstk := hinv.2
  obtain ⟨h0, h1, h2, h3, h4⟩ := hstk
  unfold searchRootBody
  by_cases hdr : drawByRule env st.stack_ env.root_ = true
  · rw [if_pos hdr]
    exact ⟨_, _, rfl, hinv, by unfold InScoreRange; omega⟩
  · rw [if_neg hdr]
    obtain ⟨pr, hpr, hprr⟩ := probe_tableOK env.VALUE_MATE st.tt (env.key env.root_) ⟨0, 0⟩
      hinv.1
    rw [hpr]
    simp only
    generalize hcut : (if pr.1 = true then
        can_return_ttscore env.MATE_BOUND pr.2 alpha beta depth 0 else (false, alpha)) = cut
    by_cases hc : pr.1 = true ∧ cut.1 = true
    · rw [if_pos hc]
      refine ⟨_, _, rfl, hinv, ?_⟩
      rw [← hcut, if_pos hc.1]
      exact can_return_snd_range _ _ _ _ _ _ _ hMB (hprr hc.1) (by omega) (by omega) ha hb
    · rw [if_neg hc]
      have hc2 : cut.2 = alpha := by
        by_cases hp : pr.1 = true
        · rw [if_pos hp] at hcut
          have hf : cut.1 = false := by
            cases hh : cut.1
            · rfl
            · exact absurd ⟨hp, hh⟩ hc
          rw [← hcut] at hf ⊢
          exact can_return_false_snd _ _ _ _ _ _ hf
        · rw [if_neg hp] at hcut
          rw [← hcut]
      rw [hc2]
      obtain ⟨r, hloop, hinvr, hra⟩ := rootLoop_good env W n recS hrec beta depth hb gas alpha
        (-env.VALUE_MATE) MOVE_NONE 0 st hgas hinv hlen ha hab hbud
      rw [hloop]
      simp only
      by_cases hkg : r.st.keep_going = true
      · simp only [hkg, if_true]
        obtain ⟨t1, ht1, htok⟩ := store_tableOK env.VALUE_MATE r.st.tt
          (TTEntry.new env.MATE_BOUND 0 (env.key env.root_) r.alpha 0
            (determine_bound r.alpha beta alpha) depth r.best_move 0 false) hinvr.1
          (new_score16_range _ _ _ _ _ _ _ _ hVM hMB (le_refl _)
            (by unfold InScoreRange at hra; omega) (by unfold InScoreRange at hra; omega))
        rw [ht1]
        exact ⟨_, _, rfl, ⟨htok, hinvr.2⟩, hra⟩
      · simp only [hkg, if_false]
        exact ⟨_, _, rfl, hinvr, hra⟩

theorem toyEnvBounded_ok : EnvOK toyEnvBounded 3 := by
  refine ⟨by decide, by decide, by decide, ?_, List.length, ?_, ?_, ?_⟩
  · intro b
    show -32000 ≤ min (10 * (b : Int)) 32000 ∧ min (10 * (b : Int)) 32000 ≤ 32000
    omega
  · intro t mp st h
    cases mp with
    | nil => exact absurd rfl h
    | cons a as => simp [toyEnvBounded, toyEnv]
  · intro b ttm k c f
    show (toyMoves b).length < 3
    unfold toyMoves
    split_ifs <;> simp
  · intro b
    show ([] : List Move).length < 3
    simp

theorem toyInterior_inv : SearchInv toyEnvBounded toyInterior := by
  refine ⟨⟨by decide, by decide, ?_⟩, by decide, by decide, by decide, by decide, by decide⟩
  intro b hb e he
  have hz : e = ⟨0, 0⟩ := by
    simp only [toyInterior, toyState, List.mem_cons, List.mem_singleton, List.not_mem_nil,
      or_false] at hb
    rcases hb with rfl | rfl <;> simpa using he
  rw [hz]
  unfold InScoreRange
  decide

/-- Claim C13: under the assumptions `EnvOK` on the collaborators (an evaluation
within `[-VALUE_MATE, +VALUE_MATE]`, `1 ≤ VALUE_MATE ≤ 32767`, `MATE_BOUND ≥ 0`,
move pickers yielding fewer than `W` moves) and from a state satisfying
`SearchInv` (a table whose slots hold scores within the range, as every cleared
table does, and a stack within its array), with fuel at least
`depth + room on the stack + W + 2`: `search` called below the root with the
window `(-VALUE_MATE, +VALUE_MATE)` returns, its score lies within
`[-VALUE_MATE, +VALUE_MATE]`, and the invariant holds afterwards; and so does
`search_root` when the stack has a free slot and the fuel covers the root
moves. -/
theorem search_score_range {B H MP : Type} (env : SearchEnv B H MP) (W : Nat)
    (henv : EnvOK env W) (st : SearchState H) (hinv : SearchInv env st) (b : B) (depth : Int)
    (fuel : Nat) (hfuel : depth.toNat + stackRoom env st + W + 2 ≤ fuel) :
    (st.stack_.start_ < st.stack_.height_ →
      ∃ (r : Int) (st1 : SearchState H),
        search env fuel st b (-env.VALUE_MATE) env.VALUE_MATE depth = some (r, st1)
          ∧ -env.VALUE_MATE ≤ r ∧ r ≤ env.VALUE_MATE ∧ SearchInv env st1)
    ∧ (st.stack_.height_ < st.stack_.entries_.length → st.rmp_.num_moves ≤ fuel →
      ∃ (r : Int) (st1 : SearchState H),
        search_root env fuel st (-env.VALUE_MATE) env.VALUE_MATE depth = some (r, st1)
          ∧ -env.VALUE_MATE ≤ r ∧ r ≤ env.VALUE_MATE ∧ SearchInv env st1) := by
  have hVM1 := henv.1
  have hlo : InScoreRange env.VALUE_MATE (-env.VALUE_MATE) := by unfold InScoreRange; omega
  have hhi : InScoreRange env.VALUE_MATE env.VALUE_MATE := by unfold InScoreRange; omega
  have hlev := searchLevel_good env W henv fuel
  constructor
  · intro hpos
    obtain ⟨r, st1, hres, hinv1, _, hr⟩ := hlev.1 st b (-env.VALUE_MATE) env.VALUE_MATE depth
      hinv hpos hlo hhi hfuel
    exact ⟨r, st1, hres, hr.1, hr.2, hinv1⟩
  · intro hlen hmoves
    obtain ⟨r, st1, hres, hinv1, hr⟩ := searchRootBody_good env W fuel (fuel + 1)
      (search env fuel) henv hlev.1 st (-env.VALUE_MATE) env.VALUE_MATE depth
      (by unfold RootMovePicker.num_moves at hmoves; omega) hinv hlen hlo hhi (by omega)
      (by unfold stackRoom at hfuel; omega)
    exact ⟨r, st1, hres, hr.1, hr.2, hinv1⟩

/-- Witness for C13 on the toy game: one ply below the root, with a cleared
table, depth 2 and fuel 12, both `search` and `search_root` return a score
within `[-32000, 32000]`. -/
theorem search_score_range_witness :
    (∃ (r : Int) (st1 : SearchState Nat),
        search toyEnvBounded 12 toyInterior 1 (-32000) 32000 2 = some (r, st1)
          ∧ -32000 ≤ r ∧ r ≤ 32000 ∧ SearchInv toyEnvBounded st1)
    ∧ (∃ (r : Int) (st1 : SearchState Nat),
        search_root toyEnvBounded 12 toyInterior (-32000) 32000 2 = some (r, st1)
          ∧ -32000 ≤ r ∧ r ≤ 32000 ∧ SearchInv toyEnvBounded st1) :=
  ⟨(search_score_range toyEnvBounded 3 toyEnvBounded_ok toyInterior toyInterior_inv 1 2 12
      (by decide)).1 (by decide),
    (search_score_range toyEnvBounded 3 toyEnvBounded_ok toyInterior toyInterior_inv 1 2 12
      (by decide)).2 (by decide) (by decide)⟩

theorem clear_tableOK (VM : Int) (t : TranspositionTable) (hVM : 0 ≤ VM) (hsize : 0 < t.size_)
    (hne : ∀ b ∈ t.buckets_, b ≠ []) : TableOK VM t.clear := by
  refine ⟨?_, ?_, ?_⟩
  · simp only [TranspositionTable.size_, TranspositionTable.clear, List.length_map]
    exact hsize
  · intro b hb
    simp only [TranspositionTable.clear, List.mem_map] at hb
    obtain ⟨c, hc, rfl⟩ := hb
    intro hnil
    exact hne c hc (List.map_eq_nil_iff.mp hnil)
  · intro b hb e he
    simp only [TranspositionTable.clear, List.mem_map] at hb
    obtain ⟨c, _, rfl⟩ := hb
    simp only [List.mem_map] at he
    obtain ⟨_, _, rfl⟩ := he
    have hz : (⟨0, 0⟩ : TTEntry).score16 = 0 := by decide
    rw [InScoreRange, hz]
    omega

/-! ### Probe on a zeroed table, and the age of a probed slot -/

theorem probeLoop_zero (age_ key : Nat) (hkey : key ≠ 0) :
    ∀ (xs : List TTEntry) (e0 : TTEntry), (∀ e ∈ xs, e = (⟨0, 0⟩ : TTEntry)) →
      (probeLoop age_ key xs e0).1 = false := by
  intro xs e0 h
  apply probeLoop_miss
  intro i y hy
  have hz := h y (List.getElem?_mem hy)
  rw [hz]
  intro h0
  exact hkey h0.symm

theorem clear_allZero (t : TranspositionTable) : AllZero t.clear := by
  intro b hb e he
  simp only [TranspositionTable.clear, List.mem_map] at hb
  obtain ⟨c, _, rfl⟩ := hb
  simp only [List.mem_map] at he
  obtain ⟨_, _, rfl⟩ := he
  rfl

theorem resize_allZero (sizeofBucket N : Nat) (t : TranspositionTable) (mbs : Int) :
    AllZero (t.resize sizeofBucket N mbs) := by
  intro b hb e he
  simp only [TranspositionTable.resize] at hb
  rw [List.eq_of_mem_replicate hb] at he
  exact List.eq_of_mem_replicate he

/-- Counterexample to C25 as stated: the cleared table `zeroTable` has two
buckets, all its slots are zero, and `probe(0)` reports a hit: a zero slot has
`key ^ data = 0`. -/
theorem zero_table_hits_key_zero :
    0 < zeroTable.size_ ∧ AllZero zeroTable
      ∧ zeroTable.probe 0 ⟨0, 0⟩ = some (true, (⟨0, 0⟩ : TTEntry).setAge 1) :=
  ⟨by decide, clear_allZero exampleTable, by decide⟩

/-- Claim C25, amended: on a table with at least one bucket whose slots are all
zero, `probe(key)` reports a miss for every key other than 0. -/
theorem zero_table_misses (t : TranspositionTable) (key : Nat) (e0 : TTEntry)
    (hsize : 0 < t.size_) (hzero : AllZero t) (hkey : key ≠ 0) :
    ∃ e, t.probe key e0 = some (false, e) := by
  obtain ⟨pr, hpr⟩ := probe_some t key e0 hsize
  have hpr1 := hpr
  unfold TranspositionTable.probe at hpr1
  cases hb : t.buckets_[key % t.size_]? with
  | none => rw [hb] at hpr1; exact absurd hpr1 (by simp)
  | some b =>
    rw [hb] at hpr1
    simp only [Option.some.injEq] at hpr1
    have hmiss := probeLoop_zero t.age_ key hkey b e0 (hzero b (List.getElem?_mem hb))
    rw [hpr1] at hmiss
    refine ⟨pr.2, ?_⟩
    rw [hpr, ← hmiss]

/-- Witness for C25: `probe(12345)` on the cleared table `zeroTable`. -/
theorem zero_table_misses_witness :
    ∃ e, zeroTable.probe 12345 ⟨0, 0⟩ = some (false, e) :=
  zero_table_misses zeroTable 12345 ⟨0, 0⟩ (by decide) (clear_allZero exampleTable) (by decide)

/-- Claim C21, the code at the failing input. In `agedTable` (age 2) the slot of
key 5 was written at age 1. `probe(5)` hits and the entry it returns has age 2,
but `probe` has only the table to read from and its out-parameter to write to:
the slot keeps age 1. The next `store` of a new key therefore takes the probed
slot by step (b), although the other slot is shallower. -/
theorem probe_leaves_stored_age :
    ∃ (t t1 : TranspositionTable) (e : TTEntry),
      agedTable = some t ∧ t.age_ = 2
        ∧ t.buckets_ = [[storedSlot 1 entryFive, storedSlot 2 entrySeven]]
        ∧ t.probe 5 ⟨0, 0⟩ = some (true, e) ∧ e.age = 2
        ∧ (storedSlot 1 entryFive).age = 1
        ∧ (storedSlot 1 entryFive).depth5 = 3 ∧ (storedSlot 2 entrySeven).depth5 = 1
        ∧ t.store entryNine = some t1
        ∧ t1.buckets_ = [[storedSlot 2 entryNine, storedSlot 2 entrySeven]] :=
  ⟨⟨[[storedSlot 1 entryFive, storedSlot 2 entrySeven]], 2, by decide⟩,
    ⟨[[storedSlot 2 entryNine, storedSlot 2 entrySeven]], 2, by decide⟩,
    (storedSlot 1 entryFive).setAge 2, by decide, rfl, rfl,
    by decide, by decide, by decide, by decide, by decide, by decide, by decide⟩

/-! ### Push and pop on the slot of the current ply -/

/-- Claim C27: on a stack that is not capped (with `MAX_PLIES` within the array
and `0 ≤ start_ ≤ height_`), `push(key, m, eval)` succeeds, writes exactly the
slot `entries_[start_ + height()]` that `at(height())` referred to, and sets
that slot to `key`, `m`, killers `{MOVE_NONE, MOVE_NONE}`, `eval`; the following
`pop` succeeds, restores `total_height()` and `height()`, and `at(height())`
then holds the pushed entry with both killers `MOVE_NONE`. -/
theorem push_overwrites_current_slot (MAX_PLIES : Int) (s : Stack) (key : Nat) (m : Move)
    (eval : Int) (hcap : s.capped MAX_PLIES = false) (hlen : MAX_PLIES ≤ s.entries_.length)
    (h0 : 0 ≤ s.start_) (h1 : s.start_ ≤ s.height_) :
    ∃ s1 s2, s.push key m eval = some s1 ∧ s1.pop = some s2
      ∧ (∃ old, s.at s.height = some old)
      ∧ (∀ i : Int, i ≠ s.start_ + s.height → s1.entryAt i = s.entryAt i)
      ∧ s1.entryAt (s.start_ + s.height) = some ⟨key, m, (MOVE_NONE, MOVE_NONE), eval⟩
      ∧ s2.total_height = s.total_height ∧ s2.height = s.height
      ∧ s2.at s2.height = some ⟨key, m, (MOVE_NONE, MOVE_NONE), eval⟩ := by
  have hh : s.height_ < MAX_PLIES := by simpa [Stack.capped] using hcap
  have hlt : s.height_ < s.entries_.length := by omega
  have hnat : s.height_.toNat < s.entries_.length := by omega
  have hidx : s.start_ + s.height = s.height_ := by unfold Stack.height; omega
  have hpush : s.push key m eval = some { s with
      entries_ := s.entries_.set s.height_.toNat ⟨key, m, (MOVE_NONE, MOVE_NONE), eval⟩
      height_ := s.height_ + 1 } := by
    unfold Stack.push
    rw [if_pos ⟨by omega, hlt⟩]
  refine ⟨_, ⟨s.entries_.set s.height_.toNat ⟨key, m, (MOVE_NONE, MOVE_NONE), eval⟩, s.start_,
    s.height_⟩, hpush, ?_, ?_, ?_, ?_, rfl, rfl, ?_⟩
  · unfold Stack.pop
    rw [if_pos (by show s.height_ + 1 > s.start_; omega)]
    simp
  · unfold Stack.at
    rw [hidx]
    exact entryAt_some s s.height_ (by omega) hlt
  · intro i hi
    rw [hidx] at hi
    unfold Stack.entryAt
    by_cases hi0 : 0 ≤ i
    · simp only [hi0, if_true]
      rw [List.getElem?_set_ne (by omega)]
    · simp only [hi0, if_false]
  · rw [hidx]
    unfold Stack.entryAt
    simp only [show (0 : Int) ≤ s.height_ by omega, if_true]
    rw [List.getElem?_set_eq_of_lt _ hnat]
  · unfold Stack.at Stack.height Stack.entryAt
    simp only
    rw [show s.start_ + (s.height_ - s.start_) = s.height_ by omega]
    simp only [show (0 : Int) ≤ s.height_ by omega, if_true]
    rw [List.getElem?_set_eq_of_lt _ hnat]

/-- Witness for C27: a stack of capacity 6 with `MAX_PLIES = 6` whose slot 1
holds killers `(5, 7)`, at height 1. -/
theorem push_overwrites_current_slot_witness :
    ∃ s1 s2, (⟨[⟨0, 0, (0, 0), 0⟩, ⟨3, 4, (5, 7), 0⟩, ⟨0, 0, (0, 0), 0⟩, ⟨0, 0, (0, 0), 0⟩,
          ⟨0, 0, (0, 0), 0⟩, ⟨0, 0, (0, 0), 0⟩], 0, 1⟩ : Stack).push 11 12 13 = some s1
      ∧ s1.pop = some s2
      ∧ (∃ old, (⟨[⟨0, 0, (0, 0), 0⟩, ⟨3, 4, (5, 7), 0⟩, ⟨0, 0, (0, 0), 0⟩, ⟨0, 0, (0, 0), 0⟩,
          ⟨0, 0, (0, 0), 0⟩, ⟨0, 0, (0, 0), 0⟩], 0, 1⟩ : Stack).at 1 = some old)
      ∧ s2.at s2.height = some ⟨11, 12, (MOVE_NONE, MOVE_NONE), 13⟩ := by
  obtain ⟨s1, s2, h1, h2, h3, _, _, _, _, h8⟩ := push_overwrites_current_slot 6
    (⟨[⟨0, 0, (0, 0), 0⟩, ⟨3, 4, (5, 7), 0⟩, ⟨0, 0, (0, 0), 0⟩, ⟨0, 0, (0, 0), 0⟩,
      ⟨0, 0, (0, 0), 0⟩, ⟨0, 0, (0, 0), 0⟩], 0, 1⟩ : Stack) 11 12 13 (by decide) (by decide)
    (by decide) (by decide)
  exact ⟨s1, s2, h1, h2, h3, h8⟩

/-! ### Stored results on the same window -/

/-- Counterexample to C26 as stated, with `MATE_BOUND = 31000`: for the window
`(-32767, 0)`, the final value `a = -32767`, depth 1 and ply 2, `a + p` fits in
16 bits, but the constructor stores `int16_t(a - p)`, which wraps to `32767`,
and `can_return_ttscore` on the same window fails. -/
theorem stored_result_lost_by_wrap :
    (-32767 : Int) < 0 ∧ (-32768 : Int) ≤ -32767 + 2 ∧ (-32767 : Int) + 2 ≤ 32767
      ∧ (TTEntry.new 31000 0 1 (-32767) 0 (determine_bound (-32767) 0 (-32767)) 1 0 2
          false).score16 = 32767
      ∧ can_return_ttscore 31000
          (TTEntry.new 31000 0 1 (-32767) 0 (determine_bound (-32767) 0 (-32767)) 1 0 2 false)
          (-32767) 0 1 2 = (false, -32767) := by
  decide

/-- Claim C26, amended: for a window `(alpha0, beta)`, a final value `a` with
`alpha0 ≤ a ≤ beta`, a depth `1 ≤ d ≤ 63`, a ply `p ≥ 0` with `|a| + p` in the
range of `int16_t`, the entry
`TTEntry(k, a, determine_bound(a, beta, alpha0), d, m, p)` makes
`can_return_ttscore(entry, alpha0, beta, d1, p)` return `true` with `alpha = a`
for every requested depth `d1 ≤ d`; and `determine_bound` is `BOUND_BETA` if
`a ≥ beta`, else `BOUND_EXACT` if `a > alpha0`, else `BOUND_ALPHA`. -/
theorem stored_result_reusable (MATE_BOUND : Int) (age0 key : Nat) (ev : Int) (m : Move)
    (null : Bool) (alpha0 beta a d d1 p : Int) (hlo : alpha0 ≤ a)
    (hhi : a ≤ beta) (hd0 : 1 ≤ d) (hd : d ≤ 63) (hp : 0 ≤ p) (hs : |a| + p ≤ 32767)
    (hd1 : d1 ≤ d) :
    can_return_ttscore MATE_BOUND
        (TTEntry.new MATE_BOUND age0 key a ev (determine_bound a beta alpha0) d m p null)
        alpha0 beta d1 p = (true, a)
      ∧ determine_bound a beta alpha0
        = (if a ≥ beta then Bound.BOUND_BETA
           else if a > alpha0 then Bound.BOUND_EXACT else Bound.BOUND_ALPHA) := by
  refine ⟨?_, rfl⟩
  have habs := abs_le.mp (show |a| ≤ 32767 - p by omega)
  have hdepth : ((TTEntry.new MATE_BOUND age0 key a ev (determine_bound a beta alpha0) d m p
      null).depth5 : Int) = d := by
    rw [new_depth5]; omega
  have hscore : (TTEntry.new MATE_BOUND age0 key a ev (determine_bound a beta alpha0) d m p
      null).score MATE_BOUND p = a := by
    unfold TTEntry.score
    simp only [new_score16]
    rw [asInt16_int16Bits _ (by split_ifs <;> omega) (by split_ifs <;> omega)]
    split_ifs <;> omega
  unfold can_return_ttscore
  rw [if_neg (by rw [hdepth]; omega)]
  simp only [hscore, new_bound2]
  unfold determine_bound
  by_cases h1 : a ≥ beta
  · have hab : a = beta := by omega
    simp only [h1, if_true, Bound.toNat]
    simp [hab]
  · by_cases h2 : a > alpha0
    · simp only [h1, h2, if_true, if_false, Bound.toNat]
    · have hab : a = alpha0 := by omega
      simp only [h1, h2, if_false, Bound.toNat]
      simp [hab]

/-- Witness for C26: the window `(-50, 80)`, the final value 80 (a fail high)
stored at depth 4 and ply 3, asked for at depth 2. -/
theorem stored_result_reusable_witness :
    can_return_ttscore 31000
        (TTEntry.new 31000 0 77 80 0 (determine_bound 80 80 (-50)) 4 99 3 false)
        (-50) 80 2 3 = (true, 80)
      ∧ determine_bound 80 80 (-50)
        = (if (80 : Int) ≥ 80 then Bound.BOUND_BETA
           else if (80 : Int) > -50 then Bound.BOUND_EXACT else Bound.BOUND_ALPHA) :=
  stored_result_reusable 31000 0 77 0 99 false (-50) 80 80 4 2 3 (by decide) (by decide)
    (by decide) (by decide) (by decide) (by decide) (by decide)

/-! ### The divisor of the perft report -/

/-- Claim C28, the code at the failing input: with an elapsed time of 0 ms the
divisor `delta * 1'000` of `parse_go_perft` is zero, for every board, depth
`≥ 1` and node count, so the division has no result; the divisors of the
reporting divisions of `iterative_deepening` are never zero. The division has
no result either when the extraction of the depth fails, as in `go perft`
without a depth. -/
theorem perft_divides_by_zero {B : Type} (perft : B → Int → Nat) (board_ : B) (depth : Int) :
    parse_go_perft perft board_ (IntExtraction.ok depth) 0
        = (if depth < 1 then some PerftOutcome.ignored else none)
      ∧ (∀ (elapsed : Int) (fail_high prev_nodes : Nat), 0 ≤ elapsed →
          (reportDivisors elapsed fail_high prev_nodes).1 ≠ 0
          ∧ (reportDivisors elapsed fail_high prev_nodes).2.1 ≠ 0
          ∧ (reportDivisors elapsed fail_high prev_nodes).2.2 ≠ 0)
      ∧ ∀ left : Int, parse_go_perft perft board_ (IntExtraction.failed left) 0 = none := by
  refine ⟨?_, ?_, ?_⟩
  · unfold parse_go_perft perftMnps
    by_cases h : depth < 1
    · simp [h]
    · simp [h]
  · intro elapsed fh pn he
    unfold reportDivisors
    refine ⟨by simp only; omega, by simp, ?_⟩
    simp only
    omega
  · intro left
    simp [parse_go_perft, perftMnps]

/-- Witness for C28: perft of depth 3 counting 8902 nodes in less than a
millisecond. -/
theorem perft_divides_by_zero_witness :
    parse_go_perft (fun (_ : Nat) (_ : Int) => 8902) 0 (IntExtraction.ok 3) 0 = none
      ∧ (reportDivisors 0 0 0).1 ≠ 0 :=
  ⟨(perft_divides_by_zero (fun (_ : Nat) (_ : Int) => 8902) 0 3).1,
    ((perft_divides_by_zero (fun (_ : Nat) (_ : Int) => 8902) 0 3).2.1 0 0 0 (by decide)).1⟩

/-! ### The result of the aspiration loop -/

theorem aspirationLoop_inside {H : Type} (VALUE_MATE : Int)
    (sr : SearchState H → Int → Int → Int → SearchResult H) (depth : Int) :
    ∀ (gas : Nat) (score delta alpha beta : Int) (st : SearchState H)
      (res : Int × SearchState H),
      aspirationLoop VALUE_MATE sr depth gas score delta alpha beta st = some res →
      res.2.keep_going = true →
      ∃ (a b : Int) (stm : SearchState H), sr stm a b depth = some res ∧ a < res.1
        ∧ res.1 < b := by
  intro gas
  induction gas with
  | zero => intro _ _ _ _ _ res h; simp [aspirationLoop] at h
  | succ g ih =>
    intro score delta alpha beta st res h hkg
    rw [aspirationLoop] at h
    by_cases hstop : st.keep_going = false
    · rw [if_pos hstop] at h
      simp only [Option.some.injEq] at h
      rw [← h] at hkg
      rw [hstop] at hkg
      exact absurd hkg (by decide)
    · rw [if_neg hstop] at h
      cases hsr : sr st alpha beta depth with
      | none => rw [hsr] at h; exact absurd h (by simp)
      | some r =>
        rw [hsr] at h
        simp only at h
        by_cases hlow : r.1 ≤ alpha
        · rw [if_pos hlow] at h
          exact ih _ _ _ _ _ res h hkg
        · rw [if_neg hlow] at h
          by_cases hhigh : r.1 ≥ beta
          · rw [if_pos hhigh] at h
            exact ih _ _ _ _ _ res h hkg
          · rw [if_neg hhigh] at h
            simp only [Option.some.injEq] at h
            refine ⟨alpha, beta, st, ?_, ?_, ?_⟩
            · rw [hsr, ← h]
            · rw [← h]; omega
            · rw [← h]; omega

/-- Claim C22: for `depth > 5`, `aspriration_window(prev, depth)` called while
`keep_going()` holds first calls `search_root(prev - 16, prev + 16, depth)`: it
has no result if that call has none, returns that call's result if the score
lies strictly inside the window, and otherwise continues with `delta = 24` and
the window lowered or raised. Whenever it returns with `keep_going()` still
true, what it returns is the result of a call `search_root(a, b, depth)` of its
loop with `a < score < b`. -/
theorem aspiration_result_inside_window {B H MP : Type} (env : SearchEnv B H MP) (fuel : Nat)
    (st : SearchState H) (prev depth : Int) (hd : 5 < depth) :
    (st.keep_going = true →
      aspriration_window env fuel st prev depth
        = match search_root env fuel st (prev - 16) (prev + 16) depth with
          | none => none
          | some r =>
            if r.1 ≤ prev - 16 then
              aspirationLoop env.VALUE_MATE (search_root env fuel) depth fuel r.1 (16 + 8)
                (max (-env.VALUE_MATE) (prev - 16 - 16)) (Int.tdiv (prev - 16 + (prev + 16)) 2) r.2
            else if r.1 ≥ prev + 16 then
              aspirationLoop env.VALUE_MATE (search_root env fuel) depth fuel r.1 (16 + 8)
                (prev - 16) (min env.VALUE_MATE (prev + 16 + 16)) r.2
            else some r)
    ∧ ∀ res : Int × SearchState H, aspriration_window env fuel st prev depth = some res →
        res.2.keep_going = true →
        ∃ (a b : Int) (stm : SearchState H), search_root env fuel stm a b depth = some res
          ∧ a < res.1 ∧ res.1 < b := by
  have hnd : ¬ depth ≤ 5 := by omega
  constructor
  · intro hkg
    unfold aspriration_window
    rw [if_neg hnd, aspirationLoop]
    simp only [hkg, Bool.true_eq_false, if_false]
    cases search_root env fuel st (prev - 16) (prev + 16) depth with
    | none => rfl
    | some r => rfl
  · intro res h hkg
    unfold aspriration_window at h
    rw [if_neg hnd] at h
    exact aspirationLoop_inside env.VALUE_MATE (search_root env fuel) depth _ _ _ _ _ st res h hkg

/-- Witness for C22 on the toy game: from the previous score 31990 the search of
depth 6 returns 31999 with the search still running, and 31999 lies inside the
window of the call that produced it. -/
theorem aspiration_result_inside_window_witness :
    ∃ (res : Int × SearchState Nat) (a b : Int) (stm : SearchState Nat),
      aspriration_window (toyEnv 0) 12 (toyState [1, 2]) 31990 6 = some res
        ∧ res.1 = 31999 ∧ res.2.keep_going = true
        ∧ search_root (toyEnv 0) 12 stm a b 6 = some res ∧ a < res.1 ∧ res.1 < b := by
  have hval : (aspriration_window (toyEnv 0) 12 (toyState [1, 2]) 31990 6).map
      (fun r => (r.1, r.2.keep_going)) = some (31999, true) := by decide
  cases hres : aspriration_window (toyEnv 0) 12 (toyState [1, 2]) 31990 6 with
  | none => rw [hres] at hval; exact absurd hval (by simp)
  | some res =>
    rw [hres] at hval
    simp only [Option.map_some', Option.some.injEq, Prod.mk.injEq] at hval
    obtain ⟨a, b, stm, h1, h2, h3⟩ := (aspiration_result_inside_window (toyEnv 0) 12
      (toyState [1, 2]) 31990 6 (by decide)).2 res hres hval.2
    exact ⟨res, a, b, stm, rfl, hval.1, hval.2, h1, h2, h3⟩

/-! ### Pushes on a capped stack -/

/-- Claim C24, the code at the failing inputs, with `MAX_PLIES = 6`.
`position startpos moves` with six moves leaves the stack capped, and with a
seventh move `parse_position` pushes all the same: on an array of 8 entries the
push writes index 6, on an array of `MAX_PLIES` entries it has no slot to write.
`search_root` at a root with a capped stack pushes its root moves likewise:
index 6 holds the last root move afterwards, and on an array of `MAX_PLIES`
entries the push has no slot to write. -/
theorem push_on_capped_stack :
    ((parse_position toyKey toyMoveFromStr toyDoMove 0 toyLoadFen
        ["startpos", "moves", "a", "a", "a", "a", "a", "a"] 55 roomyStack).map
          (fun r => (r.2.capped 6, r.2.total_height)) = some (true, 6)
      ∧ (parse_position toyKey toyMoveFromStr toyDoMove 0 toyLoadFen
        ["startpos", "moves", "a", "a", "a", "a", "a", "a", "a"] 55 roomyStack).map
          (fun r => (r.2.total_height, r.2.entries_[6]?))
            = some (7, some ⟨6, 1, (MOVE_NONE, MOVE_NONE), 0⟩)
      ∧ parse_position toyKey toyMoveFromStr toyDoMove 0 toyLoadFen
        ["startpos", "moves", "a", "a", "a", "a", "a", "a", "a"] 55 exampleStack = none)
    ∧ ((cappedRootState 8).stack_.capped (toyEnv 0).MAX_PLIES = true
      ∧ (cappedRootState 8).stack_.entries_[6]? = some ⟨0, 0, (0, 0), 0⟩
      ∧ (search_root (toyEnv 0) 10 (cappedRootState 8) (-32000) 32000 1).map
          (fun r => r.2.stack_.entries_[6]?)
            = some (some ⟨1, 2, (MOVE_NONE, MOVE_NONE), 0⟩)
      ∧ search_root (toyEnv 0) 10 (cappedRootState 6) (-32000) 32000 1 = none) := by
  refine ⟨⟨by decide, by decide, by decide⟩, by decide, by decide, by decide, ?_⟩
  rfl

/-! ### Killers after a fail high -/

/-- Claim C23, the code at the failing input, on the toy game: the node of
position 1 at ply 1 is entered with killers `(5, 7)`, its only move 1 is quiet
and fails high on the window `(-100, -50)`. The `push` of move 1 has written the
slot of ply 1 and reset its killers before the fail high is handled, so on
return the killers of ply 1 are `(1, MOVE_NONE)` and not `(1, 5)`. -/
theorem killers_after_fail_high :
    (killerState.stack_.at killerState.stack_.height).map StackEntry.killers = some (5, 7)
      ∧ (toyEnv 0).is_quiet 1 1 = true
      ∧ (search (toyEnv 0) 5 killerState 1 (-100) (-50) 1).map
          (fun r => (r.1, r.2.stats_.fail_high, r.2.stack_.height,
            (r.2.stack_.at r.2.stack_.height).map StackEntry.killers))
          = some (-50, 1, 1, some (1, MOVE_NONE)) := by
  decide

/-! ### put_piece and remove_piece -/

theorem or_xor_cancel (a s : Nat) (h : a &&& s = 0) : (a ||| s) ^^^ s = a := by
  apply Nat.eq_of_testBit_eq
  intro i
  have hi := congrArg (fun x => x.testBit i) h
  simp only [Nat.testBit_and, Nat.zero_testBit] at hi
  simp only [Nat.testBit_xor, Nat.testBit_or]
  cases ha : a.testBit i <;> cases hs : s.testBit i <;> simp_all

theorem and_zero_of_or (a b s : Nat) (h : (a ||| b) &&& s = 0) : a &&& s = 0 ∧ b &&& s = 0 := by
  constructor <;>
  · apply Nat.eq_of_testBit_eq
    intro i
    have hi := congrArg (fun x => x.testBit i) h
    simp only [Nat.testBit_and, Nat.testBit_or, Nat.zero_testBit] at hi
    simp only [Nat.testBit_and, Nat.zero_testBit]
    cases ha : a.testBit i <;> cases hb : b.testBit i <;> cases hs : s.testBit i <;> simp_all

theorem set_set_restore {α : Type} (l : List α) (i : Nat) (x y : α) (h : l[i]? = some x) :
    (l.set i y).set i x = l := by
  rw [List.set_set]
  apply List.ext_getElem?
  intro n
  by_cases hn : i = n
  · subst hn
    obtain ⟨hlt, _⟩ := List.getElem?_eq_some_iff.mp h
    rw [List.getElem?_set_eq_of_lt _ hlt, h]
  · rw [List.getElem?_set_ne hn]

theorem foldl_or_acc (t : Nat) :
    ∀ (l : List Nat) (acc : Nat),
      l.foldl (fun a x => a ||| x) (acc ||| t) = l.foldl (fun a x => a ||| x) acc ||| t := by
  intro l
  induction l with
  | nil => intro acc; rfl
  | cons a as ih =>
    intro acc
    simp only [List.foldl_cons]
    rw [← ih (acc ||| a)]
    congr 1
    rw [Nat.or_assoc, Nat.or_comm t a, ← Nat.or_assoc]

theorem unionOf_set (s : Nat) :
    ∀ (l : List Nat) (j x : Nat), l[j]? = some x →
      unionOf (l.set j (x ||| s)) = unionOf l ||| s := by
  unfold unionOf
  suffices h : ∀ (l : List Nat) (acc j x : Nat), l[j]? = some x →
      (l.set j (x ||| s)).foldl (fun a x => a ||| x) acc
        = l.foldl (fun a x => a ||| x) acc ||| s from fun l j x hx => h l 0 j x hx
  intro l
  induction l with
  | nil => intro acc j x h; simp at h
  | cons a as ih =>
    intro acc j x h
    cases j with
    | zero =>
      simp only [List.getElem?_cons_zero, Option.some.injEq] at h
      subst h
      simp only [List.set_cons_zero, List.foldl_cons]
      rw [← Nat.or_assoc, foldl_or_acc]
    | succ j =>
      simp only [List.getElem?_cons_succ] at h
      simp only [List.set_cons_succ, List.foldl_cons]
      exact ih _ j x h

theorem unionOf_disjoint (s : Nat) :
    ∀ (l : List Nat), unionOf l &&& s = 0 → ∀ x ∈ l, x &&& s = 0 := by
  unfold unionOf
  suffices h : ∀ (l : List Nat) (acc : Nat),
      l.foldl (fun a x => a ||| x) acc &&& s = 0 → acc &&& s = 0 ∧ ∀ x ∈ l, x &&& s = 0 from
    fun l hl => (h l 0 hl).2
  intro l
  induction l with
  | nil => intro acc h; exact ⟨h, fun x hx => absurd hx (List.not_mem_nil x)⟩
  | cons a as ih =>
    intro acc h
    simp only [List.foldl_cons] at h
    obtain ⟨h1, h2⟩ := ih _ h
    obtain ⟨h3, h4⟩ := and_zero_of_or acc a s h1
    refine ⟨h3, fun x hx => ?_⟩
    rcases List.mem_cons.mp hx with rfl | hx
    · exact h4
    · exact h2 x hx
theorem or_and_self (a s : Nat) : (a ||| s) &&& s = s := by
  apply Nat.eq_of_testBit_eq
  intro i
  simp only [Nat.testBit_and, Nat.testBit_or]
  cases a.testBit i <;> cases s.testBit i <;> rfl

theorem or_right_comm (a b s : Nat) : (a ||| b) ||| s = (a ||| s) ||| b := by
  apply Nat.eq_of_testBit_eq
  intro i
  simp only [Nat.testBit_or]
  cases a.testBit i <;> cases b.testBit i <;> cases s.testBit i <;> rfl

theorem or_and_zero (a s k : Nat) (h1 : a &&& k = 0) (h2 : s &&& k = 0) :
    (a ||| s) &&& k = 0 := by
  apply Nat.eq_of_testBit_eq
  intro i
  have g1 := congrArg (fun x => x.testBit i) h1
  have g2 := congrArg (fun x => x.testBit i) h2
  simp only [Nat.testBit_and, Nat.zero_testBit] at g1 g2
  simp only [Nat.testBit_and, Nat.testBit_or, Nat.zero_testBit]
  cases ha : a.testBit i <;> cases hs : s.testBit i <;> cases hk : k.testBit i <;> simp_all

theorem put_piece_consistent (ops : PieceOps) (b : PieceBoard) (p s cc pc : Nat) (mat : Int)
    (hcons : b.Consistent) (hempty : b.combined_ &&& ops.square_bb s = 0)
    (hcc : b.color_combined_[ops.color_of p]? = some cc)
    (hpc : b.pieces_[ops.type_of p]? = some pc) :
    PieceBoard.Consistent
      { combined_ := b.combined_ ||| ops.square_bb s
        color_combined_ := b.color_combined_.set (ops.color_of p) (cc ||| ops.square_bb s)
        pieces_ := b.pieces_.set (ops.type_of p) (pc ||| ops.square_bb s)
        pieces_on_ := b.pieces_on_.set s p
        material_ := b.material_.set (ops.color_of p) (mat + ops.mg_value (ops.type_of p))
        key_ := b.key_ ^^^ ops.psq p s } := by
  obtain ⟨w, k, hlist, hcomb, hdis, huni⟩ := hcons
  have hwk := and_zero_of_or w k (ops.square_bb s) (by rw [← hcomb]; exact hempty)
  rw [hlist] at hcc
  generalize ops.color_of p = c at hcc
  generalize ops.square_bb s = sbb at hempty hwk
  have hun : b.combined_ ||| sbb = unionOf (b.pieces_.set (ops.type_of p) (pc ||| sbb)) := by
    rw [unionOf_set sbb b.pieces_ _ pc hpc, ← huni]
  rcases c with _ | _ | c
  · simp only [List.getElem?_cons_zero, Option.some.injEq] at hcc
    subst hcc
    refine ⟨w ||| sbb, k, ?_, ?_, ?_, hun⟩
    · simp only [hlist, List.set_cons_zero]
    · simp only [hcomb]
      exact or_right_comm w k sbb
    · exact or_and_zero w sbb k hdis (by rw [Nat.and_comm]; exact hwk.2)
  · simp only [List.getElem?_cons_succ, List.getElem?_cons_zero, Option.some.injEq] at hcc
    subst hcc
    refine ⟨w, k ||| sbb, ?_, ?_, ?_, hun⟩
    · simp only [hlist, List.set_cons_succ, List.set_cons_zero]
    · simp only [hcomb]
      exact Nat.or_assoc w k sbb
    · rw [Nat.and_comm]
      exact or_and_zero k sbb w (by rw [Nat.and_comm]; exact hdis)
        (by rw [Nat.and_comm]; exact hwk.1)
  · simp at hcc

theorem stored_result_lost_for_every_bound (MATE_BOUND : Int) (h0 : 0 ≤ MATE_BOUND)
    (h1 : MATE_BOUND ≤ 32766) :
    can_return_ttscore MATE_BOUND
      (TTEntry.new MATE_BOUND 0 1 (-32767) 0 (determine_bound (-32767) 0 (-32767)) 1 0 2 false)
      (-32767) 0 1 2 = (false, -32767) := by
  have hb : determine_bound (-32767) 0 (-32767) = Bound.BOUND_ALPHA := by decide
  have hscore : (TTEntry.new MATE_BOUND 0 1 (-32767) 0 Bound.BOUND_ALPHA 1 0 2 false).score16
      = 32767 := by
    rw [new_score16, if_neg (by omega), if_pos (by omega)]
    decide
  have hdepth : (TTEntry.new MATE_BOUND 0 1 (-32767) 0 Bound.BOUND_ALPHA 1 0 2 false).depth5
      = 1 := by
    rw [new_depth5]; decide
  rw [hb]
  unfold can_return_ttscore TTEntry.score
  simp only [hscore, hdepth, new_bound2, Bound.toNat]
  have hlt : (32767 : Int) > MATE_BOUND := by omega
  simp only [hlt, if_true]
  norm_num

theorem partlyFullThousand_count : occupiedCount partlyFullThousand = 400 := by
  have hA : List.countP (hashfullOccupied 1)
      [storedSlot 1 entryFive, storedSlot 0 entrySeven, ⟨0, 0⟩] = 1 := by decide
  have hZ : List.countP (hashfullOccupied 1) [(⟨0, 0⟩ : TTEntry), ⟨0, 0⟩, ⟨0, 0⟩] = 0 := by
    decide
  unfold occupiedCount
  rw [List.take_of_length_le (by
    simp only [partlyFullThousand, List.length_append, List.length_replicate]; decide)]
  simp only [partlyFullThousand, List.map_append, List.map_replicate, List.sum_append,
    List.sum_replicate, hA, hZ, smul_eq_mul]

/-- Witness for C18: in `partlyFullThousand` 400 of the 3000 slots of the first
1000 buckets have a non-zero depth and the current age (the 400 entries of age
0 do not count), and `hashfull` returns `400 / 3 = 133`. -/
theorem hashfull_permille_witness :
    1000 ≤ partlyFullThousand.size_
    ∧ occupiedCount partlyFullThousand = 400
    ∧ partlyFullThousand.hashfull 3 = some 133
    ∧ occupiedCount partlyFullThousand / 3 ≤ 1000
    ∧ ¬ (∀ b ∈ partlyFullThousand.buckets_.take 1000, ∀ e ∈ b,
          e.depth5 ≠ 0 ∧ e.age = partlyFullThousand.age_) := by
  have hsize : 1000 ≤ partlyFullThousand.size_ := by
    simp only [TranspositionTable.size_, partlyFullThousand, List.length_append,
      List.length_replicate]
    decide
  have h := hashfull_permille partlyFullThousand 3 (by decide) hsize
    (by
      intro b hb
      have hb2 := List.mem_of_mem_take hb
      simp only [partlyFullThousand, List.mem_append, List.mem_replicate] at hb2
      rcases hb2 with ⟨_, rfl⟩ | ⟨_, rfl⟩ <;> rfl)
  have hc := partlyFullThousand_count
  refine ⟨hsize, hc, ?_, h.2.1, ?_⟩
  · rw [h.1, hc]
  · intro hall
    have h1000 := h.2.2.mpr hall
    rw [hc] at h1000
    exact absurd h1000 (by decide)

theorem xor_and_self (a s : Nat) (h : a &&& s = s) : (a ^^^ s) &&& s = 0 := by
  apply Nat.eq_of_testBit_eq
  intro i
  have hi := congrArg (fun x => x.testBit i) h
  simp only [Nat.testBit_and] at hi
  simp only [Nat.testBit_and, Nat.testBit_xor, Nat.zero_testBit]
  cases ha : a.testBit i <;> cases hs : s.testBit i <;> simp_all

theorem or_xor_or (acc a s : Nat) (h : a &&& s = s) :
    (acc ||| (a ^^^ s)) ||| s = acc ||| a := by
  apply Nat.eq_of_testBit_eq
  intro i
  have hi := congrArg (fun x => x.testBit i) h
  simp only [Nat.testBit_and] at hi
  simp only [Nat.testBit_or, Nat.testBit_xor]
  cases hc : acc.testBit i <;> cases ha : a.testBit i <;> cases hs : s.testBit i <;> simp_all

theorem or_xor_left (w k s : Nat) (hw : w &&& s = s) (hd : w &&& k = 0) :
    (w ||| k) ^^^ s = (w ^^^ s) ||| k ∧ (w ^^^ s) &&& k = 0 := by
  constructor <;>
  · apply Nat.eq_of_testBit_eq
    intro i
    have g1 := congrArg (fun x => x.testBit i) hw
    have g2 := congrArg (fun x => x.testBit i) hd
    simp only [Nat.testBit_and, Nat.zero_testBit] at g1 g2
    simp only [Nat.testBit_or, Nat.testBit_xor, Nat.testBit_and, Nat.zero_testBit]
    cases hw1 : w.testBit i <;> cases hk : k.testBit i <;> cases hs : s.testBit i <;> simp_all

theorem foldl_or_disjoint (s : Nat) :
    ∀ (l : List Nat) (acc : Nat), acc &&& s = 0 → (∀ y ∈ l, y &&& s = 0) →
      l.foldl (fun a x => a ||| x) acc &&& s = 0 := by
  intro l
  induction l with
  | nil => intro acc h _; exact h
  | cons a as ih =>
    intro acc h hall
    simp only [List.foldl_cons]
    exact ih _ (or_and_zero acc a s h (hall a (List.mem_cons_self _ _)))
      (fun y hy => hall y (List.mem_cons_of_mem _ hy))

theorem unionOf_set_xor (s : Nat) :
    ∀ (l : List Nat) (j x : Nat), l[j]? = some x → x &&& s = s →
      (∀ (i y : Nat), i ≠ j → l[i]? = some y → y &&& s = 0) →
      unionOf (l.set j (x ^^^ s)) = unionOf l ^^^ s := by
  unfold unionOf
  suffices h : ∀ (l : List Nat) (acc j x : Nat), l[j]? = some x → x &&& s = s →
      acc &&& s = 0 → (∀ (i y : Nat), i ≠ j → l[i]? = some y → y &&& s = 0) →
      (l.set j (x ^^^ s)).foldl (fun a x => a ||| x) acc
        = l.foldl (fun a x => a ||| x) acc ^^^ s from
    fun l j x hx hxs hoth => h l 0 j x hx hxs (Nat.zero_and s) hoth
  intro l
  induction l with
  | nil => intro acc j x h; simp at h
  | cons a as ih =>
    intro acc j x h hxs hacc hoth
    cases j with
    | zero =>
      simp only [List.getElem?_cons_zero, Option.some.injEq] at h
      subst h
      simp only [List.set_cons_zero, List.foldl_cons]
      have hB : (acc ||| (a ^^^ s)) &&& s = 0 := or_and_zero acc _ s hacc (xor_and_self a s hxs)
      have hrest : ∀ y ∈ as, y &&& s = 0 := by
        intro y hy
        obtain ⟨n, hn⟩ := List.getElem?_of_mem hy
        exact hoth (n + 1) y (by omega) (by simpa using hn)
      have hR : as.foldl (fun a x => a ||| x) (acc ||| a)
          = as.foldl (fun a x => a ||| x) (acc ||| (a ^^^ s)) ||| s := by
        rw [← or_xor_or acc a s hxs]
        exact foldl_or_acc s as (acc ||| (a ^^^ s))
      rw [hR, or_xor_cancel _ _ (foldl_or_disjoint s as _ hB hrest)]
    | succ j =>
      simp only [List.getElem?_cons_succ] at h
      simp only [List.set_cons_succ, List.foldl_cons]
      have ha : a &&& s = 0 := hoth 0 a (by omega) (by simp)
      exact ih _ j x h hxs (or_and_zero acc a s hacc ha)
        (fun i y hi hy => hoth (i + 1) y (by omega) (by simpa using hy))

theorem remove_piece_consistent (ops : PieceOps) (b b2 : PieceBoard) (s p cc pc : Nat)
    (hcons : b.Consistent) (hp : b.pieces_on_[s]? = some p)
    (hcc : b.color_combined_[ops.color_of p]? = some cc) (hccs : cc &&& ops.square_bb s = ops.square_bb s)
    (hpc : b.pieces_[ops.type_of p]? = some pc) (hpcs : pc &&& ops.square_bb s = ops.square_bb s)
    (hoth : ∀ (j x : Nat), j ≠ ops.type_of p → b.pieces_[j]? = some x →
      x &&& ops.square_bb s = 0)
    (hrem : remove_piece ops b s = some b2) : b2.Consistent := by
  obtain ⟨w, k, hlist, hcomb, hdis, huni⟩ := hcons
  unfold remove_piece at hrem
  by_cases hpre : ops.is_ok_square s = true ∧ b.combined_ &&& ops.square_bb s ≠ 0
  · rw [if_pos hpre, hp] at hrem
    simp only [hcc, hpc] at hrem
    cases hmat : b.material_[ops.color_of p]? with
    | none => rw [hmat] at hrem; exact absurd hrem (by simp)
    | some mat =>
      rw [hmat] at hrem
      simp only [Option.some.injEq] at hrem
      rw [← hrem]
      rw [hlist] at hcc
      generalize ops.color_of p = c at hcc
      generalize ops.square_bb s = sbb at hccs hpcs hoth
      have hun : b.combined_ ^^^ sbb = unionOf (b.pieces_.set (ops.type_of p) (pc ^^^ sbb)) := by
        rw [unionOf_set_xor sbb b.pieces_ _ pc hpc hpcs hoth, ← huni]
      rcases c with _ | _ | c
      · simp only [List.getElem?_cons_zero, Option.some.injEq] at hcc
        subst hcc
        obtain ⟨e1, e2⟩ := or_xor_left w k sbb hccs hdis
        refine ⟨w ^^^ sbb, k, ?_, ?_, e2, hun⟩
        · simp only [hlist, List.set_cons_zero]
        · simp only [hcomb]
          exact e1
      · simp only [List.getElem?_cons_succ, List.getElem?_cons_zero, Option.some.injEq] at hcc
        subst hcc
        obtain ⟨e1, e2⟩ := or_xor_left k w sbb hccs (by rw [Nat.and_comm]; exact hdis)
        refine ⟨w, k ^^^ sbb, ?_, ?_, ?_, hun⟩
        · simp only [hlist, List.set_cons_succ, List.set_cons_zero]
        · simp only [hcomb]
          rw [Nat.or_comm w k, e1, Nat.or_comm]
        · rw [Nat.and_comm]
          exact e2
      · simp at hcc
  · rw [if_neg hpre] at hrem
    exact absurd hrem (by simp)

/-- Counterexample to C29 as stated. On `strayBoard` square 12 is empty in the
claim's sense (its bit is clear in `combined_` and `pieces_on_[12]` is
`NO_PIECE`), yet `put_piece` followed by `remove_piece` does not restore the
white board, which held a stray bit of square 12. And `badBoard` satisfies the
consistency invariant, yet `remove_piece(12)` breaks it, because `pieces_on_[12]`
names a piece of the other colour: afterwards `combined_` is empty and both
colour boards hold square 12. -/
theorem round_trip_needs_invariant :
    (strayBoard.combined_ &&& toyPieceOps.square_bb 12 = 0
      ∧ strayBoard.pieces_on_[12]? = some toyPieceOps.NO_PIECE
      ∧ toyPieceOps.is_ok_piece 1 = true
      ∧ strayBoard.color_combined_ = [2 ^ 4 + 2 ^ 12, 2 ^ 60]
      ∧ ((put_piece toyPieceOps strayBoard 1 12).bind
          (fun b1 => remove_piece toyPieceOps b1 12)).map (fun b2 => b2.color_combined_)
        = some [2 ^ 4, 2 ^ 60])
    ∧ (badBoard.Consistent ∧ badBoard.combined_ &&& toyPieceOps.square_bb 12 ≠ 0
      ∧ ∃ b2, remove_piece toyPieceOps badBoard 12 = some b2 ∧ b2.combined_ = 0
          ∧ b2.color_combined_ = [2 ^ 12, 2 ^ 12] ∧ ¬ b2.Consistent) := by
  refine ⟨⟨by decide, by decide, by decide, by decide, by decide⟩,
    ⟨2 ^ 12, 0, rfl, by decide, by decide, by decide⟩, by decide, ?_⟩
  have hval : (remove_piece toyPieceOps badBoard 12).map
      (fun b2 => (b2.combined_, b2.color_combined_)) = some (0, [2 ^ 12, 2 ^ 12]) := by decide
  cases hb : remove_piece toyPieceOps badBoard 12 with
  | none => rw [hb] at hval; exact absurd hval (by simp)
  | some b2 =>
    rw [hb] at hval
    simp only [Option.map_some', Option.some.injEq, Prod.mk.injEq] at hval
    refine ⟨b2, rfl, hval.1, hval.2, ?_⟩
    rintro ⟨w, k, hl, hc, _, _⟩
    rw [hval.2] at hl
    rw [hval.1] at hc
    simp only [List.cons.injEq, and_true] at hl
    rw [← hl.1, ← hl.2] at hc
    exact absurd hc (by decide)

/-- Claim C29, amended. On a board that satisfies the consistency invariant and
on which square `s` is empty (its bit is clear in `combined_` and
`pieces_on_[s]` is `NO_PIECE`), for a valid piece `p` (its colour and type index
the arrays): `put_piece(p, s)` succeeds and its result satisfies the invariant,
and `remove_piece(s)` on that result succeeds and yields the board it started
from, in all of `combined_`, `color_combined_`, `pieces_`, `pieces_on_`,
`material_` and `key_`, and satisfies the invariant. And on every board `c` that
satisfies the invariant, `remove_piece(t)` preserves it when `pieces_on_[t]`
names a piece whose colour board and type board hold the bits of square `t`
and no other board of `pieces_` holds any of them. -/
theorem put_remove_round_trip (ops : PieceOps) (b : PieceBoard) (p s : Nat)
    (hcons : b.Consistent) (hokp : ops.is_ok_piece p = true) (hoks : ops.is_ok_square s = true)
    (hbb : ops.square_bb s ≠ 0) (ht : ops.type_of p < b.pieces_.length)
    (hm : ops.color_of p < b.material_.length) (hc : ops.color_of p < 2)
    (hempty : b.combined_ &&& ops.square_bb s = 0)
    (hon : b.pieces_on_[s]? = some ops.NO_PIECE) :
    (∃ b1 b2, put_piece ops b p s = some b1 ∧ b1.Consistent
      ∧ b1.pieces_on_[s]? = some p ∧ b1.combined_ &&& ops.square_bb s = ops.square_bb s
      ∧ remove_piece ops b1 s = some b2 ∧ b2.Consistent
      ∧ b2.combined_ = b.combined_ ∧ b2.color_combined_ = b.color_combined_
      ∧ b2.pieces_ = b.pieces_ ∧ b2.pieces_on_ = b.pieces_on_
      ∧ b2.material_ = b.material_ ∧ b2.key_ = b.key_)
    ∧ ∀ (c c2 : PieceBoard) (t q cc pc : Nat), c.Consistent → c.pieces_on_[t]? = some q →
        c.color_combined_[ops.color_of q]? = some cc →
        cc &&& ops.square_bb t = ops.square_bb t →
        c.pieces_[ops.type_of q]? = some pc → pc &&& ops.square_bb t = ops.square_bb t →
        (∀ (j x : Nat), j ≠ ops.type_of q → c.pieces_[j]? = some x →
          x &&& ops.square_bb t = 0) →
        remove_piece ops c t = some c2 → c2.Consistent := by
  refine ⟨?_, fun c c2 t q cc pc h1 h2 h3 h4 h5 h6 h7 h8 =>
    remove_piece_consistent ops c c2 t q cc pc h1 h2 h3 h4 h5 h6 h7 h8⟩
  have hcons1 := hcons
  obtain ⟨w, k, hlist, hcomb, hdis, huni⟩ := hcons1
  obtain ⟨hs, _⟩ := List.getElem?_eq_some_iff.mp hon
  have hclen : ops.color_of p < b.color_combined_.length := by rw [hlist]; exact hc
  have hcc : b.color_combined_[ops.color_of p]? = some (b.color_combined_[ops.color_of p]) :=
    List.getElem?_eq_getElem hclen
  have hpc : b.pieces_[ops.type_of p]? = some (b.pieces_[ops.type_of p]) :=
    List.getElem?_eq_getElem ht
  have hmat : b.material_[ops.color_of p]? = some (b.material_[ops.color_of p]) :=
    List.getElem?_eq_getElem hm
  have hwk := and_zero_of_or w k (ops.square_bb s) (by rw [← hcomb]; exact hempty)
  have hccz : b.color_combined_[ops.color_of p] &&& ops.square_bb s = 0 := by
    have hmem : b.color_combined_[ops.color_of p] ∈ b.color_combined_ :=
      List.getElem_mem hclen
    generalize b.color_combined_[ops.color_of p] = x at hmem ⊢
    rw [hlist] at hmem
    simp only [List.mem_cons, List.mem_singleton, List.not_mem_nil, or_false] at hmem
    rcases hmem with h | h
    · rw [h]; exact hwk.1
    · rw [h]; exact hwk.2
  have hpcz : b.pieces_[ops.type_of p] &&& ops.square_bb s = 0 :=
    unionOf_disjoint _ b.pieces_ (by rw [← huni]; exact hempty) _ (List.getElem_mem ht)
  generalize b.color_combined_[ops.color_of p] = cc at hcc hccz
  generalize b.pieces_[ops.type_of p] = pc at hpc hpcz
  generalize b.material_[ops.color_of p] = mat at hmat
  have hput : put_piece ops b p s = some
      { combined_ := b.combined_ ||| ops.square_bb s
        color_combined_ := b.color_combined_.set (ops.color_of p) (cc ||| ops.square_bb s)
        pieces_ := b.pieces_.set (ops.type_of p) (pc ||| ops.square_bb s)
        pieces_on_ := b.pieces_on_.set s p
        material_ := b.material_.set (ops.color_of p) (mat + ops.mg_value (ops.type_of p))
        key_ := b.key_ ^^^ ops.psq p s } := by
    unfold put_piece
    rw [if_pos ⟨hokp, hoks, hempty, hs⟩, hcc, hpc, hmat]
  have hrem : remove_piece ops
      { combined_ := b.combined_ ||| ops.square_bb s
        color_combined_ := b.color_combined_.set (ops.color_of p) (cc ||| ops.square_bb s)
        pieces_ := b.pieces_.set (ops.type_of p) (pc ||| ops.square_bb s)
        pieces_on_ := b.pieces_on_.set s p
        material_ := b.material_.set (ops.color_of p) (mat + ops.mg_value (ops.type_of p))
        key_ := b.key_ ^^^ ops.psq p s } s = some b := by
    unfold remove_piece
    simp only
    rw [if_pos ⟨hoks, by rw [or_and_self]; exact hbb⟩, List.getElem?_set_eq_of_lt _ hs]
    simp only
    rw [List.getElem?_set_eq_of_lt _ hclen, List.getElem?_set_eq_of_lt _ ht,
      List.getElem?_set_eq_of_lt _ hm]
    simp only
    rw [or_xor_cancel _ _ hempty, or_xor_cancel _ _ hccz, or_xor_cancel _ _ hpcz,
      set_set_restore _ _ _ _ hcc, set_set_restore _ _ _ _ hpc, set_set_restore _ _ _ _ hon,
      add_sub_cancel_right, set_set_restore _ _ _ _ hmat, Nat.xor_assoc, Nat.xor_self,
      Nat.xor_zero]
  have hcons1 := put_piece_consistent ops b p s cc pc mat hcons hempty hcc hpc
  have hcons2 := remove_piece_consistent ops _ b s p (cc ||| ops.square_bb s)
    (pc ||| ops.square_bb s) hcons1 (List.getElem?_set_eq_of_lt _ hs)
    (List.getElem?_set_eq_of_lt _ hclen) (or_and_self _ _) (List.getElem?_set_eq_of_lt _ ht)
    (or_and_self _ _)
    (fun j x hj hx => by
      rw [List.getElem?_set_ne (fun h => hj h.symm)] at hx
      exact unionOf_disjoint _ b.pieces_ (by rw [← huni]; exact hempty) _
        (List.getElem?_mem hx))
    hrem
  exact ⟨_, b, hput, hcons1, List.getElem?_set_eq_of_lt _ hs, or_and_self _ _, hrem, hcons2,
    rfl, rfl, rfl, rfl, rfl, rfl⟩

/-- Witness for C29: a white pawn (piece 1) put on the empty square 12 of the toy
board and removed again; and the pawn of `pawnBoard` removed from square 12,
which leaves a board that satisfies the invariant. -/
theorem put_remove_round_trip_witness :
    (∃ b1 b2, put_piece toyPieceOps toyPieceBoard 1 12 = some b1 ∧ b1.Consistent
      ∧ b1.pieces_on_[12]? = some 1
      ∧ b1.combined_ &&& toyPieceOps.square_bb 12 = toyPieceOps.square_bb 12
      ∧ remove_piece toyPieceOps b1 12 = some b2 ∧ b2.Consistent
      ∧ b2.combined_ = toyPieceBoard.combined_
      ∧ b2.color_combined_ = toyPieceBoard.color_combined_
      ∧ b2.pieces_ = toyPieceBoard.pieces_ ∧ b2.pieces_on_ = toyPieceBoard.pieces_on_
      ∧ b2.material_ = toyPieceBoard.material_ ∧ b2.key_ = toyPieceBoard.key_)
    ∧ remove_piece toyPieceOps pawnBoard 12
        = some { toyPieceBoard with key_ := 4242 ^^^ 77 }
    ∧ PieceBoard.Consistent { toyPieceBoard with key_ := 4242 ^^^ 77 } := by
  have h := put_remove_round_trip toyPieceOps toyPieceBoard 1 12
    ⟨2 ^ 4, 2 ^ 60, rfl, by decide, by decide, by decide⟩ (by decide) (by decide) (by decide)
    (by decide) (by decide) (by decide) (by decide) (by decide)
  have hrem : remove_piece toyPieceOps pawnBoard 12
      = some { toyPieceBoard with key_ := 4242 ^^^ 77 } := by decide
  refine ⟨h.1, hrem, ?_⟩
  refine h.2 pawnBoard _ 12 1 (2 ^ 4 + 2 ^ 12) (2 ^ 12)
    ⟨2 ^ 4 + 2 ^ 12, 2 ^ 60, rfl, by decide, by decide, by decide⟩ (by decide) (by decide)
    (by decide) (by decide) (by decide) ?_ hrem
  intro j x hj hx
  have hj8 : j < 8 := (List.getElem?_eq_some_iff.mp hx).1
  interval_cases j
  · simp [pawnBoard] at hx; subst hx; decide
  · exact absurd rfl hj
  · simp [pawnBoard] at hx; subst hx; decide
  · simp [pawnBoard] at hx; subst hx; decide
  · simp [pawnBoard] at hx; subst hx; decide
  · simp [pawnBoard] at hx; subst hx; decide
  · simp [pawnBoard] at hx; subst hx; decide
  · simp [pawnBoard] at hx; subst hx; decide

end GmBit
